import Mathlib

/-! # dud: lexical scanner and allocator abstraction

A shallow embedding of `src/lexer.c`, `src/lexer.h` and `src/allocator.{h,c}`.

Conventions of the embedding.

* A source buffer is a `List Char`: the bytes in front of the terminating NUL.
  Reading the buffer at index `i` is `char_at src i`; at `i = src.length` it
  gives the terminator `'\0'`.
* Pointers into the source (`start`, `current`) are indices into that list.
* Heap addresses are natural numbers, `none` is `NULL`.
* The allocator a lexer was initialised with is passed to the scanning
  functions as the argument `A`; the mutable state behind its `context`
  pointer (and the C heap) is threaded explicitly as `heap`.
* Every C loop is a fuelled recursion that answers `none` when the fuel runs
  out; the callers supply `loop_fuel`, and the theorems state results of the
  form `some _`.
* `size_t` values (`line`, lengths) are natural numbers: each is bounded by
  the length of the source plus one, which fits the address space.
-/

namespace Dud

/-! ## Data model (`lexer.h`, `allocator.h`) -/

/-- The enumeration `TokenType` of `lexer.h`, in declaration order. -/
inductive TokenType where
  | TOKEN_LEFT_PAREN
  | TOKEN_RIGHT_PAREN
  | TOKEN_LEFT_BRACE
  | TOKEN_RIGHT_BRACE
  | TOKEN_LEFT_BRACKET
  | TOKEN_RIGHT_BRACKET
  | TOKEN_COMMA
  | TOKEN_DOT
  | TOKEN_SEMICOLON
  | TOKEN_COLON
  | TOKEN_CARET
  | TOKEN_BANG
  | TOKEN_BANG_EQUAL
  | TOKEN_EQUAL
  | TOKEN_EQUAL_EQUAL
  | TOKEN_GREATER
  | TOKEN_GREATER_EQUAL
  | TOKEN_LESS
  | TOKEN_LESS_EQUAL
  | TOKEN_PLUS
  | TOKEN_PLUS_PLUS
  | TOKEN_PLUS_EQUAL
  | TOKEN_MINUS
  | TOKEN_MINUS_MINUS
  | TOKEN_MINUS_EQUAL
  | TOKEN_MUL
  | TOKEN_MUL_EQUAL
  | TOKEN_DIV
  | TOKEN_DIV_EQUAL
  | TOKEN_REM
  | TOKEN_REM_EQUAL
  | TOKEN_IDENTIFIER
  | TOKEN_STRING
  | TOKEN_INTEGER
  | TOKEN_FLOAT
  | TOKEN_IMPORT
  | TOKEN_LET
  | TOKEN_CONST
  | TOKEN_FN
  | TOKEN_IF
  | TOKEN_ELSE
  | TOKEN_TRUE
  | TOKEN_FALSE
  | TOKEN_FOR
  | TOKEN_WHILE
  | TOKEN_DO
  | TOKEN_RETURN
  | TOKEN_CONTINUE
  | TOKEN_BREAK
  | TOKEN_HEAP
  | TOKEN_STRUCT
  | TOKEN_UNION
  | TOKEN_ENUM
  | TOKEN_TYPE
  | TOKEN_NULL
  | TOKEN_PUB
  | TOKEN_ERROR
  | TOKEN_EOF
  deriving DecidableEq, Repr

open TokenType

/-- A non-null `char *lexeme`: the address of the block and the text stored in
it in front of the terminating NUL. -/
structure Lexeme where
  ptr : Nat
  text : List Char
  deriving DecidableEq, Repr

/-- The struct `Token`; `lexeme = none` is the null pointer. -/
structure Token where
  type : TokenType
  line : Nat
  lexeme : Option Lexeme
  deriving DecidableEq, Repr

/-- The struct `Lexer` without its `allocator` pointer: the borrowed source
buffer and the two cursors into it. -/
structure Lexer where
  src : List Char
  start : Nat
  current : Nat
  line : Nat
  deriving DecidableEq, Repr

/-- The struct `Allocator`: the three function pointers, acting on the state
`α` behind the `context` pointer. `ALLOC`, `REALLOC` and `FREE` of
`allocator.h` are the applications of these fields. -/
structure Allocator (α : Type) where
  alloc : α → Nat → String → Option Nat × α
  realloc : α → Option Nat → Nat → Nat → String → Option Nat × α
  free : α → Option Nat → Nat → String → α

/-- The C library heap as the program observes it: the outcomes of the
`malloc`/`realloc` calls still to come, an address or `none` for `NULL`. An
exhausted list answers `NULL`. -/
structure Heap where
  pending : List (Option Nat)
  deriving DecidableEq, Repr

/-- The library call `malloc(size)`. -/
def malloc (heap : Heap) (_size : Nat) : Option Nat × Heap :=
  match heap.pending with
  | [] => (none, heap)
  | r :: rest => (r, ⟨rest⟩)

/-- The function `raw_alloc`: `return malloc(size)`. -/
def raw_alloc (context : Heap) (size : Nat) (_tag : String) : Option Nat × Heap :=
  malloc context size

/-- The function `raw_realloc`: `return realloc(ptr, new_size)`; the library
call draws its outcome from the heap like `malloc`. -/
def raw_realloc (context : Heap) (_ptr : Option Nat) (_old_size new_size : Nat)
    (_tag : String) : Option Nat × Heap :=
  malloc context new_size

/-- The function `raw_free`: `free(ptr)`, without an observable effect. -/
def raw_free (context : Heap) (_ptr : Option Nat) (_size : Nat) (_tag : String) : Heap :=
  context

/-- The global `raw_allocator`. -/
def raw_allocator : Allocator Heap := ⟨raw_alloc, raw_realloc, raw_free⟩

/-! ## Character classes and C strings (`ctype.h`, `string.h`, "C" locale) -/

/-- The byte at index `i` of a NUL-terminated buffer. -/
def char_at (src : List Char) (i : Nat) : Char := src.getD i '\x00'

/-- The library call `isdigit`. -/
def isdigit (c : Char) : Bool := c.isDigit

/-- The library call `isalpha`. -/
def isalpha (c : Char) : Bool := c.isAlpha

/-- The library call `isalnum`. -/
def isalnum (c : Char) : Bool := c.isAlphanum

/-- The library call `strlen`: the number of bytes in front of the first NUL. -/
def strlen : List Char → Nat
  | [] => 0
  | c :: cs => if c = '\x00' then 0 else strlen cs + 1

/-! ## The scanner (`lexer.c`) -/

/-- The function `is_at_end`: `*lexer->current == 0`. -/
def is_at_end (lexer : Lexer) : Bool := char_at lexer.src lexer.current == '\x00'

/-- The function `advance`: `current++`, returning the byte stepped over. -/
def advance (lexer : Lexer) : Char × Lexer :=
  (char_at lexer.src lexer.current, { lexer with current := lexer.current + 1 })

/-- The function `peek`. -/
def peek (lexer : Lexer) : Char := char_at lexer.src lexer.current

/-- The function `peek_next`. -/
def peek_next (lexer : Lexer) : Char :=
  if is_at_end lexer then '\x00' else char_at lexer.src (lexer.current + 1)

/-- The function `match` of `lexer.c`: consume `expected` when it is next. -/
def match_char (lexer : Lexer) (expected : Char) : Bool × Lexer :=
  if is_at_end lexer then (false, lexer)
  else if char_at lexer.src lexer.current ≠ expected then (false, lexer)
  else (true, { lexer with current := lexer.current + 1 })

/-- The function `make_token`. The lexeme is the `len` bytes from `start`. -/
def make_token {α : Type} (A : Allocator α) (lexer : Lexer) (type : TokenType) (heap : α) :
    Token × α :=
  if type = TOKEN_IDENTIFIER ∨ type = TOKEN_STRING ∨ type = TOKEN_ERROR ∨
      type = TOKEN_INTEGER ∨ type = TOKEN_FLOAT then
    let len := lexer.current - lexer.start
    match A.alloc heap (len + 1) "TokenLexeme" with
    | (some p, heap1) =>
      (⟨type, lexer.line, some ⟨p, (lexer.src.drop lexer.start).take len⟩⟩, heap1)
    | (none, heap1) => (⟨type, lexer.line, none⟩, heap1)
  else (⟨type, lexer.line, none⟩, heap)

/-- The function `make_error_token`: the message is copied with `strcpy`. -/
def make_error_token {α : Type} (A : Allocator α) (lexer : Lexer) (message : List Char)
    (heap : α) : Token × α :=
  let len := strlen message
  match A.alloc heap (len + 1) "TokenError" with
  | (some p, heap1) => (⟨TOKEN_ERROR, lexer.line, some ⟨p, message.take len⟩⟩, heap1)
  | (none, heap1) => (⟨TOKEN_ERROR, lexer.line, none⟩, heap1)

/-- A C loop `while (cond) body`: `none` when the fuel does not suffice. -/
def while_loop (cond : Lexer → Bool) (body : Lexer → Lexer) : Nat → Lexer → Option Lexer
  | 0, _ => none
  | fuel + 1, lexer =>
    if cond lexer then while_loop cond body fuel (body lexer) else some lexer

/-- Fuel that lets every loop of the scanner reach the terminator. -/
def loop_fuel (lexer : Lexer) : Nat := lexer.src.length + 1 - lexer.current

/-- The `for (;;)` loop of `skip_whitespace`. -/
def skip_whitespace_loop : Nat → Lexer → Option Lexer
  | 0, _ => none
  | fuel + 1, lexer =>
    let c := peek lexer
    if c = ' ' ∨ c = '\r' ∨ c = '\t' then
      skip_whitespace_loop fuel (advance lexer).2
    else if c = '\n' then
      skip_whitespace_loop fuel (advance { lexer with line := lexer.line + 1 }).2
    else if c = '/' then
      if peek_next lexer = '/' then
        match while_loop (fun l => peek l != '\n' && !is_at_end l) (fun l => (advance l).2)
            (loop_fuel lexer) lexer with
        | none => none
        | some lexer1 => skip_whitespace_loop fuel lexer1
      else some lexer
    else some lexer

/-- The function `skip_whitespace`. -/
def skip_whitespace (lexer : Lexer) : Option Lexer :=
  skip_whitespace_loop (loop_fuel lexer) lexer

/-- The function `make_string_token`. -/
def make_string_token {α : Type} (A : Allocator α) (lexer : Lexer) (heap : α) :
    Option (Token × Lexer × α) :=
  match while_loop (fun l => peek l != '"' && !is_at_end l)
      (fun l => (advance (if peek l = '\n' then { l with line := l.line + 1 } else l)).2)
      (loop_fuel lexer) lexer with
  | none => none
  | some lexer1 =>
    if is_at_end lexer1 then
      let r := make_error_token A lexer1 "Unterminated string.".toList heap
      some (r.1, lexer1, r.2)
    else
      let lexer2 := { lexer1 with start := lexer1.start + 1 }
      let r := make_token A lexer2 TOKEN_STRING heap
      let lexer3 := { lexer2 with start := lexer2.start - 1 }
      some (r.1, (advance lexer3).2, r.2)

/-- The function `make_number_token`. -/
def make_number_token {α : Type} (A : Allocator α) (lexer : Lexer) (heap : α) :
    Option (Token × Lexer × α) :=
  match while_loop (fun l => isdigit (peek l)) (fun l => (advance l).2)
      (loop_fuel lexer) lexer with
  | none => none
  | some lexer1 =>
    if peek lexer1 = '.' ∧ isdigit (peek_next lexer1) = true then
      match while_loop (fun l => isdigit (peek l)) (fun l => (advance l).2)
          (loop_fuel (advance lexer1).2) (advance lexer1).2 with
      | none => none
      | some lexer2 =>
        let r := make_token A lexer2 TOKEN_FLOAT heap
        some (r.1, lexer2, r.2)
    else if peek lexer1 = '.' ∧ ¬ isdigit (peek_next lexer1) = true then
      let r := make_error_token A lexer1 "Invalid number literal".toList heap
      some (r.1, lexer1, r.2)
    else
      let r := make_token A lexer1 TOKEN_INTEGER heap
      some (r.1, lexer1, r.2)

/-- The function `check_keyword`: `memcmp` of the `len` bytes at offset
`start` of the lexeme against `rest`, after the length test. -/
def check_keyword (lexer : Lexer) (start len : Nat) (rest : List Char) (type : TokenType) :
    TokenType :=
  let current_len := lexer.current - lexer.start
  if current_len = start + len ∧
      (lexer.src.drop (lexer.start + start)).take len = rest.take len then type
  else TOKEN_IDENTIFIER

/-- The byte `lexer->start[i]`. -/
def start_at (lexer : Lexer) (i : Nat) : Char := char_at lexer.src (lexer.start + i)

/-- The function `identifier_type`: the nested `switch` over the first bytes
of the lexeme. -/
def identifier_type (lexer : Lexer) : TokenType :=
  let n := lexer.current - lexer.start
  let c0 := start_at lexer 0
  if c0 = 'i' then
    if n > 1 then
      if start_at lexer 1 = 'm' then check_keyword lexer 2 4 "port".toList TOKEN_IMPORT
      else if start_at lexer 1 = 'f' then check_keyword lexer 2 0 "".toList TOKEN_IF
      else TOKEN_IDENTIFIER
    else TOKEN_IDENTIFIER
  else if c0 = 'l' then check_keyword lexer 1 2 "et".toList TOKEN_LET
  else if c0 = 'c' then
    if n > 1 then
      if start_at lexer 1 = 'o' then
        if n > 2 ∧ start_at lexer 2 = 'n' then
          if n = 5 then check_keyword lexer 3 2 "st".toList TOKEN_CONST
          else if n = 8 then check_keyword lexer 3 5 "tinue".toList TOKEN_CONTINUE
          else TOKEN_IDENTIFIER
        else TOKEN_IDENTIFIER
      else TOKEN_IDENTIFIER
    else TOKEN_IDENTIFIER
  else if c0 = 'f' then
    if n > 1 then
      if start_at lexer 1 = 'n' then check_keyword lexer 2 0 "".toList TOKEN_FN
      else if start_at lexer 1 = 'a' then check_keyword lexer 2 3 "lse".toList TOKEN_FALSE
      else if start_at lexer 1 = 'o' then check_keyword lexer 2 1 "r".toList TOKEN_FOR
      else TOKEN_IDENTIFIER
    else TOKEN_IDENTIFIER
  else if c0 = 'e' then
    if n > 1 then
      if start_at lexer 1 = 'l' then check_keyword lexer 2 2 "se".toList TOKEN_ELSE
      else if start_at lexer 1 = 'n' then check_keyword lexer 2 2 "um".toList TOKEN_ENUM
      else TOKEN_IDENTIFIER
    else TOKEN_IDENTIFIER
  else if c0 = 't' then
    if n > 1 then
      if start_at lexer 1 = 'r' then check_keyword lexer 2 2 "ue".toList TOKEN_TRUE
      else if start_at lexer 1 = 'y' then check_keyword lexer 2 2 "pe".toList TOKEN_TYPE
      else TOKEN_IDENTIFIER
    else TOKEN_IDENTIFIER
  else if c0 = 'w' then check_keyword lexer 1 4 "hile".toList TOKEN_WHILE
  else if c0 = 'd' then check_keyword lexer 1 1 "o".toList TOKEN_DO
  else if c0 = 'r' then check_keyword lexer 1 5 "eturn".toList TOKEN_RETURN
  else if c0 = 'b' then check_keyword lexer 1 4 "reak".toList TOKEN_BREAK
  else if c0 = 'h' then check_keyword lexer 1 3 "eap".toList TOKEN_HEAP
  else if c0 = 's' then check_keyword lexer 1 5 "truct".toList TOKEN_STRUCT
  else if c0 = 'u' then check_keyword lexer 1 4 "nion".toList TOKEN_UNION
  else if c0 = 'n' then check_keyword lexer 1 3 "ull".toList TOKEN_NULL
  else if c0 = 'p' then check_keyword lexer 1 2 "ub".toList TOKEN_PUB
  else TOKEN_IDENTIFIER

/-- The function `make_identifier_or_keyword`. -/
def make_identifier_or_keyword {α : Type} (A : Allocator α) (lexer : Lexer) (heap : α) :
    Option (Token × Lexer × α) :=
  match while_loop (fun l => isalnum (peek l) || peek l == '_') (fun l => (advance l).2)
      (loop_fuel lexer) lexer with
  | none => none
  | some lexer1 =>
    let r := make_token A lexer1 (identifier_type lexer1) heap
    some (r.1, lexer1, r.2)

/-- The function `init_lexer`. -/
def init_lexer (src : List Char) : Lexer := ⟨src, 0, 0, 1⟩

/-- The message built by `snprintf(buf, sizeof(buf), "%s%c%s", ...)` into the
30-byte buffer: at most 29 bytes are kept. -/
def unexpected_message (c : Char) : List Char :=
  ("Unexpected character '".toList ++ [c] ++ "'.".toList).take 29

/-- The statement `return make_token(lexer, type);` of `scan_token`: the token
together with the lexer and the allocator state the call leaves behind. -/
def emit {α : Type} (A : Allocator α) (lexer : Lexer) (type : TokenType) (heap : α) :
    Option (Token × Lexer × α) :=
  let r := make_token A lexer type heap
  some (r.1, lexer, r.2)

/-- The function `scan_token`. -/
def scan_token {α : Type} (A : Allocator α) (lexer : Lexer) (heap : α) :
    Option (Token × Lexer × α) :=
  match skip_whitespace lexer with
  | none => none
  | some lexer0 =>
    let lexer1 := { lexer0 with start := lexer0.current }
    if is_at_end lexer1 then emit A lexer1 TOKEN_EOF heap
    else
      let c := (advance lexer1).1
      let lexer2 := (advance lexer1).2
      if isalpha c = true ∨ c = '_' then make_identifier_or_keyword A lexer2 heap
      else if isdigit c = true then make_number_token A lexer2 heap
      else if c = '(' then emit A lexer2 TOKEN_LEFT_PAREN heap
      else if c = ')' then emit A lexer2 TOKEN_RIGHT_PAREN heap
      else if c = '{' then emit A lexer2 TOKEN_LEFT_BRACE heap
      else if c = '}' then emit A lexer2 TOKEN_RIGHT_BRACE heap
      else if c = '[' then emit A lexer2 TOKEN_LEFT_BRACKET heap
      else if c = ']' then emit A lexer2 TOKEN_RIGHT_BRACKET heap
      else if c = ';' then emit A lexer2 TOKEN_SEMICOLON heap
      else if c = ',' then emit A lexer2 TOKEN_COMMA heap
      else if c = '.' then emit A lexer2 TOKEN_DOT heap
      else if c = ':' then emit A lexer2 TOKEN_COLON heap
      else if c = '^' then emit A lexer2 TOKEN_CARET heap
      else if c = '!' then
        let m := match_char lexer2 '='
        emit A m.2 (if m.1 then TOKEN_BANG_EQUAL else TOKEN_BANG) heap
      else if c = '=' then
        let m := match_char lexer2 '='
        emit A m.2 (if m.1 then TOKEN_EQUAL_EQUAL else TOKEN_EQUAL) heap
      else if c = '>' then
        let m := match_char lexer2 '='
        emit A m.2 (if m.1 then TOKEN_GREATER_EQUAL else TOKEN_GREATER) heap
      else if c = '<' then
        let m := match_char lexer2 '='
        emit A m.2 (if m.1 then TOKEN_LESS_EQUAL else TOKEN_LESS) heap
      else if c = '"' then make_string_token A lexer2 heap
      else
        let r := make_error_token A lexer2 (unexpected_message c) heap
        some (r.1, lexer2, r.2)

/-- The function `free_token_lexeme`. -/
def free_token_lexeme {α : Type} (A : Allocator α) (token : Token) (heap : α) : α :=
  match token.lexeme with
  | some l => A.free heap (some l.ptr) (strlen l.text + 1) "TokenLexeme"
  | none => heap

/-- The function `token_type_to_string`: the `switch` with its 46 cases and
the `default` branch. -/
def token_type_to_string (type : TokenType) : String :=
  match type with
  | TOKEN_LEFT_PAREN => "TOKEN_LEFT_PAREN"
  | TOKEN_RIGHT_PAREN => "TOKEN_RIGHT_PAREN"
  | TOKEN_LEFT_BRACE => "TOKEN_LEFT_BRACE"
  | TOKEN_RIGHT_BRACE => "TOKEN_RIGHT_BRACE"
  | TOKEN_LEFT_BRACKET => "TOKEN_LEFT_BRACKET"
  | TOKEN_RIGHT_BRACKET => "TOKEN_RIGHT_BRACKET"
  | TOKEN_COMMA => "TOKEN_COMMA"
  | TOKEN_DOT => "TOKEN_DOT"
  | TOKEN_SEMICOLON => "TOKEN_SEMICOLON"
  | TOKEN_COLON => "TOKEN_COLON"
  | TOKEN_CARET => "TOKEN_CARET"
  | TOKEN_BANG => "TOKEN_BANG"
  | TOKEN_BANG_EQUAL => "TOKEN_BANG_EQUAL"
  | TOKEN_EQUAL => "TOKEN_EQUAL"
  | TOKEN_EQUAL_EQUAL => "TOKEN_EQUAL_EQUAL"
  | TOKEN_GREATER => "TOKEN_GREATER"
  | TOKEN_GREATER_EQUAL => "TOKEN_GREATER_EQUAL"
  | TOKEN_LESS => "TOKEN_LESS"
  | TOKEN_LESS_EQUAL => "TOKEN_LESS_EQUAL"
  | TOKEN_IDENTIFIER => "TOKEN_IDENTIFIER"
  | TOKEN_STRING => "TOKEN_STRING"
  | TOKEN_INTEGER => "TOKEN_INTEGER"
  | TOKEN_FLOAT => "TOKEN_FLOAT"
  | TOKEN_IMPORT => "TOKEN_IMPORT"
  | TOKEN_LET => "TOKEN_LET"
  | TOKEN_CONST => "TOKEN_CONST"
  | TOKEN_FN => "TOKEN_FN"
  | TOKEN_IF => "TOKEN_IF"
  | TOKEN_ELSE => "TOKEN_ELSE"
  | TOKEN_TRUE => "TOKEN_TRUE"
  | TOKEN_FALSE => "TOKEN_FALSE"
  | TOKEN_FOR => "TOKEN_FOR"
  | TOKEN_WHILE => "TOKEN_WHILE"
  | TOKEN_DO => "TOKEN_DO"
  | TOKEN_RETURN => "TOKEN_RETURN"
  | TOKEN_CONTINUE => "TOKEN_CONTINUE"
  | TOKEN_BREAK => "TOKEN_BREAK"
  | TOKEN_HEAP => "TOKEN_HEAP"
  | TOKEN_STRUCT => "TOKEN_STRUCT"
  | TOKEN_UNION => "TOKEN_UNION"
  | TOKEN_ENUM => "TOKEN_ENUM"
  | TOKEN_TYPE => "TOKEN_TYPE"
  | TOKEN_NULL => "TOKEN_NULL"
  | TOKEN_PUB => "TOKEN_PUB"
  | TOKEN_ERROR => "TOKEN_ERROR"
  | TOKEN_EOF => "TOKEN_EOF"
  | _ => "TOKEN_UNKNOWN"

/-! ## The tracing allocator (`allocator.h`, `allocator.c`)

The counters `allocated` and `freed` are `size_t` values of `w` bits: every
update is taken modulo `2 ^ w`. The log sink is modelled by the list of the
lines written to it so far, each line being the format string and the
arguments of one `sink_println` call. The ledger (the linked list that starts
at `head`) is the list of its nodes, head first. -/

/-- One variadic argument of a `sink_println` call: `%zu`, `%s` or `%p`. -/
inductive LogArg where
  | zu (n : Nat)
  | s (text : String)
  | p (ptr : Option Nat)
  deriving DecidableEq, Repr

/-- One `sink_println` call: its format string and its arguments. -/
structure LogLine where
  fmt : String
  args : List LogArg
  deriving DecidableEq, Repr

/-- The struct `AllocLog` without its `next` pointer: one ledger node. -/
structure AllocLog where
  ptr : Nat
  size : Nat
  tag : String
  deriving DecidableEq, Repr

/-- The struct `TracingContext`; `sink` holds the lines written so far. -/
structure TracingContext where
  head : List AllocLog
  sink : List LogLine
  allocated : Nat
  freed : Nat
  deriving DecidableEq, Repr

/-- The value `sizeof(AllocLog)`: four words of `w` bits. -/
def sizeof_AllocLog (w : Nat) : Nat := 4 * (w / 8)

/-- The function `sink_println` on the sink of a tracing context. -/
def sink_println (tc : TracingContext) (fmt : String) (args : List LogArg) : TracingContext :=
  { tc with sink := tc.sink ++ [⟨fmt, args⟩] }

/-- The function `tracing_alloc`. -/
def tracing_alloc (w : Nat) (tc : TracingContext) (heap : Heap) (size : Nat) (tag : String) :
    Option Nat × TracingContext × Heap :=
  match malloc heap size with
  | (some ptr, heap1) =>
    let log := malloc heap1 (sizeof_AllocLog w)
    let tc1 : TracingContext :=
      match log.1 with
      | some _ => { tc with head := ⟨ptr, size, tag⟩ :: tc.head }
      | none => tc
    let tc2 := sink_println tc1 "Allocated %zu bytes for %s at %p"
      [LogArg.zu size, LogArg.s tag, LogArg.p (some ptr)]
    (some ptr, { tc2 with allocated := (tc2.allocated + size) % 2 ^ w }, log.2)
  | (none, heap1) =>
    (none, sink_println tc "Failed to allocate %zu bytes for %s"
      [LogArg.zu size, LogArg.s tag], heap1)

/-- The `while (curr)` loop of `tracing_free`: unlink the first node whose
`ptr` equals `ptr`. -/
def unlink_first (ptr : Option Nat) : List AllocLog → List AllocLog
  | [] => []
  | curr :: rest => if some curr.ptr = ptr then rest else curr :: unlink_first ptr rest

/-- The function `tracing_free`; the library call `free` has no observable
effect on the heap. -/
def tracing_free (w : Nat) (tc : TracingContext) (heap : Heap) (ptr : Option Nat) (size : Nat)
    (tag : String) : TracingContext × Heap :=
  let tc1 : TracingContext := { tc with freed := (tc.freed + size) % 2 ^ w }
  let tc2 : TracingContext := { tc1 with head := unlink_first ptr tc1.head }
  (sink_println tc2 "Freed %zu bytes for %s at %p"
    [LogArg.zu size, LogArg.s tag, LogArg.p ptr], heap)

/-- The function `tracing_realloc`; the `memcpy` of the block contents has no
effect on the modelled state. -/
def tracing_realloc (w : Nat) (tc : TracingContext) (heap : Heap) (ptr : Option Nat)
    (old_size new_size : Nat) (tag : String) : Option Nat × TracingContext × Heap :=
  match ptr with
  | none => tracing_alloc w tc heap new_size tag
  | some _ =>
    if new_size = 0 then
      let r := tracing_free w tc heap ptr old_size tag
      (none, r.1, r.2)
    else
      match tracing_alloc w tc heap new_size tag with
      | (none, tc1, heap1) => (none, tc1, heap1)
      | (some _, tc1, heap1) =>
        let r := tracing_free w tc1 heap1 ptr old_size tag
        (none, r.1, r.2)

/-- The `while (curr)` loop of `dump_memory_leaks`: one line per node, head
first. -/
def dump_leak_lines (tc : TracingContext) : List AllocLog → TracingContext
  | [] => tc
  | curr :: rest =>
    dump_leak_lines
      (sink_println tc "Leaked %zu bytes for %s at %p"
        [LogArg.zu curr.size, LogArg.s curr.tag, LogArg.p (some curr.ptr)]) rest

/-- The function `dump_memory_leaks`. The nodes are freed one by one, but no
field of the context other than the sink is assigned. -/
def dump_memory_leaks (w : Nat) (context : TracingContext) : TracingContext :=
  let c1 := sink_println context "--- MEMORY LEAK REPORT ---" []
  let c2 :=
    if c1.head = [] then
      sink_println c1 "No memory leaks detected! All memory is accounted for :)" []
    else dump_leak_lines c1 c1.head
  let leaked := (((c2.allocated : Int) - (c2.freed : Int)) % (2 : Int) ^ w).toNat
  let c3 := sink_println c2 "Total allocated: %zu bytes" [LogArg.zu c2.allocated]
  let c4 := sink_println c3 "Total freed:     %zu bytes" [LogArg.zu c3.freed]
  let c5 := sink_println c4 "Memory leaked:   %zu bytes" [LogArg.zu leaked]
  sink_println c5 "--------------------------" []

/-- A tracing allocator `{tracing_alloc, tracing_realloc, tracing_free, &ctx}`
as in `test_allocator.c`; its state is the context together with the heap. -/
def tracing_allocator (w : Nat) : Allocator (TracingContext × Heap) where
  alloc := fun c size tag =>
    let r := tracing_alloc w c.1 c.2 size tag
    (r.1, r.2.1, r.2.2)
  realloc := fun c ptr old_size new_size tag =>
    let r := tracing_realloc w c.1 c.2 ptr old_size new_size tag
    (r.1, r.2.1, r.2.2)
  free := fun c ptr size tag => tracing_free w c.1 c.2 ptr size tag

/-! ## The scanner with checked reads and checked cursor

The functions of `lexer.c` that move the cursor, once more, with two checks
added.

* Every read that `is_at_end`, `peek`, `peek_next`, `advance` and `match` make
  through `current` is checked against the buffer: the bytes of the source and
  the terminating NUL at index `src.length` can be read; a read at a higher
  index gives `none`.
* Every assignment to `start` or `current` (`current++` in `advance` and
  `match`, `start = current` in `scan_token`, `start++` and `start--` in
  `make_string_token`) is followed by the check `start ≤ current ≤ src.length`,
  and `make_token` checks `start ≤ current` before it takes the difference
  `current - start`; a failed check gives `none`.

A function answers `none` as soon as one of its checks fails. The operators
`&&` and `||` evaluate their right operand only when it is needed. -/

/-- A read of the byte at index `i`: `none` beyond the terminating NUL. -/
def read_at (lexer : Lexer) (i : Nat) : Option Char :=
  if i ≤ lexer.src.length then some (char_at lexer.src i) else none

/-- The check made after an assignment to `start` or `current`: the lexer is
kept when `start ≤ current ≤ src.length`. -/
def cursor_checked (lexer : Lexer) : Option Lexer :=
  if lexer.start ≤ lexer.current ∧ lexer.current ≤ lexer.src.length then some lexer else none

/-- The C operator `&&` over conditions that read. -/
def and_checked (a b : Option Bool) : Option Bool :=
  match a with
  | none => none
  | some false => some false
  | some true => b

/-- The C operator `||` over conditions that read. -/
def or_checked (a b : Option Bool) : Option Bool :=
  match a with
  | none => none
  | some true => some true
  | some false => b

/-- The function `is_at_end` with its read of `*current` checked. -/
def is_at_end_checked (lexer : Lexer) : Option Bool :=
  (read_at lexer lexer.current).map (fun c => c == '\x00')

/-- The function `advance` with its checks: `current++`, then the read of
`current[-1]`. -/
def advance_checked (lexer : Lexer) : Option (Char × Lexer) :=
  match cursor_checked { lexer with current := lexer.current + 1 } with
  | none => none
  | some lexer1 => (read_at lexer1 (lexer1.current - 1)).map (fun c => (c, lexer1))

/-- The function `peek` with its read of `*current` checked. -/
def peek_checked (lexer : Lexer) : Option Char := read_at lexer lexer.current

/-- The function `peek_next` with its reads checked: `current[1]` is read
only when `is_at_end` is false. -/
def peek_next_checked (lexer : Lexer) : Option Char :=
  match is_at_end_checked lexer with
  | none => none
  | some true => some '\x00'
  | some false => read_at lexer (lexer.current + 1)

/-- The function `match` with its checks. -/
def match_checked (lexer : Lexer) (expected : Char) : Option (Bool × Lexer) :=
  match is_at_end_checked lexer with
  | none => none
  | some true => some (false, lexer)
  | some false =>
    match read_at lexer lexer.current with
    | none => none
    | some c =>
      if c ≠ expected then some (false, lexer)
      else
        (cursor_checked { lexer with current := lexer.current + 1 }).map
          (fun lexer1 => (true, lexer1))

/-- The function `make_token` behind the statement `return make_token(lexer,
type);`, with the check that `start` does not exceed `current` where the
difference `current - start` is taken. -/
def emit_checked {α : Type} (A : Allocator α) (lexer : Lexer) (type : TokenType) (heap : α) :
    Option (Token × Lexer × α) :=
  if lexer.start ≤ lexer.current then emit A lexer type heap else none

/-- A C loop `while (cond) body` whose condition and body read: `none` when
a read is out of the buffer or the fuel does not suffice. -/
def while_loop_checked (cond : Lexer → Option Bool) (body : Lexer → Option Lexer) :
    Nat → Lexer → Option Lexer
  | 0, _ => none
  | fuel + 1, lexer =>
    match cond lexer with
    | none => none
    | some false => some lexer
    | some true =>
      match body lexer with
      | none => none
      | some lexer1 => while_loop_checked cond body fuel lexer1

/-- The `for (;;)` loop of `skip_whitespace` with its checks. -/
def skip_whitespace_loop_checked : Nat → Lexer → Option Lexer
  | 0, _ => none
  | fuel + 1, lexer =>
    match peek_checked lexer with
    | none => none
    | some c =>
      if c = ' ' ∨ c = '\r' ∨ c = '\t' then
        match advance_checked lexer with
        | none => none
        | some a => skip_whitespace_loop_checked fuel a.2
      else if c = '\n' then
        match advance_checked { lexer with line := lexer.line + 1 } with
        | none => none
        | some a => skip_whitespace_loop_checked fuel a.2
      else if c = '/' then
        match peek_next_checked lexer with
        | none => none
        | some d =>
          if d = '/' then
            match while_loop_checked
                (fun l => and_checked ((peek_checked l).map (fun c => c != '\n'))
                  ((is_at_end_checked l).map (fun e => !e)))
                (fun l => (advance_checked l).map (fun a => a.2)) (loop_fuel lexer) lexer with
            | none => none
            | some lexer1 => skip_whitespace_loop_checked fuel lexer1
          else some lexer
      else some lexer

/-- The function `skip_whitespace` with its checks. -/
def skip_whitespace_checked (lexer : Lexer) : Option Lexer :=
  skip_whitespace_loop_checked (loop_fuel lexer) lexer

/-- The function `make_string_token` with its checks: the cursor is checked
after `start++` and after `start--`. -/
def make_string_token_checked {α : Type} (A : Allocator α) (lexer : Lexer) (heap : α) :
    Option (Token × Lexer × α) :=
  match while_loop_checked
      (fun l => and_checked ((peek_checked l).map (fun c => c != '"'))
        ((is_at_end_checked l).map (fun e => !e)))
      (fun l => (peek_checked l).bind (fun c =>
        (advance_checked (if c = '\n' then { l with line := l.line + 1 } else l)).map
          (fun a => a.2)))
      (loop_fuel lexer) lexer with
  | none => none
  | some lexer1 =>
    match is_at_end_checked lexer1 with
    | none => none
    | some true =>
      let r := make_error_token A lexer1 "Unterminated string.".toList heap
      some (r.1, lexer1, r.2)
    | some false =>
      match cursor_checked { lexer1 with start := lexer1.start + 1 } with
      | none => none
      | some lexer2 =>
        match emit_checked A lexer2 TOKEN_STRING heap with
        | none => none
        | some r =>
          match cursor_checked { lexer2 with start := lexer2.start - 1 } with
          | none => none
          | some lexer3 =>
            match advance_checked lexer3 with
            | none => none
            | some a => some (r.1, a.2, r.2.2)

/-- The function `make_number_token` with its checks. -/
def make_number_token_checked {α : Type} (A : Allocator α) (lexer : Lexer) (heap : α) :
    Option (Token × Lexer × α) :=
  match while_loop_checked (fun l => (peek_checked l).map isdigit)
      (fun l => (advance_checked l).map (fun a => a.2)) (loop_fuel lexer) lexer with
  | none => none
  | some lexer1 =>
    match and_checked ((peek_checked lexer1).map (fun c => decide (c = '.')))
        ((peek_next_checked lexer1).map isdigit) with
    | none => none
    | some true =>
      match advance_checked lexer1 with
      | none => none
      | some a =>
        match while_loop_checked (fun l => (peek_checked l).map isdigit)
            (fun l => (advance_checked l).map (fun a => a.2)) (loop_fuel a.2) a.2 with
        | none => none
        | some lexer2 => emit_checked A lexer2 TOKEN_FLOAT heap
    | some false =>
      match and_checked ((peek_checked lexer1).map (fun c => decide (c = '.')))
          ((peek_next_checked lexer1).map (fun d => !isdigit d)) with
      | none => none
      | some true =>
        let r := make_error_token A lexer1 "Invalid number literal".toList heap
        some (r.1, lexer1, r.2)
      | some false => emit_checked A lexer1 TOKEN_INTEGER heap

/-- The function `make_identifier_or_keyword` with its checks. -/
def make_identifier_or_keyword_checked {α : Type} (A : Allocator α) (lexer : Lexer)
    (heap : α) : Option (Token × Lexer × α) :=
  match while_loop_checked
      (fun l => or_checked ((peek_checked l).map isalnum)
        ((peek_checked l).map (fun c => c == '_')))
      (fun l => (advance_checked l).map (fun a => a.2)) (loop_fuel lexer) lexer with
  | none => none
  | some lexer1 => emit_checked A lexer1 (identifier_type lexer1) heap

/-- The statement `return make_token(lexer, match(lexer, '=') ? ty1 : ty2);`
with the checks of `match` and `make_token`. -/
def match_emit_checked {α : Type} (A : Allocator α) (lexer : Lexer) (ty1 ty2 : TokenType)
    (heap : α) : Option (Token × Lexer × α) :=
  match match_checked lexer '=' with
  | none => none
  | some m => emit_checked A m.2 (if m.1 then ty1 else ty2) heap

/-- The function `scan_token` with its checks: the cursor is checked after
`start = current`. -/
def scan_token_checked {α : Type} (A : Allocator α) (lexer : Lexer) (heap : α) :
    Option (Token × Lexer × α) :=
  match skip_whitespace_checked lexer with
  | none => none
  | some lexer0 =>
    match cursor_checked { lexer0 with start := lexer0.current } with
    | none => none
    | some lexer1 =>
    match is_at_end_checked lexer1 with
    | none => none
    | some true => emit_checked A lexer1 TOKEN_EOF heap
    | some false =>
      match advance_checked lexer1 with
      | none => none
      | some a =>
        let c := a.1
        let lexer2 := a.2
        if isalpha c = true ∨ c = '_' then make_identifier_or_keyword_checked A lexer2 heap
        else if isdigit c = true then make_number_token_checked A lexer2 heap
        else if c = '(' then emit_checked A lexer2 TOKEN_LEFT_PAREN heap
        else if c = ')' then emit_checked A lexer2 TOKEN_RIGHT_PAREN heap
        else if c = '{' then emit_checked A lexer2 TOKEN_LEFT_BRACE heap
        else if c = '}' then emit_checked A lexer2 TOKEN_RIGHT_BRACE heap
        else if c = '[' then emit_checked A lexer2 TOKEN_LEFT_BRACKET heap
        else if c = ']' then emit_checked A lexer2 TOKEN_RIGHT_BRACKET heap
        else if c = ';' then emit_checked A lexer2 TOKEN_SEMICOLON heap
        else if c = ',' then emit_checked A lexer2 TOKEN_COMMA heap
        else if c = '.' then emit_checked A lexer2 TOKEN_DOT heap
        else if c = ':' then emit_checked A lexer2 TOKEN_COLON heap
        else if c = '^' then emit_checked A lexer2 TOKEN_CARET heap
        else if c = '!' then match_emit_checked A lexer2 TOKEN_BANG_EQUAL TOKEN_BANG heap
        else if c = '=' then match_emit_checked A lexer2 TOKEN_EQUAL_EQUAL TOKEN_EQUAL heap
        else if c = '>' then
          match_emit_checked A lexer2 TOKEN_GREATER_EQUAL TOKEN_GREATER heap
        else if c = '<' then match_emit_checked A lexer2 TOKEN_LESS_EQUAL TOKEN_LESS heap
        else if c = '"' then make_string_token_checked A lexer2 heap
        else
          let r := make_error_token A lexer2 (unexpected_message c) heap
          some (r.1, lexer2, r.2)

/-! ## Specification-side definitions -/

/-- The 19 punctuation and operator texts with their token kinds. -/
def punctuation_table : List (String × TokenType) :=
  [("(", TOKEN_LEFT_PAREN), (")", TOKEN_RIGHT_PAREN), ("\x7b", TOKEN_LEFT_BRACE),
   ("\x7d", TOKEN_RIGHT_BRACE), ("[", TOKEN_LEFT_BRACKET), ("]", TOKEN_RIGHT_BRACKET),
   (";", TOKEN_SEMICOLON), (",", TOKEN_COMMA), (".", TOKEN_DOT), (":", TOKEN_COLON),
   ("^", TOKEN_CARET), ("!", TOKEN_BANG), ("=", TOKEN_EQUAL), (">", TOKEN_GREATER),
   ("<", TOKEN_LESS), ("!=", TOKEN_BANG_EQUAL), ("==", TOKEN_EQUAL_EQUAL),
   (">=", TOKEN_GREATER_EQUAL), ("<=", TOKEN_LESS_EQUAL)]

/-- The keyword table of the specification: the 21 keywords with their kinds. -/
def keyword_table : List (String × TokenType) :=
  [("import", TOKEN_IMPORT), ("let", TOKEN_LET), ("const", TOKEN_CONST), ("fn", TOKEN_FN),
   ("if", TOKEN_IF), ("else", TOKEN_ELSE), ("true", TOKEN_TRUE), ("false", TOKEN_FALSE),
   ("for", TOKEN_FOR), ("while", TOKEN_WHILE), ("do", TOKEN_DO), ("return", TOKEN_RETURN),
   ("continue", TOKEN_CONTINUE), ("break", TOKEN_BREAK), ("heap", TOKEN_HEAP),
   ("struct", TOKEN_STRUCT), ("union", TOKEN_UNION), ("enum", TOKEN_ENUM),
   ("type", TOKEN_TYPE), ("null", TOKEN_NULL), ("pub", TOKEN_PUB)]

/-- Exact-text lookup in the keyword table, as the specification words the
classification: the kind of the keyword equal to `w`, else identifier. -/
def keyword_lookup (w : List Char) : TokenType :=
  match keyword_table.find? (fun e => decide (e.1.toList = w)) with
  | some e => e.2
  | none => TOKEN_IDENTIFIER

/-- The lexer state after a source has been consumed to its end as one token
that started at index 0 on line 1. -/
def whole (src : List Char) : Lexer := ⟨src, 0, src.length, 1⟩

/-- The lexer state sitting at the end of the source, after the end-of-file
token has been produced. -/
def at_eof (src : List Char) (line : Nat) : Lexer := ⟨src, src.length, src.length, line⟩

/-- The line counter agrees with the newlines in front of the cursor. -/
def line_inv (l : Lexer) : Prop := l.line = 1 + (l.src.take l.current).count '\n'

/-- What one scanner step from `l` to `l1` with token `t` guarantees: the
buffer is kept, the cursor moves forward inside it, the line counter stays
right, and the token carries the line counter. -/
def step_post (l l1 : Lexer) (t : Token) : Prop :=
  l1.src = l.src ∧ l.current ≤ l1.current ∧ l1.current ≤ l1.src.length ∧ line_inv l1 ∧
    t.line = l1.line

/-- The outcome of the call number `k + 1` in a run of successive `scan_token`
calls that starts from `lexer` and `heap`. -/
def nth_scan {α : Type} (A : Allocator α) : Nat → Lexer → α → Option (Token × Lexer × α)
  | 0, lexer, heap => scan_token A lexer heap
  | k + 1, lexer, heap =>
    match scan_token A lexer heap with
    | none => none
    | some r => nth_scan A k r.2.1 r.2.2

/-- The lexer `l` seen through a buffer that has `pre` in front of it and a
line counter that is `d` higher. -/
def shift (pre : List Char) (d : Nat) (l : Lexer) : Lexer :=
  ⟨pre ++ l.src, pre.length + l.start, pre.length + l.current, l.line + d⟩

/-- The token `t` with its line raised by `d`. -/
def bump (d : Nat) (t : Token) : Token := ⟨t.type, t.line + d, t.lexeme⟩

/-- The result of a scanner step seen through `shift`: token line raised,
lexer relocated, allocator state unchanged. -/
def shift_result {α : Type} (pre : List Char) (d : Nat) (r : Token × Lexer × α) :
    Token × Lexer × α :=
  (bump d r.1, shift pre d r.2.1, r.2.2)

/-- A tracing context as the callers set it up: `TracingContext ctx = {0}`
with an empty sink. -/
def fresh_context : TracingContext := ⟨[], [], 0, 0⟩

/-- The lexer states a caller can reach on the source `src`: the state after
`init_lexer`, and every state left by a `scan_token` call made in a reachable
state, whatever the allocator state at that call. -/
inductive Reachable {α : Type} (A : Allocator α) (src : List Char) : Lexer → Prop where
  | init : Reachable A src (init_lexer src)
  | step (l : Lexer) (heap : α) (r : Token × Lexer × α) :
      Reachable A src l → scan_token A l heap = some r → Reachable A src r.2.1

/-- The kinds that carry variable text, as the specification lists them:
identifier, string literal, integer literal, float literal, error message. -/
def carries_lexeme (type : TokenType) : Prop :=
  type = TOKEN_IDENTIFIER ∨ type = TOKEN_STRING ∨ type = TOKEN_INTEGER ∨
    type = TOKEN_FLOAT ∨ type = TOKEN_ERROR

/-- One call made on a tracing context: `tracing_alloc(size, tag)` or
`tracing_free(ptr, size, tag)`. -/
inductive TraceOp where
  | alloc (size : Nat) (tag : String)
  | free (ptr : Option Nat) (size : Nat) (tag : String)
  deriving DecidableEq, Repr

/-- The state left by one call of a sequence of tracing calls. -/
def run_op (w : Nat) (s : TracingContext × Heap) : TraceOp → TracingContext × Heap
  | TraceOp.alloc size tag => (tracing_alloc w s.1 s.2 size tag).2
  | TraceOp.free ptr size tag => tracing_free w s.1 s.2 ptr size tag

/-- The state left by a sequence of tracing calls made one after the other. -/
def run_ops (w : Nat) : List TraceOp → TracingContext × Heap → TracingContext × Heap
  | [], s => s
  | op :: rest, s => run_ops w rest (run_op w s op)

/-- Every `tracing_alloc` call of the sequence returns a non-null address. -/
def allocs_succeed (w : Nat) : List TraceOp → TracingContext × Heap → Bool
  | [], _ => true
  | TraceOp.alloc size tag :: rest, s =>
    (tracing_alloc w s.1 s.2 size tag).1.isSome
      && allocs_succeed w rest (run_op w s (TraceOp.alloc size tag))
  | TraceOp.free ptr size tag :: rest, s =>
    allocs_succeed w rest (run_op w s (TraceOp.free ptr size tag))

/-- The sum of the sizes passed to the `tracing_alloc` calls of a sequence. -/
def alloc_sum : List TraceOp → Nat
  | [] => 0
  | TraceOp.alloc size _ :: rest => size + alloc_sum rest
  | TraceOp.free _ _ _ :: rest => alloc_sum rest

/-- The sum of the sizes passed to the `tracing_free` calls of a sequence. -/
def free_sum : List TraceOp → Nat
  | [] => 0
  | TraceOp.alloc _ _ :: rest => free_sum rest
  | TraceOp.free _ size _ :: rest => size + free_sum rest

/-- The itemised line of the leak report for one ledger entry. -/
def leak_line (e : AllocLog) : LogLine :=
  ⟨"Leaked %zu bytes for %s at %p", [LogArg.zu e.size, LogArg.s e.tag, LogArg.p (some e.ptr)]⟩

/-- The state left by a sequence of `tracing_alloc(size, tag)` calls. -/
def run_allocs (w : Nat) : List (Nat × String) → TracingContext × Heap → TracingContext × Heap
  | [], s => s
  | a :: rest, s => run_allocs w rest (tracing_alloc w s.1 s.2 a.1 a.2).2

/-- The malloc script in which the calls of a sequence of `tracing_alloc`
calls obtain, one after the other, the block address and the ledger node
address of each pair of `addrs`, followed by `rest`. -/
def script_of (addrs : List (Nat × Nat)) (rest : List (Option Nat)) : List (Option Nat) :=
  match addrs with
  | [] => rest
  | a :: more => some a.1 :: some a.2 :: script_of more rest

/-- The ledger entries of a sequence of requests answered with the block
addresses of `addrs`, in allocation order. -/
def entries_of : List (Nat × String) → List (Nat × Nat) → List AllocLog
  | a :: reqs, p :: addrs => ⟨p.1, a.1, a.2⟩ :: entries_of reqs addrs
  | _, _ => []

/-- The four operator characters that may be followed by `=`, each with the
kind of its two-character form and the kind of its one-character form. -/
def operator_table : List (Char × TokenType × TokenType) :=
  [('!', TOKEN_BANG_EQUAL, TOKEN_BANG), ('=', TOKEN_EQUAL_EQUAL, TOKEN_EQUAL),
   ('>', TOKEN_GREATER_EQUAL, TOKEN_GREATER), ('<', TOKEN_LESS_EQUAL, TOKEN_LESS)]

/-- How one `scan_token` call from `l` uses the cursor: `lx` is the lexer the
token is made from and `lr` the lexer the call leaves behind. Both keep the
buffer and have `start ≤ current` inside it, and the new `start` is not in
front of the old cursor. -/
def scan_shape (l lx lr : Lexer) : Prop :=
  lx.src = l.src ∧ lx.start ≤ lx.current ∧ lx.current ≤ lx.src.length ∧
    lr.src = l.src ∧ lr.start ≤ lr.current ∧ lr.current ≤ lr.src.length ∧
    l.current ≤ lr.start

/-- What a `scan_token` result shows apart from the lexeme and the allocator
state: the kind and the line of the token and the lexer the call leaves. -/
def scan_view {α : Type} (r : Token × Lexer × α) : TokenType × Nat × Lexer :=
  (r.1.type, r.1.line, r.2.1)

/-- One call made through a tracing allocator: `tracing_alloc(size, tag)`,
`tracing_free(ptr, size, tag)` or `tracing_realloc(ptr, old_size, new_size,
tag)`. -/
inductive TracingCall where
  | alloc (size : Nat) (tag : String)
  | free (ptr : Option Nat) (size : Nat) (tag : String)
  | realloc (ptr : Option Nat) (old_size new_size : Nat) (tag : String)
  deriving DecidableEq, Repr

/-- The state left by one call. -/
def run_call (w : Nat) (s : TracingContext × Heap) : TracingCall → TracingContext × Heap
  | TracingCall.alloc size tag => (tracing_alloc w s.1 s.2 size tag).2
  | TracingCall.free ptr size tag => tracing_free w s.1 s.2 ptr size tag
  | TracingCall.realloc ptr old_size new_size tag =>
    (tracing_realloc w s.1 s.2 ptr old_size new_size tag).2

/-- The state left by a sequence of calls made one after the other. -/
def run_calls (w : Nat) : List TracingCall → TracingContext × Heap → TracingContext × Heap
  | [], s => s
  | c :: rest, s => run_calls w rest (run_call w s c)

/-- The ledger holds an entry for the address `p` with the size `size`. -/
def tracked (tc : TracingContext) (p size : Nat) : Bool :=
  tc.head.any (fun e => e.ptr == p && e.size == size)

/-- An allocation of `size` bytes made in the state `s`, when it returns an
address, returns one that no ledger entry holds. -/
def fresh_address (w : Nat) (s : TracingContext × Heap) (size : Nat) (tag : String) : Bool :=
  match (tracing_alloc w s.1 s.2 size tag).1 with
  | none => true
  | some p => s.1.head.all (fun e => e.ptr != p)

/-- An allocation of `size` bytes made in the state `s`, when it returns an
address, has also obtained its ledger node: the entry is at the head. -/
def node_obtained (w : Nat) (s : TracingContext × Heap) (size : Nat) (tag : String) : Bool :=
  match (tracing_alloc w s.1 s.2 size tag).1 with
  | none => true
  | some p => decide ((tracing_alloc w s.1 s.2 size tag).2.1.head = ⟨p, size, tag⟩ :: s.1.head)

/-- The conditions on one call made in the state `s`: an allocation gets an
address that is not in the ledger, and a release, direct or through
`tracing_realloc`, names a pointer that is in the ledger, with the size
recorded for it. -/
def call_ok (w : Nat) (s : TracingContext × Heap) : TracingCall → Bool
  | TracingCall.alloc size tag => fresh_address w s size tag
  | TracingCall.free none _ _ => false
  | TracingCall.free (some p) size _ => tracked s.1 p size
  | TracingCall.realloc none _ new_size tag => fresh_address w s new_size tag
  | TracingCall.realloc (some p) old_size new_size tag =>
    if new_size = 0 then tracked s.1 p old_size
    else fresh_address w s new_size tag &&
      ((tracing_alloc w s.1 s.2 new_size tag).1.isNone || tracked s.1 p old_size)

/-- Every allocation made by the call, when it returns an address, obtains
its ledger node. -/
def call_nodes (w : Nat) (s : TracingContext × Heap) : TracingCall → Bool
  | TracingCall.alloc size tag => node_obtained w s size tag
  | TracingCall.free _ _ _ => true
  | TracingCall.realloc none _ new_size tag => node_obtained w s new_size tag
  | TracingCall.realloc (some _) _ new_size tag =>
    if new_size = 0 then true else node_obtained w s new_size tag

/-- The conditions `call_ok` hold for every call of a sequence, each in the
state in which it is made. -/
def calls_ok (w : Nat) : List TracingCall → TracingContext × Heap → Bool
  | [], _ => true
  | c :: rest, s => call_ok w s c && calls_ok w rest (run_call w s c)

/-- The condition `call_nodes` holds for every call of a sequence. -/
def calls_nodes (w : Nat) : List TracingCall → TracingContext × Heap → Bool
  | [], _ => true
  | c :: rest, s => call_nodes w s c && calls_nodes w rest (run_call w s c)

/-- The live allocations after an allocation attempt that returned `r`. -/
def live_alloc (r : Option Nat) (size : Nat) (tag : String) (live : List AllocLog) :
    List AllocLog :=
  match r with
  | some p => ⟨p, size, tag⟩ :: live
  | none => live

/-- The live allocations after the release of the block at `p`. -/
def live_free (p : Nat) (live : List AllocLog) : List AllocLog :=
  live.filter (fun e => e.ptr != p)

/-- The live allocations (address, size, tag; most recent first) after one
call made in the state `s`: an allocation that returns an address adds its
block, a release removes the block at the released address. -/
def live_after (w : Nat) (s : TracingContext × Heap) (live : List AllocLog) :
    TracingCall → List AllocLog
  | TracingCall.alloc size tag => live_alloc (tracing_alloc w s.1 s.2 size tag).1 size tag live
  | TracingCall.free none _ _ => live
  | TracingCall.free (some p) _ _ => live_free p live
  | TracingCall.realloc none _ new_size tag =>
    live_alloc (tracing_alloc w s.1 s.2 new_size tag).1 new_size tag live
  | TracingCall.realloc (some p) _ new_size tag =>
    if new_size = 0 then live_free p live
    else
      match (tracing_alloc w s.1 s.2 new_size tag).1 with
      | none => live
      | some q => live_free p (⟨q, new_size, tag⟩ :: live)

/-- The live allocations after a sequence of calls. -/
def live_blocks (w : Nat) :
    List TracingCall → TracingContext × Heap → List AllocLog → List AllocLog
  | [], _, live => live
  | c :: rest, s, live => live_blocks w rest (run_call w s c) (live_after w s live c)

/-- The sum of the sizes of a list of ledger entries. -/
def ledger_sum (l : List AllocLog) : Nat := (l.map (fun e => e.size)).sum

/-- The consistency of a tracing context: no two ledger entries hold the same
address, and `allocated` equals `freed` plus the sum of the sizes in the
ledger, in `size_t` arithmetic. -/
def ledger_inv (w : Nat) (tc : TracingContext) : Prop :=
  (tc.head.map (fun e => e.ptr)).Nodup ∧
    tc.allocated ≡ tc.freed + ledger_sum tc.head [MOD 2 ^ w]

/-! ## Buffer and character-class lemmas -/

theorem char_at_nil (i : Nat) : char_at [] i = '\x00' := by
  simp [char_at]

theorem char_at_cons_zero (c : Char) (cs : List Char) : char_at (c :: cs) 0 = c := by
  simp [char_at]

theorem char_at_cons_succ (c : Char) (cs : List Char) (i : Nat) :
    char_at (c :: cs) (i + 1) = char_at cs i := by
  simp [char_at]

theorem char_at_append_right (a b : List Char) (i : Nat) :
    char_at (a ++ b) (a.length + i) = char_at b i := by
  induction a with
  | nil => simp
  | cons x xs ih =>
    have : (x :: xs).length + i = (xs.length + i) + 1 := by simp; omega
    rw [List.cons_append, this, char_at_cons_succ, ih]

theorem char_at_append_left (a b : List Char) (i : Nat) (h : i < a.length) :
    char_at (a ++ b) i = char_at a i := by
  induction a generalizing i with
  | nil => simp at h
  | cons x xs ih =>
    cases i with
    | zero => simp [char_at]
    | succ j =>
      rw [List.cons_append, char_at_cons_succ, char_at_cons_succ]
      exact ih j (by simpa using h)

theorem char_at_mem (a : List Char) (i : Nat) (h : i < a.length) : char_at a i ∈ a := by
  induction a generalizing i with
  | nil => simp at h
  | cons x xs ih =>
    cases i with
    | zero => simp [char_at]
    | succ j =>
      rw [char_at_cons_succ]
      exact List.mem_cons_of_mem _ (ih j (by simpa using h))

theorem char_at_of_le (a : List Char) (i : Nat) (h : a.length ≤ i) : char_at a i = '\x00' := by
  induction a generalizing i with
  | nil => simp [char_at]
  | cons x xs ih =>
    cases i with
    | zero => simp at h
    | succ j =>
      rw [char_at_cons_succ]
      exact ih j (by simpa using h)

theorem lt_length_of_char_at_ne (a : List Char) (i : Nat) (h : char_at a i ≠ '\x00') :
    i < a.length := by
  by_contra hc
  exact h (char_at_of_le a i (by omega))

theorem count_take_succ (a : List Char) (i : Nat) :
    (a.take (i + 1)).count '\n' =
      (a.take i).count '\n' + (if char_at a i = '\n' then 1 else 0) := by
  induction a generalizing i with
  | nil => simp [char_at]
  | cons x xs ih =>
    cases i with
    | zero =>
      by_cases hx : x = '\n' <;> simp [char_at, hx, List.count_cons]
    | succ j =>
      rw [char_at_cons_succ, List.take_succ_cons, List.take_succ_cons, List.count_cons,
        List.count_cons, ih j]
      omega

theorem isdigit_iff (c : Char) : isdigit c = true ↔ 48 ≤ c.toNat ∧ c.toNat ≤ 57 := by
  simp [isdigit, Char.isDigit, Char.toNat, UInt32.le_def, Fin.le_def]
  rfl

theorem isalpha_iff (c : Char) :
    isalpha c = true ↔ (65 ≤ c.toNat ∧ c.toNat ≤ 90) ∨ (97 ≤ c.toNat ∧ c.toNat ≤ 122) := by
  simp [isalpha, Char.isAlpha, Char.isUpper, Char.isLower, Char.toNat, UInt32.le_def, Fin.le_def]
  rfl

theorem isalnum_iff (c : Char) :
    isalnum c = true ↔ isalpha c = true ∨ isdigit c = true := by
  simp [isalnum, isalpha, isdigit, Char.isAlphanum]

theorem not_isalpha_of_isdigit (c : Char) (h : isdigit c = true) : ¬ isalpha c = true := by
  rw [isdigit_iff] at h
  rw [isalpha_iff]
  omega

/-! ## Loop lemmas -/

theorem while_loop_inv (I : Lexer → Prop) (cond : Lexer → Bool) (body : Lexer → Lexer)
    (hbody : ∀ x, cond x = true → I x → I (body x)) :
    ∀ (fuel : Nat) (l l1 : Lexer), while_loop cond body fuel l = some l1 → I l → I l1 := by
  intro fuel
  induction fuel with
  | zero => intro l l1 h; simp [while_loop] at h
  | succ n ih =>
    intro l l1 h hI
    unfold while_loop at h
    by_cases hc : cond l = true
    · rw [if_pos hc] at h
      exact ih _ _ h (hbody l hc hI)
    · rw [if_neg hc] at h
      cases h
      exact hI

theorem while_loop_exit (cond : Lexer → Bool) (body : Lexer → Lexer) :
    ∀ (fuel : Nat) (l l1 : Lexer), while_loop cond body fuel l = some l1 → cond l1 = false := by
  intro fuel
  induction fuel with
  | zero => intro l l1 h; simp [while_loop] at h
  | succ n ih =>
    intro l l1 h
    unfold while_loop at h
    by_cases hc : cond l = true
    · rw [if_pos hc] at h
      exact ih _ _ h
    · rw [if_neg hc] at h
      cases h
      simpa using hc

theorem while_loop_total (cond : Lexer → Bool) (body : Lexer → Lexer)
    (hcond : ∀ x, cond x = true → x.current < x.src.length)
    (hsrc : ∀ x, (body x).src = x.src)
    (hcur : ∀ x, (body x).current = x.current + 1) :
    ∀ (fuel : Nat) (l : Lexer), l.current ≤ l.src.length →
      l.src.length + 1 ≤ fuel + l.current → ∃ l1, while_loop cond body fuel l = some l1 := by
  intro fuel
  induction fuel with
  | zero => intro l h1 h2; omega
  | succ n ih =>
    intro l h1 h2
    unfold while_loop
    by_cases hc : cond l = true
    · rw [if_pos hc]
      have := hcond l hc
      apply ih
      · rw [hcur, hsrc]; omega
      · rw [hcur, hsrc]; omega
    · rw [if_neg hc]
      exact ⟨l, rfl⟩

theorem while_loop_run (p : Char → Bool) (body : Lexer → Lexer)
    (hsrc : ∀ x, (body x).src = x.src) (hstart : ∀ x, (body x).start = x.start)
    (hcur : ∀ x, (body x).current = x.current + 1) :
    ∀ (n fuel : Nat) (l : Lexer),
      (∀ i, i < n → p (char_at l.src (l.current + i)) = true) →
      p (char_at l.src (l.current + n)) = false → n < fuel →
      ∃ l1, while_loop (fun x => p (peek x)) body fuel l = some l1 ∧ l1.src = l.src ∧
        l1.start = l.start ∧ l1.current = l.current + n := by
  intro n
  induction n with
  | zero =>
    intro fuel l _ hstop hfuel
    obtain ⟨f, rfl⟩ : ∃ f, fuel = f + 1 := ⟨fuel - 1, by omega⟩
    refine ⟨l, ?_, rfl, rfl, rfl⟩
    unfold while_loop
    have : p (peek l) = false := by simpa [peek] using hstop
    simp [this]
  | succ n ih =>
    intro fuel l hrun hstop hfuel
    obtain ⟨f, rfl⟩ : ∃ f, fuel = f + 1 := ⟨fuel - 1, by omega⟩
    have h0 : p (peek l) = true := by simpa [peek] using hrun 0 (by omega)
    obtain ⟨l1, h1, h2, h3, h4⟩ := ih f (body l)
      (by
        intro i hi
        rw [hsrc, hcur]
        have := hrun (i + 1) (by omega)
        rwa [show l.current + (i + 1) = l.current + 1 + i by omega] at this)
      (by
        rw [hsrc, hcur]
        rwa [show l.current + (n + 1) = l.current + 1 + n by omega] at hstop)
      (by omega)
    refine ⟨l1, ?_, by rw [h2, hsrc], by rw [h3, hstart], by rw [h4, hcur]; omega⟩
    unfold while_loop
    simp only [h0, if_true]
    exact h1

theorem advance_run (p : Char → Bool) (n fuel : Nat) (l : Lexer)
    (hrun : ∀ i, i < n → p (char_at l.src (l.current + i)) = true)
    (hstop : p (char_at l.src (l.current + n)) = false) (hfuel : n < fuel) :
    while_loop (fun x => p (peek x)) (fun x => (advance x).2) fuel l
      = some { l with current := l.current + n } := by
  obtain ⟨l1, h1, h2, h3, h4⟩ := while_loop_run p (fun x => (advance x).2)
    (fun _ => rfl) (fun _ => rfl) (fun _ => rfl) n fuel l hrun hstop hfuel
  have h5 : l1.line = l.line :=
    while_loop_inv (fun x => x.line = l.line) (fun x => p (peek x)) (fun x => (advance x).2)
      (fun x _ hx => hx) fuel l l1 h1 rfl
  rw [h1]
  cases l1
  cases l
  simp_all

theorem skip_whitespace_noop (l : Lexer) (h : l.current ≤ l.src.length)
    (h1 : peek l ≠ ' ') (h2 : peek l ≠ '\r') (h3 : peek l ≠ '\t') (h4 : peek l ≠ '\n')
    (h5 : peek l ≠ '/') : skip_whitespace l = some l := by
  unfold skip_whitespace
  obtain ⟨f, hf⟩ : ∃ f, loop_fuel l = f + 1 := ⟨loop_fuel l - 1, by unfold loop_fuel; omega⟩
  rw [hf]
  unfold skip_whitespace_loop
  simp [h1, h2, h3, h4, h5]

theorem scan_token_eof {α : Type} (A : Allocator α) (l : Lexer) (heap : α)
    (h : l.current ≤ l.src.length) (hend : peek l = '\x00') :
    scan_token A l heap
      = some (⟨TOKEN_EOF, l.line, none⟩, { l with start := l.current }, heap) := by
  have hs : skip_whitespace l = some l :=
    skip_whitespace_noop l h (by rw [hend]; decide) (by rw [hend]; decide)
      (by rw [hend]; decide) (by rw [hend]; decide) (by rw [hend]; decide)
  have he : is_at_end { l with start := l.current } = true := by
    simpa [is_at_end, peek] using hend
  simp [scan_token, hs, he, emit, make_token]

theorem scan_token_digit {α : Type} (A : Allocator α) (l : Lexer) (heap : α)
    (h : l.current ≤ l.src.length) (hd : isdigit (peek l) = true) :
    scan_token A l heap
      = make_number_token A ⟨l.src, l.current, l.current + 1, l.line⟩ heap := by
  have hs : skip_whitespace l = some l :=
    skip_whitespace_noop l h (by rintro hc; rw [hc] at hd; exact absurd hd (by decide))
      (by rintro hc; rw [hc] at hd; exact absurd hd (by decide))
      (by rintro hc; rw [hc] at hd; exact absurd hd (by decide))
      (by rintro hc; rw [hc] at hd; exact absurd hd (by decide))
      (by rintro hc; rw [hc] at hd; exact absurd hd (by decide))
  have he : is_at_end { l with start := l.current } = false := by
    have : peek l ≠ '\x00' := by rintro hc; rw [hc] at hd; exact absurd hd (by decide)
    simpa [is_at_end, peek] using this
  have ha : ¬ isalpha (peek l) = true := not_isalpha_of_isdigit _ hd
  have hu : peek l ≠ '_' := by rintro hc; rw [hc] at hd; exact absurd hd (by decide)
  simp only [peek] at ha hu hd
  simp [scan_token, hs, he, advance, ha, hu, hd]



theorem line_inv_advance (l : Lexer) (h : line_inv l) (hc : peek l ≠ '\n') :
    line_inv (advance l).2 := by
  unfold line_inv at *
  simp only [advance, peek] at *
  rw [count_take_succ, if_neg hc, h]
  rfl

theorem line_inv_newline (l : Lexer) (h : line_inv l) (hc : peek l = '\n') :
    line_inv (advance { l with line := l.line + 1 }).2 := by
  unfold line_inv at *
  simp only [advance, peek] at *
  rw [count_take_succ, if_pos hc, h]
  omega

theorem line_inv_string_body (l : Lexer) (h : line_inv l) :
    line_inv (advance (if peek l = '\n' then { l with line := l.line + 1 } else l)).2 := by
  by_cases hc : peek l = '\n'
  · rw [if_pos hc]; exact line_inv_newline l h hc
  · rw [if_neg hc]; exact line_inv_advance l h hc

/-- The scan of the body of a string literal: the cursor stops on the first
quote or NUL and the line counter has counted the newlines stepped over. -/
theorem string_loop_run (n fuel : Nat) (l : Lexer) (hl : line_inv l)
    (hrun : ∀ i, i < n → char_at l.src (l.current + i) ≠ '"' ∧
      char_at l.src (l.current + i) ≠ '\x00')
    (hstop : char_at l.src (l.current + n) = '"' ∨ char_at l.src (l.current + n) = '\x00')
    (hfuel : n < fuel) :
    while_loop (fun x => peek x != '"' && !is_at_end x)
      (fun x => (advance (if peek x = '\n' then { x with line := x.line + 1 } else x)).2)
      fuel l
      = some ⟨l.src, l.start, l.current + n, 1 + (l.src.take (l.current + n)).count '\n'⟩ := by
  obtain ⟨l1, h1, h2, h3, h4⟩ := while_loop_run (fun c => c != '"' && !(c == '\x00'))
    (fun x => (advance (if peek x = '\n' then { x with line := x.line + 1 } else x)).2)
    (fun x => by by_cases hc : peek x = '\n' <;> simp [advance, hc])
    (fun x => by by_cases hc : peek x = '\n' <;> simp [advance, hc])
    (fun x => by by_cases hc : peek x = '\n' <;> simp [advance, hc])
    n fuel l
    (fun i hi => by have := hrun i hi; simp [this.1, this.2])
    (by rcases hstop with h | h <;> simp [h])
    hfuel
  have h5 : line_inv l1 :=
    while_loop_inv line_inv (fun x => peek x != '"' && !is_at_end x)
      (fun x => (advance (if peek x = '\n' then { x with line := x.line + 1 } else x)).2)
      (fun x _ hx => line_inv_string_body x hx) fuel l l1 h1 hl
  have h6 : while_loop (fun x => peek x != '"' && !is_at_end x)
      (fun x => (advance (if peek x = '\n' then { x with line := x.line + 1 } else x)).2)
      fuel l = some l1 := h1
  rw [h6]
  unfold line_inv at h5
  cases l1
  cases l
  simp_all

/-! ## Numbers and strings -/

theorem char_at_append_length (a b : List Char) : char_at (a ++ b) a.length = char_at b 0 := by
  simpa using char_at_append_right a b 0

theorem make_token_lexeme {α : Type} (A : Allocator α) (l : Lexer) (type : TokenType)
    (heap heap1 : α) (p : Nat)
    (hty : type = TOKEN_IDENTIFIER ∨ type = TOKEN_STRING ∨ type = TOKEN_ERROR ∨
      type = TOKEN_INTEGER ∨ type = TOKEN_FLOAT)
    (halloc : A.alloc heap (l.current - l.start + 1) "TokenLexeme" = (some p, heap1)) :
    make_token A l type heap
      = (⟨type, l.line, some ⟨p, (l.src.drop l.start).take (l.current - l.start)⟩⟩, heap1) := by
  unfold make_token
  rw [if_pos hty]
  simp only [halloc]

theorem make_error_token_ok {α : Type} (A : Allocator α) (l : Lexer) (message : List Char)
    (heap heap1 : α) (p n : Nat) (hn : strlen message = n) (htake : message.take n = message)
    (halloc : A.alloc heap (n + 1) "TokenError" = (some p, heap1)) :
    make_error_token A l message heap = (⟨TOKEN_ERROR, l.line, some ⟨p, message⟩⟩, heap1) := by
  unfold make_error_token
  simp only [hn, halloc, htake]

theorem digits_loop (src : List Char) (k n start line : Nat)
    (hrun : ∀ i, i < n → isdigit (char_at src (k + i)) = true)
    (hstop : isdigit (char_at src (k + n)) = false) (hk : k + n ≤ src.length) :
    while_loop (fun l => isdigit (peek l)) (fun l => (advance l).2)
      (loop_fuel ⟨src, start, k, line⟩) ⟨src, start, k, line⟩
      = some ⟨src, start, k + n, line⟩ := by
  have := advance_run isdigit n (loop_fuel ⟨src, start, k, line⟩) ⟨src, start, k, line⟩
    hrun hstop (by simp only [loop_fuel]; omega)
  simpa using this

/-- The first digit run of a source `d ++ tail`, entered after its first digit. -/
theorem digits_prefix_loop (d tail : List Char) (hne : d ≠ [])
    (hd : ∀ c ∈ d, isdigit c = true) (ht : isdigit (char_at tail 0) = false) :
    while_loop (fun l => isdigit (peek l)) (fun l => (advance l).2)
      (loop_fuel ⟨d ++ tail, 0, 1, 1⟩) ⟨d ++ tail, 0, 1, 1⟩
      = some ⟨d ++ tail, 0, d.length, 1⟩ := by
  have hlen : 0 < d.length := List.length_pos.mpr hne
  have := digits_loop (d ++ tail) 1 (d.length - 1) 0 1
    (by
      intro i hi
      rw [char_at_append_left d tail (1 + i) (by omega)]
      exact hd _ (char_at_mem d (1 + i) (by omega)))
    (by
      rw [show 1 + (d.length - 1) = d.length by omega, char_at_append_length]
      exact ht)
    (by simp; omega)
  rw [show 1 + (d.length - 1) = d.length by omega] at this
  exact this

theorem scan_number_start {α : Type} (A : Allocator α) (heap : α) (d tail : List Char)
    (hne : d ≠ []) (hd : ∀ c ∈ d, isdigit c = true) :
    scan_token A (init_lexer (d ++ tail)) heap
      = make_number_token A ⟨d ++ tail, 0, 1, 1⟩ heap := by
  have hlen : 0 < d.length := List.length_pos.mpr hne
  have hp : isdigit (peek (init_lexer (d ++ tail))) = true := by
    simp only [peek, init_lexer]
    rw [char_at_append_left d tail 0 hlen]
    exact hd _ (char_at_mem d 0 hlen)
  exact scan_token_digit A (init_lexer (d ++ tail)) heap (by simp [init_lexer]) hp

theorem scan_integer {α : Type} (A : Allocator α) (heap heap1 : α) (p : Nat)
    (d tail : List Char) (hne : d ≠ []) (hd : ∀ c ∈ d, isdigit c = true)
    (ht : isdigit (char_at tail 0) = false) (hdot : char_at tail 0 ≠ '.')
    (halloc : A.alloc heap (d.length + 1) "TokenLexeme" = (some p, heap1)) :
    scan_token A (init_lexer (d ++ tail)) heap
      = some (⟨TOKEN_INTEGER, 1, some ⟨p, d⟩⟩, ⟨d ++ tail, 0, d.length, 1⟩, heap1) := by
  rw [scan_number_start A heap d tail hne hd]
  unfold make_number_token
  rw [digits_prefix_loop d tail hne hd ht]
  have hpk : peek ⟨d ++ tail, 0, d.length, 1⟩ = char_at tail 0 := by
    simp only [peek, char_at_append_length]
  simp only [hpk]
  rw [if_neg (fun h => hdot h.1), if_neg (fun h => hdot h.1),
    make_token_lexeme A _ _ heap heap1 p (by decide) (by simpa using halloc)]
  simp

theorem scan_number_error {α : Type} (A : Allocator α) (heap heap1 : α) (p : Nat)
    (d rest : List Char) (hne : d ≠ []) (hd : ∀ c ∈ d, isdigit c = true)
    (hr : isdigit (char_at rest 0) = false)
    (halloc : A.alloc heap 23 "TokenError" = (some p, heap1)) :
    scan_token A (init_lexer (d ++ '.' :: rest)) heap
      = some (⟨TOKEN_ERROR, 1, some ⟨p, "Invalid number literal".toList⟩⟩,
          ⟨d ++ '.' :: rest, 0, d.length, 1⟩, heap1) := by
  rw [scan_number_start A heap d _ hne hd]
  unfold make_number_token
  rw [digits_prefix_loop d _ hne hd (by rw [char_at_cons_zero]; decide)]
  have hpk : peek ⟨d ++ '.' :: rest, 0, d.length, 1⟩ = '.' := by
    simp only [peek, char_at_append_length, char_at_cons_zero]
  have hpn : peek_next ⟨d ++ '.' :: rest, 0, d.length, 1⟩ = char_at rest 0 := by
    have h1 : char_at (d ++ '.' :: rest) (d.length + 1) = char_at rest 0 := by
      rw [char_at_append_right, char_at_cons_succ]
    have h2 : is_at_end ⟨d ++ '.' :: rest, 0, d.length, 1⟩ = false := by
      simp only [is_at_end, char_at_append_length, char_at_cons_zero]; decide
    simp only [peek_next, h1, h2]; simp
  simp only [hpk, hpn, hr]
  rw [if_neg (by simp), if_pos (by simp),
    make_error_token_ok A _ _ heap heap1 p 22 (by decide) (by decide) halloc]

theorem scan_float {α : Type} (A : Allocator α) (heap heap1 : α) (p : Nat)
    (d e tail : List Char) (hne : d ≠ []) (hd : ∀ c ∈ d, isdigit c = true)
    (hne2 : e ≠ []) (he : ∀ c ∈ e, isdigit c = true)
    (ht : isdigit (char_at tail 0) = false)
    (halloc : A.alloc heap (d.length + 1 + e.length + 1) "TokenLexeme" = (some p, heap1)) :
    scan_token A (init_lexer (d ++ '.' :: e ++ tail)) heap
      = some (⟨TOKEN_FLOAT, 1, some ⟨p, d ++ '.' :: e⟩⟩,
          ⟨d ++ '.' :: e ++ tail, 0, d.length + 1 + e.length, 1⟩, heap1) := by
  have hsrc : d ++ '.' :: e ++ tail = d ++ ('.' :: (e ++ tail)) := by simp
  rw [hsrc, scan_number_start A heap d _ hne hd]
  unfold make_number_token
  rw [digits_prefix_loop d _ hne hd (by rw [char_at_cons_zero]; decide)]
  have hlen2 : 0 < e.length := List.length_pos.mpr hne2
  have hpk : peek ⟨d ++ '.' :: (e ++ tail), 0, d.length, 1⟩ = '.' := by
    simp only [peek, char_at_append_length, char_at_cons_zero]
  have hpn : peek_next ⟨d ++ '.' :: (e ++ tail), 0, d.length, 1⟩ = char_at e 0 := by
    have h1 : char_at (d ++ '.' :: (e ++ tail)) (d.length + 1) = char_at e 0 := by
      rw [char_at_append_right, char_at_cons_succ, char_at_append_left e tail 0 hlen2]
    have h2 : is_at_end ⟨d ++ '.' :: (e ++ tail), 0, d.length, 1⟩ = false := by
      simp only [is_at_end, char_at_append_length, char_at_cons_zero]; decide
    simp only [peek_next, h1, h2]; simp
  have he0 : isdigit (char_at e 0) = true := he _ (char_at_mem e 0 hlen2)
  have hloop := digits_loop (d ++ '.' :: (e ++ tail)) (d.length + 1) e.length 0 1
    (by
      intro i hi
      rw [show d.length + 1 + i = d.length + (i + 1) by omega, char_at_append_right,
        char_at_cons_succ, char_at_append_left e tail i hi]
      exact he _ (char_at_mem e i hi))
    (by
      rw [show d.length + 1 + e.length = d.length + (e.length + 1) by omega,
        char_at_append_right, char_at_cons_succ, char_at_append_length]
      exact ht)
    (by simp; omega)
  dsimp only
  rw [if_pos ⟨hpk, by rw [hpn]; exact he0⟩]
  have hadv : (advance ⟨d ++ '.' :: (e ++ tail), 0, d.length, 1⟩).2
      = ⟨d ++ '.' :: (e ++ tail), 0, d.length + 1, 1⟩ := rfl
  rw [hadv, hloop]
  have htake : List.take (d.length + 1 + e.length) (d ++ '.' :: (e ++ tail)) = d ++ '.' :: e := by
    rw [show d.length + 1 + e.length = d.length + (e.length + 1) by omega,
      List.take_append, List.take_succ_cons, List.take_left']
    rfl
  simp only []
  rw [make_token_lexeme A _ _ heap heap1 p (by decide) (by simpa using halloc)]
  simp [htake]

theorem scan_token_eof_whole {α : Type} (A : Allocator α) (heap : α) (src : List Char)
    (start line : Nat) :
    scan_token A ⟨src, start, src.length, line⟩ heap
      = some (⟨TOKEN_EOF, line, none⟩, at_eof src line, heap) :=
  scan_token_eof A ⟨src, start, src.length, line⟩ heap (Nat.le_refl _)
    (char_at_of_le src src.length (Nat.le_refl _))

theorem scan_token_dot {α : Type} (A : Allocator α) (l : Lexer) (heap : α)
    (h : l.current ≤ l.src.length) (hp : peek l = '.') :
    scan_token A l heap
      = some (⟨TOKEN_DOT, l.line, none⟩, ⟨l.src, l.current, l.current + 1, l.line⟩, heap) := by
  have hs : skip_whitespace l = some l :=
    skip_whitespace_noop l h (by rw [hp]; decide) (by rw [hp]; decide)
      (by rw [hp]; decide) (by rw [hp]; decide) (by rw [hp]; decide)
  have hp1 : char_at l.src l.current = '.' := hp
  have he : is_at_end { l with start := l.current } = false := by
    simp only [is_at_end, hp1]; decide
  have h1 : isalpha '.' = false := by decide
  have h2 : isdigit '.' = false := by decide
  simp [scan_token, hs, he, advance, hp1, h1, h2, emit, make_token]

theorem scan_string_start {α : Type} (A : Allocator α) (l : Lexer) (heap : α)
    (h : l.current ≤ l.src.length) (hp : peek l = '"') :
    scan_token A l heap
      = make_string_token A ⟨l.src, l.current, l.current + 1, l.line⟩ heap := by
  have hs : skip_whitespace l = some l :=
    skip_whitespace_noop l h (by rw [hp]; decide) (by rw [hp]; decide)
      (by rw [hp]; decide) (by rw [hp]; decide) (by rw [hp]; decide)
  have hp1 : char_at l.src l.current = '"' := hp
  have he : is_at_end { l with start := l.current } = false := by
    simp only [is_at_end, hp1]; decide
  have h1 : isalpha '"' = false := by decide
  have h2 : isdigit '"' = false := by decide
  simp [scan_token, hs, he, advance, hp1, h1, h2]

/-- The body loop of a string literal on a source `'"' :: s ++ tail`, where `s`
holds neither a quote nor a NUL and `tail` starts with a quote or is empty. -/
theorem string_body_loop (s tail : List Char) (hq : ∀ c ∈ s, c ≠ '"')
    (hz : ∀ c ∈ s, c ≠ '\x00')
    (ht : char_at tail 0 = '"' ∨ char_at tail 0 = '\x00') :
    while_loop (fun x => peek x != '"' && !is_at_end x)
      (fun x => (advance (if peek x = '\n' then { x with line := x.line + 1 } else x)).2)
      (loop_fuel ⟨'"' :: s ++ tail, 0, 1, 1⟩) ⟨'"' :: s ++ tail, 0, 1, 1⟩
      = some ⟨'"' :: s ++ tail, 0, s.length + 1, 1 + s.count '\n'⟩ := by
  have hidx : ∀ i, char_at ('"' :: s ++ tail) (1 + i) = char_at (s ++ tail) i := by
    intro i
    rw [show 1 + i = i + 1 by omega, List.cons_append, char_at_cons_succ]
  have := string_loop_run s.length (loop_fuel ⟨'"' :: s ++ tail, 0, 1, 1⟩)
    ⟨'"' :: s ++ tail, 0, 1, 1⟩
    (by simp [line_inv])
    (by
      intro i hi
      simp only []
      rw [hidx, char_at_append_left s tail i hi]
      exact ⟨hq _ (char_at_mem s i hi), hz _ (char_at_mem s i hi)⟩)
    (by
      simp only []
      rw [hidx, char_at_append_length]
      exact ht)
    (by simp [loop_fuel]; omega)
  rw [this]
  have hc : List.count '\n' (List.take (1 + s.length) ('"' :: s ++ tail)) = s.count '\n' := by
    rw [show 1 + s.length = s.length + 1 by omega, List.cons_append, List.take_succ_cons,
      List.take_left', List.count_cons]
    · simp
    · rfl
  simp only [hc]
  rw [show 1 + s.length = s.length + 1 by omega]

theorem scan_unterminated_string {α : Type} (A : Allocator α) (heap heap1 : α) (p : Nat)
    (s : List Char) (hq : ∀ c ∈ s, c ≠ '"') (hz : ∀ c ∈ s, c ≠ '\x00')
    (halloc : A.alloc heap 21 "TokenError" = (some p, heap1)) :
    scan_token A (init_lexer ('"' :: s)) heap
      = some (⟨TOKEN_ERROR, 1 + s.count '\n', some ⟨p, "Unterminated string.".toList⟩⟩,
          ⟨'"' :: s, 0, s.length + 1, 1 + s.count '\n'⟩, heap1) := by
  rw [scan_string_start A (init_lexer ('"' :: s)) heap (by simp [init_lexer])
    (by simp only [peek, init_lexer, char_at_cons_zero])]
  have hloop := string_body_loop s [] hq hz (Or.inr (char_at_nil 0))
  simp only [List.append_nil] at hloop
  unfold make_string_token
  simp only [init_lexer]
  rw [hloop]
  have hend : is_at_end ⟨'"' :: s, 0, s.length + 1, 1 + s.count '\n'⟩ = true := by
    simp only [is_at_end, char_at_cons_succ, char_at_of_le s s.length (Nat.le_refl _)]
    decide
  simp only [hend, if_true]
  rw [make_error_token_ok A _ _ heap heap1 p 20 (by decide) (by decide) halloc]

theorem scan_string {α : Type} (A : Allocator α) (heap heap1 : α) (p : Nat)
    (s r : List Char) (hq : ∀ c ∈ s, c ≠ '"') (hz : ∀ c ∈ s, c ≠ '\x00')
    (halloc : A.alloc heap (s.length + 1) "TokenLexeme" = (some p, heap1)) :
    scan_token A (init_lexer ('"' :: s ++ '"' :: r)) heap
      = some (⟨TOKEN_STRING, 1 + s.count '\n', some ⟨p, s⟩⟩,
          ⟨'"' :: s ++ '"' :: r, 0, s.length + 2, 1 + s.count '\n'⟩, heap1) := by
  rw [scan_string_start A (init_lexer ('"' :: s ++ '"' :: r)) heap (by simp [init_lexer])
    (by simp only [peek, init_lexer, List.cons_append, char_at_cons_zero])]
  have hloop := string_body_loop s ('"' :: r) hq hz (Or.inl (char_at_cons_zero _ _))
  unfold make_string_token
  simp only [init_lexer]
  rw [hloop]
  have hend : is_at_end ⟨'"' :: s ++ '"' :: r, 0, s.length + 1, 1 + s.count '\n'⟩ = false := by
    simp only [is_at_end, List.cons_append, char_at_cons_succ, char_at_append_length,
      char_at_cons_zero]
    decide
  simp only [hend]
  rw [make_token_lexeme A _ _ heap heap1 p (by decide) (by simpa using halloc)]
  simp [advance]

/-! ## The keyword classifier -/

theorem keyword_table_classified :
    ∀ e ∈ keyword_table, identifier_type (whole e.1.toList) = e.2 ∧
      keyword_lookup e.1.toList = e.2 := by
  decide

theorem keyword_lookup_ne (w : List Char) (h : keyword_lookup w ≠ TOKEN_IDENTIFIER) :
    ∃ e ∈ keyword_table, e.1.toList = w := by
  unfold keyword_lookup at h
  cases hf : keyword_table.find? (fun e => decide (e.1.toList = w)) with
  | none => rw [hf] at h; exact absurd rfl h
  | some e =>
    refine ⟨e, List.mem_of_find?_eq_some hf, ?_⟩
    simpa using List.find?_some hf

theorem split_one (w : List Char) (h : 1 ≤ w.length) : w = char_at w 0 :: w.drop 1 := by
  cases w with
  | nil => simp at h
  | cons a t => simp [char_at]

theorem split_two (w : List Char) (h : 2 ≤ w.length) :
    w = char_at w 0 :: char_at w 1 :: w.drop 2 := by
  match w, h with
  | a :: b :: t, _ => simp [char_at]

theorem split_three (w : List Char) (h : 3 ≤ w.length) :
    w = char_at w 0 :: char_at w 1 :: char_at w 2 :: w.drop 3 := by
  match w, h with
  | a :: b :: c :: t, _ => simp [char_at]

theorem check_keyword_whole (w : List Char) (k len : Nat) (rest : List Char) (ty : TokenType)
    (hlen : rest.length = len)
    (h : check_keyword (whole w) k len rest ty ≠ TOKEN_IDENTIFIER) :
    w.length = k + len ∧ w.drop k = rest := by
  unfold check_keyword at h
  simp only [whole, Nat.sub_zero, Nat.zero_add] at h
  by_cases hc : w.length = k + len ∧ List.take len (List.drop k w) = List.take len rest
  · refine ⟨hc.1, ?_⟩
    have h1 : List.take len (List.drop k w) = List.drop k w :=
      List.take_of_length_le (by simp; omega)
    have h2 : List.take len rest = rest := List.take_of_length_le (by omega)
    rw [← h1, hc.2, h2]
  · rw [if_neg hc] at h
    exact absurd rfl h





theorem ite_kw {c : Prop} [Decidable c] {a b : TokenType} {P : Prop}
    (ha : c → a = TOKEN_IDENTIFIER ∨ P) (hb : ¬ c → b = TOKEN_IDENTIFIER ∨ P) :
    (if c then a else b) = TOKEN_IDENTIFIER ∨ P := by
  by_cases h : c
  · rw [if_pos h]; exact ha h
  · rw [if_neg h]; exact hb h

theorem kw_one (w : List Char) (ch : Char) (len : Nat) (rest : List Char) (ty : TokenType)
    (kw : String) (hmem : (kw, ty) ∈ keyword_table) (hkw : kw.toList = ch :: rest)
    (hlen : rest.length = len) (h0 : char_at w 0 = ch) :
    check_keyword ⟨w, 0, w.length, 1⟩ 1 len rest ty = TOKEN_IDENTIFIER ∨
      ∃ e ∈ keyword_table, e.1.toList = w := by
  by_cases hc : check_keyword ⟨w, 0, w.length, 1⟩ 1 len rest ty = TOKEN_IDENTIFIER
  · exact Or.inl hc
  · obtain ⟨hl, hd⟩ := check_keyword_whole w 1 len rest ty hlen hc
    have hw : w = ch :: rest := by rw [split_one w (by omega), h0, hd]
    exact Or.inr ⟨(kw, ty), hmem, by rw [hw]; exact hkw⟩

theorem kw_two (w : List Char) (a b : Char) (len : Nat) (rest : List Char) (ty : TokenType)
    (kw : String) (hmem : (kw, ty) ∈ keyword_table) (hkw : kw.toList = a :: b :: rest)
    (hlen : rest.length = len) (h0 : char_at w 0 = a) (h1 : char_at w 1 = b) :
    check_keyword ⟨w, 0, w.length, 1⟩ 2 len rest ty = TOKEN_IDENTIFIER ∨
      ∃ e ∈ keyword_table, e.1.toList = w := by
  by_cases hc : check_keyword ⟨w, 0, w.length, 1⟩ 2 len rest ty = TOKEN_IDENTIFIER
  · exact Or.inl hc
  · obtain ⟨hl, hd⟩ := check_keyword_whole w 2 len rest ty hlen hc
    have hw : w = a :: b :: rest := by rw [split_two w (by omega), h0, h1, hd]
    exact Or.inr ⟨(kw, ty), hmem, by rw [hw]; exact hkw⟩

theorem kw_three (w : List Char) (a b c : Char) (len : Nat) (rest : List Char)
    (ty : TokenType) (kw : String) (hmem : (kw, ty) ∈ keyword_table)
    (hkw : kw.toList = a :: b :: c :: rest) (hlen : rest.length = len)
    (h0 : char_at w 0 = a) (h1 : char_at w 1 = b) (h2 : char_at w 2 = c) :
    check_keyword ⟨w, 0, w.length, 1⟩ 3 len rest ty = TOKEN_IDENTIFIER ∨
      ∃ e ∈ keyword_table, e.1.toList = w := by
  by_cases hc : check_keyword ⟨w, 0, w.length, 1⟩ 3 len rest ty = TOKEN_IDENTIFIER
  · exact Or.inl hc
  · obtain ⟨hl, hd⟩ := check_keyword_whole w 3 len rest ty hlen hc
    have hw : w = a :: b :: c :: rest := by rw [split_three w (by omega), h0, h1, h2, hd]
    exact Or.inr ⟨(kw, ty), hmem, by rw [hw]; exact hkw⟩

/-- Whatever `identifier_type` classifies as a keyword is a keyword text. -/
theorem identifier_type_sound (w : List Char) :
    identifier_type (whole w) = TOKEN_IDENTIFIER ∨ ∃ e ∈ keyword_table, e.1.toList = w := by
  unfold identifier_type
  simp only [start_at, whole, Nat.sub_zero, Nat.zero_add]
  refine ite_kw (fun h0 => ?_) (fun _ => ?_)
  · refine ite_kw (fun _ => ?_) (fun _ => Or.inl rfl)
    refine ite_kw (fun h1 => ?_) (fun _ => ?_)
    · exact kw_two w 'i' 'm' 4 _ _ "import" (by decide) rfl rfl h0 h1
    refine ite_kw (fun h1 => ?_) (fun _ => Or.inl rfl)
    exact kw_two w 'i' 'f' 0 _ _ "if" (by decide) rfl rfl h0 h1
  refine ite_kw (fun h0 => ?_) (fun _ => ?_)
  · exact kw_one w 'l' 2 _ _ "let" (by decide) rfl rfl h0
  refine ite_kw (fun h0 => ?_) (fun _ => ?_)
  · refine ite_kw (fun _ => ?_) (fun _ => Or.inl rfl)
    refine ite_kw (fun h1 => ?_) (fun _ => Or.inl rfl)
    refine ite_kw (fun h2 => ?_) (fun _ => Or.inl rfl)
    refine ite_kw (fun _ => ?_) (fun _ => ?_)
    · exact kw_three w 'c' 'o' 'n' 2 _ _ "const" (by decide) rfl rfl h0 h1 h2.2
    refine ite_kw (fun _ => ?_) (fun _ => Or.inl rfl)
    exact kw_three w 'c' 'o' 'n' 5 _ _ "continue" (by decide) rfl rfl h0 h1 h2.2
  refine ite_kw (fun h0 => ?_) (fun _ => ?_)
  · refine ite_kw (fun _ => ?_) (fun _ => Or.inl rfl)
    refine ite_kw (fun h1 => ?_) (fun _ => ?_)
    · exact kw_two w 'f' 'n' 0 _ _ "fn" (by decide) rfl rfl h0 h1
    refine ite_kw (fun h1 => ?_) (fun _ => ?_)
    · exact kw_two w 'f' 'a' 3 _ _ "false" (by decide) rfl rfl h0 h1
    refine ite_kw (fun h1 => ?_) (fun _ => Or.inl rfl)
    exact kw_two w 'f' 'o' 1 _ _ "for" (by decide) rfl rfl h0 h1
  refine ite_kw (fun h0 => ?_) (fun _ => ?_)
  · refine ite_kw (fun _ => ?_) (fun _ => Or.inl rfl)
    refine ite_kw (fun h1 => ?_) (fun _ => ?_)
    · exact kw_two w 'e' 'l' 2 _ _ "else" (by decide) rfl rfl h0 h1
    refine ite_kw (fun h1 => ?_) (fun _ => Or.inl rfl)
    exact kw_two w 'e' 'n' 2 _ _ "enum" (by decide) rfl rfl h0 h1
  refine ite_kw (fun h0 => ?_) (fun _ => ?_)
  · refine ite_kw (fun _ => ?_) (fun _ => Or.inl rfl)
    refine ite_kw (fun h1 => ?_) (fun _ => ?_)
    · exact kw_two w 't' 'r' 2 _ _ "true" (by decide) rfl rfl h0 h1
    refine ite_kw (fun h1 => ?_) (fun _ => Or.inl rfl)
    exact kw_two w 't' 'y' 2 _ _ "type" (by decide) rfl rfl h0 h1
  refine ite_kw (fun h0 => ?_) (fun _ => ?_)
  · exact kw_one w 'w' 4 _ _ "while" (by decide) rfl rfl h0
  refine ite_kw (fun h0 => ?_) (fun _ => ?_)
  · exact kw_one w 'd' 1 _ _ "do" (by decide) rfl rfl h0
  refine ite_kw (fun h0 => ?_) (fun _ => ?_)
  · exact kw_one w 'r' 5 _ _ "return" (by decide) rfl rfl h0
  refine ite_kw (fun h0 => ?_) (fun _ => ?_)
  · exact kw_one w 'b' 4 _ _ "break" (by decide) rfl rfl h0
  refine ite_kw (fun h0 => ?_) (fun _ => ?_)
  · exact kw_one w 'h' 3 _ _ "heap" (by decide) rfl rfl h0
  refine ite_kw (fun h0 => ?_) (fun _ => ?_)
  · exact kw_one w 's' 5 _ _ "struct" (by decide) rfl rfl h0
  refine ite_kw (fun h0 => ?_) (fun _ => ?_)
  · exact kw_one w 'u' 4 _ _ "union" (by decide) rfl rfl h0
  refine ite_kw (fun h0 => ?_) (fun _ => ?_)
  · exact kw_one w 'n' 3 _ _ "null" (by decide) rfl rfl h0
  refine ite_kw (fun h0 => ?_) (fun _ => Or.inl rfl)
  exact kw_one w 'p' 2 _ _ "pub" (by decide) rfl rfl h0

/-- The classifier of the source agrees with the exact-text table lookup. -/
theorem identifier_type_whole (w : List Char) :
    identifier_type (whole w) = keyword_lookup w := by
  by_cases hw : ∃ e ∈ keyword_table, e.1.toList = w
  · obtain ⟨e, he, rfl⟩ := hw
    have := keyword_table_classified e he
    rw [this.1, this.2]
  · have h1 : identifier_type (whole w) = TOKEN_IDENTIFIER := by
      rcases identifier_type_sound w with h | h
      · exact h
      · exact absurd h hw
    have h2 : keyword_lookup w = TOKEN_IDENTIFIER := by
      by_contra hc
      exact hw (keyword_lookup_ne w hc)
    rw [h1, h2]

theorem identifier_type_congr (l l1 : Lexer)
    (hn : l1.current - l1.start = l.current - l.start)
    (h0 : start_at l1 0 = start_at l 0)
    (h1 : l.current - l.start > 1 → start_at l1 1 = start_at l 1)
    (h2 : l.current - l.start > 2 → start_at l1 2 = start_at l 2)
    (hck : ∀ k len rest ty, check_keyword l1 k len rest ty = check_keyword l k len rest ty) :
    identifier_type l1 = identifier_type l := by
  unfold identifier_type
  simp only [hn, h0, hck]
  by_cases hn1 : l.current - l.start > 1
  · rw [h1 hn1]
    by_cases hn2 : l.current - l.start > 2
    · rw [h2 hn2]
    · simp only [hn2, false_and, if_false]
  · simp only [if_neg hn1]

theorem char_at_drop (a : List Char) (s i : Nat) : char_at (a.drop s) i = char_at a (s + i) := by
  induction s generalizing a with
  | zero => simp
  | succ n ih =>
    cases a with
    | nil => simp [char_at]
    | cons x xs =>
      rw [List.drop_succ_cons, ih, show n + 1 + i = (n + i) + 1 by omega, char_at_cons_succ]

theorem char_at_take (a : List Char) (n i : Nat) (h : i < n) :
    char_at (a.take n) i = char_at a i := by
  induction n generalizing a i with
  | zero => omega
  | succ m ih =>
    cases a with
    | nil => simp
    | cons x xs =>
      cases i with
      | zero => simp [char_at]
      | succ j =>
        rw [List.take_succ_cons, char_at_cons_succ, char_at_cons_succ]
        exact ih xs j (by omega)

/-- The classifier only looks at the lexeme between `start` and `current`. -/
theorem identifier_type_lexeme (l : Lexer) (hs : l.start < l.current)
    (hc : l.current ≤ l.src.length) :
    identifier_type l
      = identifier_type (whole ((l.src.drop l.start).take (l.current - l.start))) := by
  have hwlen : ((l.src.drop l.start).take (l.current - l.start)).length
      = l.current - l.start := by
    rw [List.length_take, List.length_drop]; omega
  have hat : ∀ i, i < l.current - l.start →
      start_at (whole ((l.src.drop l.start).take (l.current - l.start))) i = start_at l i := by
    intro i hi
    simp only [start_at, whole, Nat.zero_add]
    rw [char_at_take _ _ _ hi, char_at_drop]
  symm
  apply identifier_type_congr
  · simp only [whole, Nat.sub_zero, hwlen]
  · exact hat 0 (by omega)
  · intro h; exact hat 1 h
  · intro h; exact hat 2 h
  · intro k len rest ty
    unfold check_keyword
    simp only [whole, Nat.sub_zero, Nat.zero_add, hwlen]
    by_cases hk : l.current - l.start = k + len
    · have : List.take len (List.drop k (List.take (l.current - l.start)
          (List.drop l.start l.src))) = List.take len (List.drop (l.start + k) l.src) := by
        rw [List.drop_take, List.drop_drop, hk, Nat.add_sub_cancel_left, List.take_take,
          Nat.min_self]
      rw [this]
    · simp only [hk, false_and, if_false]

/-! ## Identifiers -/

theorem scan_token_ident {α : Type} (A : Allocator α) (l : Lexer) (heap : α)
    (h : l.current ≤ l.src.length) (hd : isalpha (peek l) = true ∨ peek l = '_') :
    scan_token A l heap
      = make_identifier_or_keyword A ⟨l.src, l.current, l.current + 1, l.line⟩ heap := by
  have hne : ∀ d : Char, isalpha d = false → d ≠ '_' → peek l ≠ d := by
    intro d h1 h2 hc
    rw [hc] at hd
    rcases hd with hd | hd
    · rw [h1] at hd; exact absurd hd (by decide)
    · exact h2 hd
  have hs : skip_whitespace l = some l :=
    skip_whitespace_noop l h (hne _ (by decide) (by decide)) (hne _ (by decide) (by decide))
      (hne _ (by decide) (by decide)) (hne _ (by decide) (by decide))
      (hne _ (by decide) (by decide))
  have he : is_at_end { l with start := l.current } = false := by
    have : peek l ≠ '\x00' := hne _ (by decide) (by decide)
    simpa [is_at_end, peek] using this
  simp only [peek] at hd
  simp only [scan_token, hs, he, advance, if_pos hd]
  simp

theorem identifier_loop (c : Char) (cs : List Char)
    (hcs : ∀ x ∈ cs, isalnum x = true ∨ x = '_') :
    while_loop (fun l => isalnum (peek l) || peek l == '_') (fun l => (advance l).2)
      (loop_fuel ⟨c :: cs, 0, 1, 1⟩) ⟨c :: cs, 0, 1, 1⟩ = some (whole (c :: cs)) := by
  have := advance_run (fun x => isalnum x || x == '_') cs.length
    (loop_fuel ⟨c :: cs, 0, 1, 1⟩) ⟨c :: cs, 0, 1, 1⟩
    (by
      intro i hi
      simp only []
      rw [show 1 + i = i + 1 by omega, char_at_cons_succ]
      rcases hcs _ (char_at_mem cs i hi) with h | h
      · rw [h]; rfl
      · rw [h]; decide)
    (by
      simp only []
      rw [show 1 + cs.length = cs.length + 1 by omega, char_at_cons_succ,
        char_at_of_le cs cs.length (Nat.le_refl _)]
      decide)
    (by simp [loop_fuel])
  rw [this, whole]
  simp only [List.length_cons]
  rw [show 1 + cs.length = cs.length + 1 by omega]

theorem scan_identifier {α : Type} (A : Allocator α) (heap heap1 : α) (p : Nat)
    (c : Char) (cs : List Char) (hc : isalpha c = true ∨ c = '_')
    (hcs : ∀ x ∈ cs, isalnum x = true ∨ x = '_')
    (halloc : A.alloc heap ((c :: cs).length + 1) "TokenLexeme" = (some p, heap1))
    (hty : keyword_lookup (c :: cs) = TOKEN_IDENTIFIER) :
    scan_token A (init_lexer (c :: cs)) heap
      = some (⟨TOKEN_IDENTIFIER, 1, some ⟨p, c :: cs⟩⟩, whole (c :: cs), heap1) := by
  rw [scan_token_ident A (init_lexer (c :: cs)) heap (by simp [init_lexer])
    (by simpa only [peek, init_lexer, char_at_cons_zero] using hc)]
  unfold make_identifier_or_keyword
  simp only [init_lexer]
  rw [identifier_loop c cs hcs]
  dsimp only
  rw [identifier_type_whole, hty,
    make_token_lexeme A _ _ heap heap1 p (by decide) (by simpa [whole] using halloc)]
  simp [whole]

/-! ## One scanner step: totality and the line counter -/

theorem peek_lt_length (l : Lexer) (h : peek l ≠ '\x00') : l.current < l.src.length :=
  lt_length_of_char_at_ne l.src l.current h

/-- The comment loop of `skip_whitespace`, entered on a byte that is neither a
newline nor NUL: it returns, keeps the line counter right and moves on. -/
theorem comment_loop_spec (l : Lexer) (hle : l.current ≤ l.src.length) (hinv : line_inv l)
    (hc : (peek l != '\n' && !is_at_end l) = true) :
    ∃ l1, while_loop (fun x => peek x != '\n' && !is_at_end x) (fun x => (advance x).2)
        (loop_fuel l) l = some l1 ∧ l1.src = l.src ∧ l1.start = l.start ∧
      l.current < l1.current ∧ l1.current ≤ l1.src.length ∧ line_inv l1 := by
  have hcond : ∀ x : Lexer, (peek x != '\n' && !is_at_end x) = true →
      peek x ≠ '\n' ∧ x.current < x.src.length := by
    intro x hx
    simp only [Bool.and_eq_true, bne_iff_ne, ne_eq, Bool.not_eq_true', is_at_end,
      beq_eq_false_iff_ne] at hx
    exact ⟨hx.1, lt_length_of_char_at_ne x.src x.current hx.2⟩
  obtain ⟨l1, h1⟩ := while_loop_total (fun x => peek x != '\n' && !is_at_end x)
    (fun x => (advance x).2) (fun x hx => (hcond x hx).2) (fun _ => rfl) (fun _ => rfl)
    (loop_fuel l) l hle (by simp only [loop_fuel]; omega)
  have hI := while_loop_inv
    (fun x => x.src = l.src ∧ x.start = l.start ∧ l.current ≤ x.current ∧
      x.current ≤ x.src.length ∧ line_inv x)
    (fun x => peek x != '\n' && !is_at_end x) (fun x => (advance x).2)
    (by
      intro x hx hIx
      have := hcond x hx
      refine ⟨hIx.1, hIx.2.1, ?_, ?_, line_inv_advance x hIx.2.2.2.2 this.1⟩
      · simp only [advance]; omega
      · simp only [advance]; omega)
    (loop_fuel l) l l1 h1 ⟨rfl, rfl, Nat.le_refl _, hle, hinv⟩
  have hexit := while_loop_exit (fun x => peek x != '\n' && !is_at_end x)
    (fun x => (advance x).2) (loop_fuel l) l l1 h1
  refine ⟨l1, h1, hI.1, hI.2.1, ?_, hI.2.2.2.1, hI.2.2.2.2⟩
  rcases Nat.lt_or_ge l.current l1.current with hlt | hge
  · exact hlt
  · exfalso
    have heq : l1.current = l.current := Nat.le_antisymm hge hI.2.2.1
    have : (peek l1 != '\n' && !is_at_end l1) = (peek l != '\n' && !is_at_end l) := by
      simp only [peek, is_at_end, hI.1, heq]
    simp only [] at hexit
    rw [this, hc] at hexit
    exact absurd hexit (by decide)

/-- The loop of `skip_whitespace` returns; afterwards the next byte is not a
newline and the line counter is right. -/
theorem skip_whitespace_loop_spec :
    ∀ (fuel : Nat) (l : Lexer), l.current ≤ l.src.length →
      l.src.length + 1 ≤ fuel + l.current → line_inv l →
      ∃ l1, skip_whitespace_loop fuel l = some l1 ∧ l1.src = l.src ∧ l1.start = l.start ∧
        l.current ≤ l1.current ∧ l1.current ≤ l1.src.length ∧ line_inv l1 ∧
        peek l1 ≠ '\n' := by
  intro fuel
  induction fuel with
  | zero => intro l h1 h2; omega
  | succ n ih =>
    intro l hle hfuel hinv
    unfold skip_whitespace_loop
    dsimp only
    by_cases hws : peek l = ' ' ∨ peek l = '\r' ∨ peek l = '\t'
    · rw [if_pos hws]
      have hnz : peek l ≠ '\x00' := by
        rcases hws with h | h | h <;> rw [h] <;> decide
      have hnn : peek l ≠ '\n' := by
        rcases hws with h | h | h <;> rw [h] <;> decide
      have hlt := peek_lt_length l hnz
      obtain ⟨l1, e1, e2, e3, e4, e5, e6, e7⟩ := ih (advance l).2
        (by simp only [advance]; omega) (by simp only [advance]; omega)
        (line_inv_advance l hinv hnn)
      exact ⟨l1, e1, e2, e3, by simp only [advance] at e4; omega, e5, e6, e7⟩
    · rw [if_neg hws]
      by_cases hnl : peek l = '\n'
      · rw [if_pos hnl]
        have hlt := peek_lt_length l (by rw [hnl]; decide)
        obtain ⟨l1, e1, e2, e3, e4, e5, e6, e7⟩ := ih (advance { l with line := l.line + 1 }).2
          (by simp only [advance]; omega) (by simp only [advance]; omega)
          (line_inv_newline l hinv hnl)
        exact ⟨l1, e1, e2, e3, by simp only [advance] at e4; omega, e5, e6, e7⟩
      · rw [if_neg hnl]
        by_cases hsl : peek l = '/'
        · rw [if_pos hsl]
          by_cases hsl2 : peek_next l = '/'
          · rw [if_pos hsl2]
            have hc : (peek l != '\n' && !is_at_end l) = true := by
              have : char_at l.src l.current = '/' := hsl
              simp only [peek, is_at_end, this]; decide
            obtain ⟨l0, c1, c2, c3, c4, c5, c6⟩ := comment_loop_spec l hle hinv hc
            rw [c1]
            dsimp only
            obtain ⟨l1, e1, e2, e3, e4, e5, e6, e7⟩ := ih l0 c5 (by rw [c2]; omega) c6
            exact ⟨l1, e1, by rw [e2, c2], by rw [e3, c3], by omega, e5, e6, e7⟩
          · rw [if_neg hsl2]
            exact ⟨l, rfl, rfl, rfl, Nat.le_refl _, hle, hinv, hnl⟩
        · rw [if_neg hsl]
          exact ⟨l, rfl, rfl, rfl, Nat.le_refl _, hle, hinv, hnl⟩

theorem skip_whitespace_spec (l : Lexer) (hle : l.current ≤ l.src.length) (hinv : line_inv l) :
    ∃ l1, skip_whitespace l = some l1 ∧ l1.src = l.src ∧ l1.start = l.start ∧
      l.current ≤ l1.current ∧ l1.current ≤ l1.src.length ∧ line_inv l1 ∧ peek l1 ≠ '\n' :=
  skip_whitespace_loop_spec (loop_fuel l) l hle (by simp only [loop_fuel]; omega) hinv

theorem make_token_line {α : Type} (A : Allocator α) (l : Lexer) (ty : TokenType) (heap : α) :
    (make_token A l ty heap).1.line = l.line := by
  unfold make_token
  by_cases h : ty = TOKEN_IDENTIFIER ∨ ty = TOKEN_STRING ∨ ty = TOKEN_ERROR ∨
      ty = TOKEN_INTEGER ∨ ty = TOKEN_FLOAT
  · rw [if_pos h]
    rcases hr : A.alloc heap (l.current - l.start + 1) "TokenLexeme" with ⟨_ | p, h1⟩ <;>
      simp only [hr]
  · rw [if_neg h]

theorem make_error_token_line {α : Type} (A : Allocator α) (l : Lexer) (m : List Char)
    (heap : α) : (make_error_token A l m heap).1.line = l.line := by
  unfold make_error_token
  rcases hr : A.alloc heap (strlen m + 1) "TokenError" with ⟨_ | p, h1⟩ <;> simp only [hr]

theorem step_post_trans (l l0 l1 : Lexer) (t : Token) (hsrc : l0.src = l.src)
    (hcur : l.current ≤ l0.current) (h : step_post l0 l1 t) : step_post l l1 t :=
  ⟨h.1.trans hsrc, Nat.le_trans hcur h.2.1, h.2.2.1, h.2.2.2.1, h.2.2.2.2⟩

/-- A loop that steps over bytes of a class without newline and NUL returns
and keeps the line counter. -/
theorem advance_loop_spec (p : Char → Bool)
    (hp : ∀ c, p c = true → c ≠ '\n' ∧ c ≠ '\x00') (l : Lexer)
    (hle : l.current ≤ l.src.length) (hinv : line_inv l) :
    ∃ l1, while_loop (fun x => p (peek x)) (fun x => (advance x).2) (loop_fuel l) l = some l1 ∧
      l1.src = l.src ∧ l1.start = l.start ∧ l.current ≤ l1.current ∧
      l1.current ≤ l1.src.length ∧ line_inv l1 := by
  obtain ⟨l1, h1⟩ := while_loop_total (fun x => p (peek x)) (fun x => (advance x).2)
    (fun x hx => lt_length_of_char_at_ne x.src x.current (hp _ hx).2) (fun _ => rfl)
    (fun _ => rfl) (loop_fuel l) l hle (by simp only [loop_fuel]; omega)
  have hI := while_loop_inv
    (fun x => x.src = l.src ∧ x.start = l.start ∧ l.current ≤ x.current ∧
      x.current ≤ x.src.length ∧ line_inv x)
    (fun x => p (peek x)) (fun x => (advance x).2)
    (by
      intro x hx hIx
      have h2 := hp _ hx
      have h3 := lt_length_of_char_at_ne x.src x.current h2.2
      refine ⟨hIx.1, hIx.2.1, ?_, ?_, line_inv_advance x hIx.2.2.2.2 h2.1⟩
      · simp only [advance]; omega
      · simp only [advance]; omega)
    (loop_fuel l) l l1 h1 ⟨rfl, rfl, Nat.le_refl _, hle, hinv⟩
  exact ⟨l1, h1, hI⟩

theorem emit_spec {α : Type} (A : Allocator α) (l : Lexer) (ty : TokenType) (heap : α)
    (hle : l.current ≤ l.src.length) (hinv : line_inv l) :
    ∃ t l1 h1, emit A l ty heap = some (t, l1, h1) ∧ step_post l l1 t :=
  ⟨_, _, _, rfl, rfl, Nat.le_refl _, hle, hinv, make_token_line A l ty heap⟩

theorem match_emit_spec {α : Type} (A : Allocator α) (l : Lexer) (ty1 ty2 : TokenType)
    (heap : α) (hle : l.current ≤ l.src.length) (hinv : line_inv l) :
    ∃ t l1 h1, emit A (match_char l '=').2 (if (match_char l '=').1 = true then ty1 else ty2)
        heap = some (t, l1, h1) ∧ step_post l l1 t := by
  unfold match_char
  by_cases he : is_at_end l = true
  · rw [if_pos he]
    exact emit_spec A l _ heap hle hinv
  · rw [if_neg he]
    by_cases hc : char_at l.src l.current ≠ '='
    · rw [if_pos hc]
      exact emit_spec A l _ heap hle hinv
    · rw [if_neg hc]
      have hc1 : peek l = '=' := by simpa [peek] using hc
      have hlt : l.current < l.src.length := peek_lt_length l (by rw [hc1]; decide)
      have hinv1 : line_inv (advance l).2 := line_inv_advance l hinv (by rw [hc1]; decide)
      obtain ⟨t, l1, h1, e, hp⟩ := emit_spec A (advance l).2 (if true = true then ty1 else ty2)
        heap (by simp only [advance]; omega) hinv1
      exact ⟨t, l1, h1, e, step_post_trans l (advance l).2 l1 t rfl
        (by simp only [advance]; omega) hp⟩

theorem error_spec {α : Type} (A : Allocator α) (l : Lexer) (m : List Char) (heap : α)
    (hle : l.current ≤ l.src.length) (hinv : line_inv l) :
    ∃ t l1 h1, some ((make_error_token A l m heap).1, l, (make_error_token A l m heap).2)
        = some (t, l1, h1) ∧ step_post l l1 t :=
  ⟨_, _, _, rfl, rfl, Nat.le_refl _, hle, hinv, make_error_token_line A l m heap⟩

theorem make_identifier_or_keyword_spec {α : Type} (A : Allocator α) (l : Lexer) (heap : α)
    (hle : l.current ≤ l.src.length) (hinv : line_inv l) :
    ∃ t l1 h1, make_identifier_or_keyword A l heap = some (t, l1, h1) ∧ step_post l l1 t := by
  obtain ⟨l1, e1, e2, _, e4, e5, e6⟩ := advance_loop_spec (fun c => isalnum c || c == '_')
    (by
      intro c hc
      constructor <;> rintro rfl <;> exact absurd hc (by decide))
    l hle hinv
  unfold make_identifier_or_keyword
  have e1' : while_loop (fun x => isalnum (peek x) || peek x == '_') (fun x => (advance x).2)
      (loop_fuel l) l = some l1 := e1
  rw [e1']
  exact ⟨_, _, _, rfl, e2, e4, e5, e6, make_token_line A l1 _ heap⟩

theorem isdigit_ne (c : Char) (hc : isdigit c = true) : c ≠ '\n' ∧ c ≠ '\x00' := by
  constructor <;> rintro rfl <;> exact absurd hc (by decide)

theorem make_number_token_spec {α : Type} (A : Allocator α) (l : Lexer) (heap : α)
    (hle : l.current ≤ l.src.length) (hinv : line_inv l) :
    ∃ t l1 h1, make_number_token A l heap = some (t, l1, h1) ∧ step_post l l1 t := by
  obtain ⟨l1, e1, e2, _, e4, e5, e6⟩ := advance_loop_spec isdigit isdigit_ne l hle hinv
  unfold make_number_token
  have e1' : while_loop (fun x => isdigit (peek x)) (fun x => (advance x).2)
      (loop_fuel l) l = some l1 := e1
  rw [e1']
  dsimp only
  by_cases hf : peek l1 = '.' ∧ isdigit (peek_next l1) = true
  · rw [if_pos hf]
    have hlt : l1.current < l1.src.length := peek_lt_length l1 (by rw [hf.1]; decide)
    obtain ⟨l2, f1, f2, _, f4, f5, f6⟩ := advance_loop_spec isdigit isdigit_ne (advance l1).2
      (by simp only [advance]; omega) (line_inv_advance l1 e6 (by rw [hf.1]; decide))
    have f1' : while_loop (fun x => isdigit (peek x)) (fun x => (advance x).2)
        (loop_fuel (advance l1).2) (advance l1).2 = some l2 := f1
    rw [f1']
    refine ⟨_, _, _, rfl, ?_, ?_, f5, f6, make_token_line A l2 _ heap⟩
    · rw [f2]; exact e2
    · simp only [advance] at f4; omega
  · rw [if_neg hf]
    by_cases hg : peek l1 = '.' ∧ ¬ isdigit (peek_next l1) = true
    · rw [if_pos hg]
      exact ⟨_, _, _, rfl, e2, e4, e5, e6, make_error_token_line A l1 _ heap⟩
    · rw [if_neg hg]
      exact ⟨_, _, _, rfl, e2, e4, e5, e6, make_token_line A l1 _ heap⟩

theorem make_string_token_spec {α : Type} (A : Allocator α) (l : Lexer) (heap : α)
    (hle : l.current ≤ l.src.length) (hinv : line_inv l) :
    ∃ t l1 h1, make_string_token A l heap = some (t, l1, h1) ∧ step_post l l1 t := by
  have hcond : ∀ x : Lexer, (peek x != '"' && !is_at_end x) = true →
      x.current < x.src.length := by
    intro x hx
    simp only [Bool.and_eq_true, bne_iff_ne, ne_eq, Bool.not_eq_true', is_at_end,
      beq_eq_false_iff_ne] at hx
    exact lt_length_of_char_at_ne x.src x.current hx.2
  have hb1 : ∀ x : Lexer,
      (advance (if peek x = '\n' then { x with line := x.line + 1 } else x)).2.src = x.src := by
    intro x; by_cases hc : peek x = '\n' <;> simp [advance, hc]
  have hb2 : ∀ x : Lexer,
      (advance (if peek x = '\n' then { x with line := x.line + 1 } else x)).2.current
        = x.current + 1 := by
    intro x; by_cases hc : peek x = '\n' <;> simp [advance, hc]
  obtain ⟨l1, h1⟩ := while_loop_total (fun x => peek x != '"' && !is_at_end x)
    (fun x => (advance (if peek x = '\n' then { x with line := x.line + 1 } else x)).2)
    hcond hb1 hb2 (loop_fuel l) l hle (by simp only [loop_fuel]; omega)
  have hI := while_loop_inv
    (fun x => x.src = l.src ∧ l.current ≤ x.current ∧ x.current ≤ x.src.length ∧ line_inv x)
    (fun x => peek x != '"' && !is_at_end x)
    (fun x => (advance (if peek x = '\n' then { x with line := x.line + 1 } else x)).2)
    (by
      intro x hx hIx
      have h3 := hcond x hx
      refine ⟨by rw [hb1]; exact hIx.1, by rw [hb2]; omega, by rw [hb2, hb1]; omega,
        line_inv_string_body x hIx.2.2.2⟩)
    (loop_fuel l) l l1 h1 ⟨rfl, Nat.le_refl _, hle, hinv⟩
  have hexit := while_loop_exit (fun x => peek x != '"' && !is_at_end x)
    (fun x => (advance (if peek x = '\n' then { x with line := x.line + 1 } else x)).2)
    (loop_fuel l) l l1 h1
  unfold make_string_token
  rw [h1]
  dsimp only
  by_cases he : is_at_end l1 = true
  · rw [if_pos he]
    exact ⟨_, _, _, rfl, hI.1, hI.2.1, hI.2.2.1, hI.2.2.2, make_error_token_line A l1 _ heap⟩
  · rw [if_neg he]
    have hq : peek l1 = '"' := by
      simp only [Bool.not_eq_true] at he
      simp only [he, Bool.not_false, Bool.and_true, bne_eq_false_iff_eq] at hexit
      exact hexit
    have hlt : l1.current < l1.src.length := peek_lt_length l1 (by rw [hq]; decide)
    have hinv2 : line_inv (advance l1).2 := line_inv_advance l1 hI.2.2.2 (by rw [hq]; decide)
    refine ⟨_, _, _, rfl, hI.1, ?_, ?_, ?_, ?_⟩
    · simp only [advance]; omega
    · simp only [advance]; omega
    · exact hinv2
    · rw [make_token_line]; rfl

theorem ite_spec {β : Type} {c : Prop} [Decidable c] {a b : Option β} {P : β → Prop}
    (ha : c → ∃ r, a = some r ∧ P r) (hb : ¬ c → ∃ r, b = some r ∧ P r) :
    ∃ r, (if c then a else b) = some r ∧ P r := by
  by_cases h : c
  · rw [if_pos h]; exact ha h
  · rw [if_neg h]; exact hb h

theorem spec_pack {α : Type} {o : Option (Token × Lexer × α)} {l : Lexer}
    (h : ∃ t l1 h1, o = some (t, l1, h1) ∧ step_post l l1 t) :
    ∃ r, o = some r ∧ step_post l r.2.1 r.1 := by
  obtain ⟨t, l1, h1, e, hp⟩ := h
  exact ⟨(t, l1, h1), e, hp⟩

/-- Every `scan_token` call from a state inside the buffer with a right line
counter returns one token, and the new state is again such a state. -/
theorem scan_token_spec {α : Type} (A : Allocator α) (l : Lexer) (heap : α)
    (hle : l.current ≤ l.src.length) (hinv : line_inv l) :
    ∃ r, scan_token A l heap = some r ∧ step_post l r.2.1 r.1 := by
  obtain ⟨l0, e1, e2, _, e4, e5, e6, e7⟩ := skip_whitespace_spec l hle hinv
  unfold scan_token
  rw [e1]
  dsimp only
  have hle1 : ({ l0 with start := l0.current } : Lexer).current
      ≤ ({ l0 with start := l0.current } : Lexer).src.length := e5
  have hinv1 : line_inv { l0 with start := l0.current } := e6
  refine ite_spec (fun _ => ?_) (fun hne => ?_)
  · obtain ⟨r, hr, hp⟩ := spec_pack (emit_spec A { l0 with start := l0.current } TOKEN_EOF
      heap hle1 hinv1)
    exact ⟨r, hr, step_post_trans l _ _ _ e2 e4 hp⟩
  · have hnz : peek l0 ≠ '\x00' := by
      simpa [is_at_end, peek] using hne
    have hlt : l0.current < l0.src.length := peek_lt_length l0 hnz
    have hle2 : (advance { l0 with start := l0.current }).2.current
        ≤ (advance { l0 with start := l0.current }).2.src.length := by
      simp only [advance]; omega
    have hinv2 : line_inv (advance { l0 with start := l0.current }).2 :=
      line_inv_advance { l0 with start := l0.current } hinv1 e7
    have key : ∀ o : Option (Token × Lexer × α),
        (∃ t l1 h1, o = some (t, l1, h1) ∧
          step_post (advance { l0 with start := l0.current }).2 l1 t) →
        ∃ r, o = some r ∧ step_post l r.2.1 r.1 := by
      intro o ho
      obtain ⟨r, hr, hp⟩ := spec_pack ho
      exact ⟨r, hr, step_post_trans l (advance { l0 with start := l0.current }).2 _ _ e2
        (by simp only [advance]; omega) hp⟩
    repeat' refine ite_spec (fun _ => ?_) (fun _ => ?_)
    all_goals apply key
    all_goals first
      | exact make_identifier_or_keyword_spec A _ heap hle2 hinv2
      | exact make_number_token_spec A _ heap hle2 hinv2
      | exact make_string_token_spec A _ heap hle2 hinv2
      | exact emit_spec A _ _ heap hle2 hinv2
      | exact match_emit_spec A _ _ _ heap hle2 hinv2
      | exact error_spec A _ _ heap hle2 hinv2

theorem line_inv_init (src : List Char) : line_inv (init_lexer src) := by
  simp [line_inv, init_lexer]

/-- Every call of a run of `scan_token` calls from a good state returns, and
its token and the state after it carry the right line. -/
theorem nth_scan_spec {α : Type} (A : Allocator α) :
    ∀ (k : Nat) (l : Lexer) (heap : α), l.current ≤ l.src.length → line_inv l →
      ∃ r, nth_scan A k l heap = some r ∧ r.2.1.src = l.src ∧ line_inv r.2.1 ∧
        r.1.line = r.2.1.line := by
  intro k
  induction k with
  | zero =>
    intro l heap hle hinv
    obtain ⟨r, hr, hp⟩ := scan_token_spec A l heap hle hinv
    exact ⟨r, hr, hp.1, hp.2.2.2.1, hp.2.2.2.2⟩
  | succ n ih =>
    intro l heap hle hinv
    obtain ⟨r, hr, hp⟩ := scan_token_spec A l heap hle hinv
    obtain ⟨r2, hr2, q1, q2, q3⟩ := ih r.2.1 r.2.2 hp.2.2.1 hp.2.2.2.1
    refine ⟨r2, ?_, q1.trans hp.1, q2, q3⟩
    unfold nth_scan
    rw [hr]
    exact hr2

/-! ## Relocating a lexer -/

theorem while_loop_map (f : Lexer → Lexer) (cond : Lexer → Bool) (body : Lexer → Lexer)
    (hcond : ∀ x, cond (f x) = cond x) (hbody : ∀ x, body (f x) = f (body x)) :
    ∀ (fuel : Nat) (l : Lexer),
      while_loop cond body fuel (f l) = (while_loop cond body fuel l).map f := by
  intro fuel
  induction fuel with
  | zero => intro l; rfl
  | succ n ih =>
    intro l
    unfold while_loop
    rw [hcond]
    by_cases hc : cond l = true
    · rw [if_pos hc, if_pos hc, hbody, ih]
    · rw [if_neg hc, if_neg hc]; rfl

theorem skip_whitespace_loop_map (f : Lexer → Lexer)
    (hc : ∀ x i, char_at (f x).src ((f x).current + i) = char_at x.src (x.current + i))
    (ha : ∀ x, (advance (f x)).2 = f (advance x).2)
    (hl : ∀ x, ({ f x with line := (f x).line + 1 } : Lexer) = f { x with line := x.line + 1 })
    (hf : ∀ x, loop_fuel (f x) = loop_fuel x) :
    ∀ (fuel : Nat) (l : Lexer),
      skip_whitespace_loop fuel (f l) = (skip_whitespace_loop fuel l).map f := by
  have hpeek : ∀ x, peek (f x) = peek x := fun x => by simpa [peek] using hc x 0
  have hend : ∀ x, is_at_end (f x) = is_at_end x := fun x => by
    simp only [is_at_end]; rw [show char_at (f x).src (f x).current = char_at x.src x.current
      by simpa using hc x 0]
  have hnext : ∀ x, peek_next (f x) = peek_next x := fun x => by
    simp only [peek_next, hend, hc x 1]
  intro fuel
  induction fuel with
  | zero => intro l; rfl
  | succ n ih =>
    intro l
    unfold skip_whitespace_loop
    dsimp only
    rw [hpeek, hnext, ha, hl, ha, hf]
    by_cases h1 : peek l = ' ' ∨ peek l = '\r' ∨ peek l = '\t'
    · rw [if_pos h1, if_pos h1, ih]
    · rw [if_neg h1, if_neg h1]
      by_cases h2 : peek l = '\n'
      · rw [if_pos h2, if_pos h2, ih]
      · rw [if_neg h2, if_neg h2]
        by_cases h3 : peek l = '/'
        · rw [if_pos h3, if_pos h3]
          by_cases h4 : peek_next l = '/'
          · rw [if_pos h4, if_pos h4,
              while_loop_map f _ _ (fun x => by rw [hpeek, hend]) (fun x => ha x)]
            cases while_loop (fun x => peek x != '\n' && !is_at_end x)
                (fun x => (advance x).2) (loop_fuel l) l with
            | none => rfl
            | some l1 => exact ih l1
          · rw [if_neg h4, if_neg h4]; rfl
        · rw [if_neg h3, if_neg h3]; rfl

theorem skip_whitespace_loop_mono :
    ∀ (fuel : Nat) (l l1 : Lexer), skip_whitespace_loop fuel l = some l1 →
      ∀ k, skip_whitespace_loop (fuel + k) l = some l1 := by
  intro fuel
  induction fuel with
  | zero => intro l l1 h; simp [skip_whitespace_loop] at h
  | succ n ih =>
    intro l l1 h k
    rw [show n + 1 + k = (n + k) + 1 by omega]
    unfold skip_whitespace_loop at h ⊢
    dsimp only at h ⊢
    by_cases h1 : peek l = ' ' ∨ peek l = '\r' ∨ peek l = '\t'
    · rw [if_pos h1] at h ⊢; exact ih _ _ h k
    · rw [if_neg h1] at h ⊢
      by_cases h2 : peek l = '\n'
      · rw [if_pos h2] at h ⊢; exact ih _ _ h k
      · rw [if_neg h2] at h ⊢
        by_cases h3 : peek l = '/'
        · rw [if_pos h3] at h ⊢
          by_cases h4 : peek_next l = '/'
          · rw [if_pos h4] at h ⊢
            cases hw : while_loop (fun x => peek x != '\n' && !is_at_end x)
                (fun x => (advance x).2) (loop_fuel l) l with
            | none => rw [hw] at h; simp at h
            | some l2 =>
              rw [hw] at h
              exact ih _ _ h k
          · rw [if_neg h4] at h ⊢; exact h
        · rw [if_neg h3] at h ⊢; exact h

/-! ### The map `shift` -/

theorem shift_char_at (pre : List Char) (d : Nat) (x : Lexer) (i : Nat) :
    char_at (shift pre d x).src ((shift pre d x).current + i) = char_at x.src (x.current + i) := by
  simp only [shift]
  rw [Nat.add_assoc, char_at_append_right]

theorem shift_advance (pre : List Char) (d : Nat) (x : Lexer) :
    (advance (shift pre d x)).2 = shift pre d (advance x).2 := rfl

theorem shift_advance_fst (pre : List Char) (d : Nat) (x : Lexer) :
    (advance (shift pre d x)).1 = (advance x).1 := by
  simpa [advance] using shift_char_at pre d x 0

theorem shift_line (pre : List Char) (d : Nat) (x : Lexer) :
    ({ shift pre d x with line := (shift pre d x).line + 1 } : Lexer)
      = shift pre d { x with line := x.line + 1 } := by
  simp only [shift, Lexer.mk.injEq, true_and]
  omega

theorem shift_fuel (pre : List Char) (d : Nat) (x : Lexer) :
    loop_fuel (shift pre d x) = loop_fuel x := by
  simp only [loop_fuel, shift, List.length_append]
  omega

theorem shift_peek (pre : List Char) (d : Nat) (x : Lexer) : peek (shift pre d x) = peek x := by
  simpa [peek] using shift_char_at pre d x 0

theorem shift_is_at_end (pre : List Char) (d : Nat) (x : Lexer) :
    is_at_end (shift pre d x) = is_at_end x := by
  have := shift_peek pre d x
  simp only [peek] at this
  simp only [is_at_end, this]

theorem shift_peek_next (pre : List Char) (d : Nat) (x : Lexer) :
    peek_next (shift pre d x) = peek_next x := by
  simp only [peek_next, shift_is_at_end, shift_char_at pre d x 1]

theorem shift_skip_whitespace (pre : List Char) (d : Nat) (l : Lexer) :
    skip_whitespace (shift pre d l) = (skip_whitespace l).map (shift pre d) := by
  unfold skip_whitespace
  rw [shift_fuel]
  exact skip_whitespace_loop_map (shift pre d) (shift_char_at pre d) (shift_advance pre d)
    (shift_line pre d) (shift_fuel pre d) _ l

theorem shift_set_start (pre : List Char) (d : Nat) (x : Lexer) :
    ({ shift pre d x with start := (shift pre d x).current } : Lexer)
      = shift pre d { x with start := x.current } := rfl

theorem shift_make_token {α : Type} (A : Allocator α) (pre : List Char) (d : Nat) (l : Lexer)
    (ty : TokenType) (heap : α) :
    make_token A (shift pre d l) ty heap
      = (bump d (make_token A l ty heap).1, (make_token A l ty heap).2) := by
  unfold make_token
  have hlen : (shift pre d l).current - (shift pre d l).start = l.current - l.start := by
    simp only [shift]; omega
  have hdrop : List.drop (shift pre d l).start (shift pre d l).src
      = List.drop l.start l.src := by
    simp only [shift]; exact List.drop_append _
  by_cases h : ty = TOKEN_IDENTIFIER ∨ ty = TOKEN_STRING ∨ ty = TOKEN_ERROR ∨
      ty = TOKEN_INTEGER ∨ ty = TOKEN_FLOAT
  · rw [if_pos h, if_pos h]
    dsimp only
    rw [hlen, hdrop]
    rcases hr : A.alloc heap (l.current - l.start + 1) "TokenLexeme" with ⟨_ | p, h1⟩ <;>
      simp only [hr] <;> rfl
  · rw [if_neg h, if_neg h]; rfl

theorem shift_make_error_token {α : Type} (A : Allocator α) (pre : List Char) (d : Nat)
    (l : Lexer) (m : List Char) (heap : α) :
    make_error_token A (shift pre d l) m heap
      = (bump d (make_error_token A l m heap).1, (make_error_token A l m heap).2) := by
  unfold make_error_token
  dsimp only
  rcases hr : A.alloc heap (strlen m + 1) "TokenError" with ⟨_ | p, h1⟩ <;> rfl

theorem shift_emit {α : Type} (A : Allocator α) (pre : List Char) (d : Nat) (l : Lexer)
    (ty : TokenType) (heap : α) :
    emit A (shift pre d l) ty heap = (emit A l ty heap).map (shift_result pre d) := by
  unfold emit
  dsimp only
  rw [shift_make_token]
  rfl

theorem shift_match_char (pre : List Char) (d : Nat) (l : Lexer) (c : Char) :
    match_char (shift pre d l) c = ((match_char l c).1, shift pre d (match_char l c).2) := by
  unfold match_char
  have h0 : char_at (shift pre d l).src (shift pre d l).current = char_at l.src l.current := by
    simpa using shift_char_at pre d l 0
  rw [shift_is_at_end, h0]
  by_cases he : is_at_end l = true
  · rw [if_pos he, if_pos he]
  · rw [if_neg he, if_neg he]
    by_cases hc : char_at l.src l.current ≠ c
    · rw [if_pos hc, if_pos hc]
    · rw [if_neg hc, if_neg hc]; rfl

theorem shift_identifier_type (pre : List Char) (d : Nat) (l : Lexer) :
    identifier_type (shift pre d l) = identifier_type l := by
  have hat : ∀ i, start_at (shift pre d l) i = start_at l i := by
    intro i
    simp only [start_at, shift]
    rw [Nat.add_assoc, char_at_append_right]
  apply identifier_type_congr
  · simp only [shift]; omega
  · exact hat 0
  · intro _; exact hat 1
  · intro _; exact hat 2
  · intro k len rest ty
    unfold check_keyword
    have hlen : (shift pre d l).current - (shift pre d l).start = l.current - l.start := by
      simp only [shift]; omega
    have hdrop : List.drop ((shift pre d l).start + k) (shift pre d l).src
        = List.drop (l.start + k) l.src := by
      simp only [shift]; rw [Nat.add_assoc]; exact List.drop_append _
    dsimp only
    rw [hlen, hdrop]

theorem shift_make_identifier_or_keyword {α : Type} (A : Allocator α) (pre : List Char)
    (d : Nat) (l : Lexer) (heap : α) :
    make_identifier_or_keyword A (shift pre d l) heap
      = (make_identifier_or_keyword A l heap).map (shift_result pre d) := by
  unfold make_identifier_or_keyword
  rw [shift_fuel, while_loop_map (shift pre d) _ _ (fun x => by rw [shift_peek])
    (fun x => shift_advance pre d x)]
  cases while_loop (fun l => isalnum (peek l) || peek l == '_') (fun l => (advance l).2)
      (loop_fuel l) l with
  | none => rfl
  | some l1 =>
    simp only [Option.map_some']
    rw [shift_identifier_type, shift_make_token]
    rfl

theorem shift_make_number_token {α : Type} (A : Allocator α) (pre : List Char)
    (d : Nat) (l : Lexer) (heap : α) :
    make_number_token A (shift pre d l) heap
      = (make_number_token A l heap).map (shift_result pre d) := by
  unfold make_number_token
  rw [shift_fuel, while_loop_map (shift pre d) _ _ (fun x => by rw [shift_peek])
    (fun x => shift_advance pre d x)]
  cases while_loop (fun l => isdigit (peek l)) (fun l => (advance l).2) (loop_fuel l) l with
  | none => rfl
  | some l1 =>
    simp only [Option.map_some']
    rw [shift_peek, shift_peek_next, shift_advance, shift_fuel]
    by_cases hf : peek l1 = '.' ∧ isdigit (peek_next l1) = true
    · rw [if_pos hf, if_pos hf, while_loop_map (shift pre d) _ _
        (fun x => by rw [shift_peek]) (fun x => shift_advance pre d x)]
      cases while_loop (fun l => isdigit (peek l)) (fun l => (advance l).2)
          (loop_fuel (advance l1).2) (advance l1).2 with
      | none => rfl
      | some l2 =>
        simp only [Option.map_some']
        rw [shift_make_token]
        rfl
    · rw [if_neg hf, if_neg hf]
      by_cases hg : peek l1 = '.' ∧ ¬ isdigit (peek_next l1) = true
      · rw [if_pos hg, if_pos hg, shift_make_error_token]
        rfl
      · rw [if_neg hg, if_neg hg, shift_make_token]
        rfl

theorem shift_string_body (pre : List Char) (d : Nat) (x : Lexer) :
    (advance (if peek (shift pre d x) = '\n'
        then { shift pre d x with line := (shift pre d x).line + 1 } else shift pre d x)).2
      = shift pre d (advance (if peek x = '\n' then { x with line := x.line + 1 } else x)).2 := by
  rw [shift_peek, shift_line]
  by_cases h : peek x = '\n'
  · rw [if_pos h, if_pos h]; rfl
  · rw [if_neg h, if_neg h]; rfl

theorem shift_make_string_token {α : Type} (A : Allocator α) (pre : List Char)
    (d : Nat) (l : Lexer) (heap : α) :
    make_string_token A (shift pre d l) heap
      = (make_string_token A l heap).map (shift_result pre d) := by
  unfold make_string_token
  rw [shift_fuel, while_loop_map (shift pre d) _ _
    (fun x => by rw [shift_peek, shift_is_at_end]) (fun x => shift_string_body pre d x)]
  cases while_loop (fun l => peek l != '"' && !is_at_end l)
      (fun l => (advance (if peek l = '\n' then { l with line := l.line + 1 } else l)).2)
      (loop_fuel l) l with
  | none => rfl
  | some l1 =>
    simp only [Option.map_some']
    rw [shift_is_at_end]
    by_cases he : is_at_end l1 = true
    · rw [if_pos he, if_pos he, shift_make_error_token]
      rfl
    · rw [if_neg he, if_neg he]
      have h2 : ({ shift pre d l1 with start := (shift pre d l1).start + 1 } : Lexer)
          = shift pre d { l1 with start := l1.start + 1 } := rfl
      rw [h2, shift_make_token]
      simp only [Option.map_some', shift_result, Option.some.injEq, Prod.mk.injEq, true_and,
        and_true]
      simp only [advance, shift, Lexer.mk.injEq, true_and, and_true]
      omega

theorem ite_map_congr {β γ : Type} {c : Prop} [Decidable c] {a b : Option β}
    {a1 b1 : Option γ} (g : β → γ) (ha : c → a1 = a.map g) (hb : ¬ c → b1 = b.map g) :
    (if c then a1 else b1) = (if c then a else b).map g := by
  by_cases h : c
  · rw [if_pos h, if_pos h]; exact ha h
  · rw [if_neg h, if_neg h]; exact hb h

/-- Scanning through `shift` gives the shifted result of scanning. -/
theorem shift_scan_token {α : Type} (A : Allocator α) (pre : List Char) (d : Nat) (l : Lexer)
    (heap : α) :
    scan_token A (shift pre d l) heap = (scan_token A l heap).map (shift_result pre d) := by
  unfold scan_token
  rw [shift_skip_whitespace]
  cases skip_whitespace l with
  | none => rfl
  | some l0 =>
    simp only [Option.map_some']
    rw [shift_set_start, shift_is_at_end, shift_advance, shift_advance_fst]
    refine ite_map_congr _ (fun _ => shift_emit A pre d _ _ heap) (fun _ => ?_)
    repeat' refine ite_map_congr _ (fun _ => ?_) (fun _ => ?_)
    · exact shift_make_identifier_or_keyword A pre d _ heap
    · exact shift_make_number_token A pre d _ heap
    iterate 11 exact shift_emit A pre d _ _ heap
    iterate 4 (rw [shift_match_char]; exact shift_emit A pre d _ _ heap)
    · exact shift_make_string_token A pre d _ heap
    · rw [shift_make_error_token]; rfl

/-! ## Line comments -/

theorem scan_token_congr_skip {α : Type} (A : Allocator α) (heap : α) (l l1 l0 l2 : Lexer)
    (h1 : skip_whitespace l = some l0) (h2 : skip_whitespace l1 = some l2)
    (h : ({ l0 with start := l0.current } : Lexer) = { l2 with start := l2.current }) :
    scan_token A l heap = scan_token A l1 heap := by
  unfold scan_token
  rw [h1, h2]
  dsimp only
  rw [h]

/-- The comment loop on a source `//c` followed by a newline or the end. -/
theorem comment_run (c tail : List Char) (hnl : ∀ x ∈ c, x ≠ '\n') (hz : ∀ x ∈ c, x ≠ '\x00')
    (ht : char_at tail 0 = '\n' ∨ char_at tail 0 = '\x00') :
    while_loop (fun x => peek x != '\n' && !is_at_end x) (fun x => (advance x).2)
      (loop_fuel ⟨'/' :: '/' :: c ++ tail, 0, 0, 1⟩) ⟨'/' :: '/' :: c ++ tail, 0, 0, 1⟩
      = some ⟨'/' :: '/' :: c ++ tail, 0, c.length + 2, 1⟩ := by
  have hin : ∀ x ∈ '/' :: '/' :: c, x ≠ '\n' ∧ x ≠ '\x00' := by
    intro x hx
    simp only [List.mem_cons] at hx
    rcases hx with rfl | rfl | hx
    · exact ⟨by decide, by decide⟩
    · exact ⟨by decide, by decide⟩
    · exact ⟨hnl x hx, hz x hx⟩
  have hlen : ('/' :: '/' :: c).length = c.length + 2 := by simp
  have hsrc : '/' :: '/' :: c ++ tail = ('/' :: '/' :: c) ++ tail := by simp
  have := advance_run (fun x => x != '\n' && !(x == '\x00')) (c.length + 2)
    (loop_fuel ⟨'/' :: '/' :: c ++ tail, 0, 0, 1⟩) ⟨'/' :: '/' :: c ++ tail, 0, 0, 1⟩
    (by
      intro i hi
      dsimp only
      rw [Nat.zero_add, hsrc, char_at_append_left _ tail i (by omega)]
      have := hin _ (char_at_mem ('/' :: '/' :: c) i (by omega))
      simp [this.1, this.2])
    (by
      dsimp only
      rw [Nat.zero_add, hsrc, ← hlen, char_at_append_length]
      rcases ht with h | h <;> rw [h] <;> decide)
    (by simp [loop_fuel]; omega)
  simpa using this

/-- The first round of `skip_whitespace` on a source that begins with a line
comment steps over the comment text. -/
theorem skip_comment_round (c tail : List Char) (hnl : ∀ x ∈ c, x ≠ '\n')
    (hz : ∀ x ∈ c, x ≠ '\x00') (ht : char_at tail 0 = '\n' ∨ char_at tail 0 = '\x00')
    (fuel : Nat) :
    skip_whitespace_loop (fuel + 1) ⟨'/' :: '/' :: c ++ tail, 0, 0, 1⟩
      = skip_whitespace_loop fuel ⟨'/' :: '/' :: c ++ tail, 0, c.length + 2, 1⟩ := by
  have hp : peek ⟨'/' :: '/' :: c ++ tail, 0, 0, 1⟩ = '/' := by
    simp only [peek, List.cons_append, char_at_cons_zero]
  have hpn : peek_next ⟨'/' :: '/' :: c ++ tail, 0, 0, 1⟩ = '/' := by
    simp only [peek_next, is_at_end, List.cons_append, char_at_cons_zero, char_at_cons_succ]
    decide
  conv => lhs; unfold skip_whitespace_loop
  dsimp only
  rw [hp, hpn, if_neg (by decide), if_neg (by decide), if_pos rfl, if_pos rfl,
    comment_run c tail hnl hz ht]

/-- Skipping a whole comment line: the state reached is the one of skipping
the remainder `r`, seen through `shift`. -/
theorem skip_comment_line (c r : List Char) (hnl : ∀ x ∈ c, x ≠ '\n')
    (hz : ∀ x ∈ c, x ≠ '\x00') (l0 : Lexer) (h0 : skip_whitespace (init_lexer r) = some l0) :
    skip_whitespace (init_lexer ('/' :: '/' :: c ++ '\n' :: r))
      = some { shift ('/' :: '/' :: c ++ ['\n']) 1 l0 with start := 0 } := by
  have hS : '/' :: '/' :: c ++ '\n' :: r = ('/' :: '/' :: c ++ ['\n']) ++ r := by simp
  have hprelen : ('/' :: '/' :: c ++ ['\n']).length = c.length + 3 := by simp
  have hSlen : ('/' :: '/' :: c ++ '\n' :: r).length = c.length + 3 + r.length := by
    simp; omega
  unfold skip_whitespace at h0 ⊢
  simp only [loop_fuel, init_lexer, Nat.sub_zero] at h0 ⊢
  rw [hSlen, show c.length + 3 + r.length + 1 = (c.length + r.length + 3) + 1 by omega,
    skip_comment_round c ('\n' :: r) hnl hz (Or.inl (char_at_cons_zero _ _))]
  -- the newline round
  have hp : peek ⟨'/' :: '/' :: c ++ '\n' :: r, 0, c.length + 2, 1⟩ = '\n' := by
    have : ('/' :: '/' :: c).length = c.length + 2 := by simp
    simp only [peek]
    rw [show '/' :: '/' :: c ++ '\n' :: r = ('/' :: '/' :: c) ++ '\n' :: r by simp, ← this,
      char_at_append_length, char_at_cons_zero]
  rw [show c.length + r.length + 3 = (c.length + r.length + 2) + 1 by omega]
  conv => lhs; unfold skip_whitespace_loop
  dsimp only
  rw [hp, if_neg (by decide), if_pos rfl]
  -- the remainder, through the two relocations
  have hstate : (advance (⟨'/' :: '/' :: c ++ '\n' :: r, 0, c.length + 2, 1 + 1⟩ : Lexer)).2
      = (fun x : Lexer => { x with start := 0 })
          (shift ('/' :: '/' :: c ++ ['\n']) 1 (init_lexer r)) := by
    simp only [advance, shift, init_lexer, hprelen, Lexer.mk.injEq]
    exact ⟨hS, trivial, trivial, trivial⟩
  rw [hstate, skip_whitespace_loop_map (fun x : Lexer => { x with start := 0 })
      (fun _ _ => rfl) (fun _ => rfl) (fun _ => rfl) (fun _ => rfl),
    skip_whitespace_loop_map (shift ('/' :: '/' :: c ++ ['\n']) 1) (shift_char_at _ 1)
      (shift_advance _ 1) (shift_line _ 1) (shift_fuel _ 1)]
  have hmono := skip_whitespace_loop_mono (r.length + 1) ⟨r, 0, 0, 1⟩ l0 h0 (c.length + 1)
  rw [show c.length + r.length + 2 = r.length + 1 + (c.length + 1) by omega, init_lexer, hmono]
  rfl

/-- Scanning past a comment line is scanning the remainder, one line lower. -/
theorem scan_comment_line {α : Type} (A : Allocator α) (heap : α) (c r : List Char)
    (hnl : ∀ x ∈ c, x ≠ '\n') (hz : ∀ x ∈ c, x ≠ '\x00') :
    scan_token A (init_lexer ('/' :: '/' :: c ++ '\n' :: r)) heap
      = (scan_token A (init_lexer r) heap).map
          (shift_result ('/' :: '/' :: c ++ ['\n']) 1) := by
  obtain ⟨l0, h0, _⟩ := skip_whitespace_spec (init_lexer r) (by simp [init_lexer])
    (line_inv_init r)
  rw [← shift_scan_token]
  apply scan_token_congr_skip A heap _ _ _ _ (skip_comment_line c r hnl hz l0 h0)
    (by rw [shift_skip_whitespace, h0]; rfl)
  rfl

theorem scan_comment_at_end {α : Type} (A : Allocator α) (heap : α) (c : List Char)
    (hnl : ∀ x ∈ c, x ≠ '\n') (hz : ∀ x ∈ c, x ≠ '\x00') :
    scan_token A (init_lexer ('/' :: '/' :: c)) heap
      = some (⟨TOKEN_EOF, 1, none⟩, at_eof ('/' :: '/' :: c) 1, heap) := by
  have hskip : skip_whitespace (init_lexer ('/' :: '/' :: c))
      = some ⟨'/' :: '/' :: c, 0, ('/' :: '/' :: c).length, 1⟩ := by
    unfold skip_whitespace
    simp only [loop_fuel, init_lexer, Nat.sub_zero]
    have h1 := skip_comment_round c [] hnl hz (Or.inr (char_at_nil 0)) (c.length + 2)
    simp only [List.append_nil] at h1
    rw [show ('/' :: '/' :: c).length + 1 = c.length + 2 + 1 by simp, h1]
    have h2 : skip_whitespace ⟨'/' :: '/' :: c, 0, c.length + 2, 1⟩
        = some ⟨'/' :: '/' :: c, 0, c.length + 2, 1⟩ := by
      have hp : peek ⟨'/' :: '/' :: c, 0, c.length + 2, 1⟩ = '\x00' :=
        char_at_of_le _ _ (by simp)
      exact skip_whitespace_noop _ (by simp) (by rw [hp]; decide) (by rw [hp]; decide)
        (by rw [hp]; decide) (by rw [hp]; decide) (by rw [hp]; decide)
    unfold skip_whitespace at h2
    simp only [loop_fuel, List.length_cons] at h2
    have h3 := skip_whitespace_loop_mono _ _ _ h2 (c.length + 1)
    rw [show c.length + 1 + 1 + 1 - (c.length + 2) + (c.length + 1) = c.length + 2 by omega]
      at h3
    rw [h3]
    simp
  have heof := scan_token_eof_whole A heap ('/' :: '/' :: c) 0 1
  rw [← heof]
  exact scan_token_congr_skip A heap _ _ _ _ hskip
    (skip_whitespace_noop _ (Nat.le_refl _)
      (by rw [show peek ⟨'/' :: '/' :: c, 0, ('/' :: '/' :: c).length, 1⟩ = '\x00' from
        char_at_of_le _ _ (Nat.le_refl _)]; decide)
      (by rw [show peek ⟨'/' :: '/' :: c, 0, ('/' :: '/' :: c).length, 1⟩ = '\x00' from
        char_at_of_le _ _ (Nat.le_refl _)]; decide)
      (by rw [show peek ⟨'/' :: '/' :: c, 0, ('/' :: '/' :: c).length, 1⟩ = '\x00' from
        char_at_of_le _ _ (Nat.le_refl _)]; decide)
      (by rw [show peek ⟨'/' :: '/' :: c, 0, ('/' :: '/' :: c).length, 1⟩ = '\x00' from
        char_at_of_le _ _ (Nat.le_refl _)]; decide)
      (by rw [show peek ⟨'/' :: '/' :: c, 0, ('/' :: '/' :: c).length, 1⟩ = '\x00' from
        char_at_of_le _ _ (Nat.le_refl _)]; decide))
    rfl

/-! ## Case analysis of `scan_token` -/

theorem ite_elim {β : Type} {c : Prop} [Decidable c] {a b : β} (P : β → Prop)
    (ha : c → P a) (hb : ¬ c → P b) : P (if c then a else b) := by
  by_cases h : c
  · rw [if_pos h]; exact ha h
  · rw [if_neg h]; exact hb h

/-- Case analysis of `scan_token`: a property of its result follows from the
property for each of the statements that can produce the result. -/
theorem scan_token_cases {α : Type} (A : Allocator α) (l : Lexer) (heap : α)
    (P : Option (Token × Lexer × α) → Prop)
    (hnone : skip_whitespace l = none → P none)
    (heof : ∀ l0, skip_whitespace l = some l0 → is_at_end l0 = true →
      P (emit A { l0 with start := l0.current } TOKEN_EOF heap))
    (hrest : ∀ l0, skip_whitespace l = some l0 → is_at_end l0 = false →
      P (make_identifier_or_keyword A (advance { l0 with start := l0.current }).2 heap) ∧
      P (make_number_token A (advance { l0 with start := l0.current }).2 heap) ∧
      P (make_string_token A (advance { l0 with start := l0.current }).2 heap) ∧
      (∀ ty, P (emit A (advance { l0 with start := l0.current }).2 ty heap)) ∧
      (∀ ty1 ty2, P (emit A (match_char (advance { l0 with start := l0.current }).2 '=').2
        (if (match_char (advance { l0 with start := l0.current }).2 '=').1 = true then ty1
          else ty2) heap)) ∧
      (∀ m, P (some ((make_error_token A (advance { l0 with start := l0.current }).2 m heap).1,
        (advance { l0 with start := l0.current }).2,
        (make_error_token A (advance { l0 with start := l0.current }).2 m heap).2)))) :
    P (scan_token A l heap) := by
  unfold scan_token
  cases hs : skip_whitespace l with
  | none => exact hnone hs
  | some l0 =>
    dsimp only
    refine ite_elim P (fun he => heof l0 hs he) (fun he => ?_)
    have he1 : is_at_end l0 = false := by
      have : ¬ is_at_end l0 = true := he
      simpa using this
    obtain ⟨h1, h2, h3, h4, h5, h6⟩ := hrest l0 hs he1
    refine ite_elim P (fun _ => h1) (fun _ => ?_)
    refine ite_elim P (fun _ => h2) (fun _ => ?_)
    iterate 11 refine ite_elim P (fun _ => h4 _) (fun _ => ?_)
    iterate 4 refine ite_elim P (fun _ => h5 _ _) (fun _ => ?_)
    refine ite_elim P (fun _ => h3) (fun _ => ?_)
    exact h6 _

theorem make_token_type {α : Type} (A : Allocator α) (l : Lexer) (ty : TokenType) (heap : α) :
    (make_token A l ty heap).1.type = ty := by
  unfold make_token
  by_cases h : ty = TOKEN_IDENTIFIER ∨ ty = TOKEN_STRING ∨ ty = TOKEN_ERROR ∨
      ty = TOKEN_INTEGER ∨ ty = TOKEN_FLOAT
  · rw [if_pos h]
    rcases hr : A.alloc heap (l.current - l.start + 1) "TokenLexeme" with ⟨_ | p, h1⟩ <;>
      simp only [hr]
  · rw [if_neg h]

theorem make_error_token_type {α : Type} (A : Allocator α) (l : Lexer) (m : List Char)
    (heap : α) : (make_error_token A l m heap).1.type = TOKEN_ERROR := by
  unfold make_error_token
  rcases hr : A.alloc heap (strlen m + 1) "TokenError" with ⟨_ | p, h1⟩ <;> simp only [hr]

/-- The lexeme rule for one token made from the allocator state `heap`: a
lexeme is present only for the kinds that carry text, and for those it is
present when the allocator answers every request in `heap`. -/
theorem make_token_rule {α : Type} (A : Allocator α) (l : Lexer) (ty : TokenType) (heap : α) :
    ((make_token A l ty heap).1.lexeme ≠ none → carries_lexeme ty) ∧
    ((∀ n tag, (A.alloc heap n tag).1 ≠ none) → carries_lexeme ty →
      (make_token A l ty heap).1.lexeme ≠ none) := by
  unfold make_token carries_lexeme
  by_cases h : ty = TOKEN_IDENTIFIER ∨ ty = TOKEN_STRING ∨ ty = TOKEN_ERROR ∨
      ty = TOKEN_INTEGER ∨ ty = TOKEN_FLOAT
  · rw [if_pos h]
    have hc : ty = TOKEN_IDENTIFIER ∨ ty = TOKEN_STRING ∨ ty = TOKEN_INTEGER ∨
        ty = TOKEN_FLOAT ∨ ty = TOKEN_ERROR := by
      rcases h with h | h | h | h | h <;> simp [h]
    refine ⟨fun _ => hc, fun hall _ => ?_⟩
    have := hall (l.current - l.start + 1) "TokenLexeme"
    rcases hr : A.alloc heap (l.current - l.start + 1) "TokenLexeme" with ⟨_ | p, h1⟩
    · rw [hr] at this; exact absurd rfl this
    · simp only [hr]; simp
  · rw [if_neg h]
    refine ⟨fun hne => absurd rfl hne, fun _ hc => ?_⟩
    exfalso
    apply h
    rcases hc with h | h | h | h | h <;> simp [h]

theorem make_error_token_rule {α : Type} (A : Allocator α) (l : Lexer) (m : List Char)
    (heap : α) :
    (∀ n tag, (A.alloc heap n tag).1 ≠ none) →
      (make_error_token A l m heap).1.lexeme ≠ none := by
  intro hall
  unfold make_error_token
  have := hall (strlen m + 1) "TokenError"
  rcases hr : A.alloc heap (strlen m + 1) "TokenError" with ⟨_ | p, h1⟩
  · rw [hr] at this; exact absurd rfl this
  · simp only [hr]; simp

/-- The lexeme rule as a property of a scanner result. -/
theorem rule_of_make_token {α : Type} (A : Allocator α) (l l1 : Lexer) (ty : TokenType)
    (heap : α) (r : Token × Lexer × α)
    (h : some ((make_token A l ty heap).1, l1, (make_token A l ty heap).2) = some r) :
    (r.1.lexeme ≠ none → carries_lexeme r.1.type) ∧
    ((∀ n tag, (A.alloc heap n tag).1 ≠ none) → carries_lexeme r.1.type →
      r.1.lexeme ≠ none) := by
  cases h
  dsimp only
  rw [make_token_type]
  exact make_token_rule A l ty heap

theorem rule_of_make_error_token {α : Type} (A : Allocator α) (l l1 : Lexer) (m : List Char)
    (heap : α) (r : Token × Lexer × α)
    (h : some ((make_error_token A l m heap).1, l1, (make_error_token A l m heap).2)
      = some r) :
    (r.1.lexeme ≠ none → carries_lexeme r.1.type) ∧
    ((∀ n tag, (A.alloc heap n tag).1 ≠ none) → carries_lexeme r.1.type →
      r.1.lexeme ≠ none) := by
  cases h
  dsimp only
  rw [make_error_token_type]
  exact ⟨fun _ => Or.inr (Or.inr (Or.inr (Or.inr rfl))),
    fun hall _ => make_error_token_rule A l m heap hall⟩

theorem scan_token_rule {α : Type} (A : Allocator α) (l : Lexer) (heap : α)
    (r : Token × Lexer × α) (h : scan_token A l heap = some r) :
    (r.1.lexeme ≠ none → carries_lexeme r.1.type) ∧
    ((∀ n tag, (A.alloc heap n tag).1 ≠ none) → carries_lexeme r.1.type →
      r.1.lexeme ≠ none) := by
  revert r
  apply scan_token_cases A l heap (fun o => ∀ r, o = some r →
    (r.1.lexeme ≠ none → carries_lexeme r.1.type) ∧
    ((∀ n tag, (A.alloc heap n tag).1 ≠ none) → carries_lexeme r.1.type →
      r.1.lexeme ≠ none))
  · intro _ r hr; cases hr
  · intro l0 _ _ r hr
    exact rule_of_make_token A _ _ _ heap r hr
  · intro l0 _ _
    refine ⟨?_, ?_, ?_, ?_, ?_, ?_⟩
    · intro r hr
      unfold make_identifier_or_keyword at hr
      cases hw : while_loop (fun l => isalnum (peek l) || peek l == '_')
          (fun l => (advance l).2) (loop_fuel (advance { l0 with start := l0.current }).2)
          (advance { l0 with start := l0.current }).2 with
      | none => rw [hw] at hr; cases hr
      | some l1 =>
        rw [hw] at hr
        exact rule_of_make_token A _ _ _ heap r hr
    · intro r hr
      unfold make_number_token at hr
      cases hw : while_loop (fun l => isdigit (peek l)) (fun l => (advance l).2)
          (loop_fuel (advance { l0 with start := l0.current }).2)
          (advance { l0 with start := l0.current }).2 with
      | none => rw [hw] at hr; cases hr
      | some l1 =>
        rw [hw] at hr
        dsimp only at hr
        by_cases hf : peek l1 = '.' ∧ isdigit (peek_next l1) = true
        · rw [if_pos hf] at hr
          cases hw2 : while_loop (fun l => isdigit (peek l)) (fun l => (advance l).2)
              (loop_fuel (advance l1).2) (advance l1).2 with
          | none => rw [hw2] at hr; cases hr
          | some l2 =>
            rw [hw2] at hr
            exact rule_of_make_token A _ _ _ heap r hr
        · rw [if_neg hf] at hr
          by_cases hg : peek l1 = '.' ∧ ¬ isdigit (peek_next l1) = true
          · rw [if_pos hg] at hr
            exact rule_of_make_error_token A _ _ _ heap r hr
          · rw [if_neg hg] at hr
            exact rule_of_make_token A _ _ _ heap r hr
    · intro r hr
      unfold make_string_token at hr
      cases hw : while_loop (fun l => peek l != '"' && !is_at_end l)
          (fun l => (advance (if peek l = '\n' then { l with line := l.line + 1 } else l)).2)
          (loop_fuel (advance { l0 with start := l0.current }).2)
          (advance { l0 with start := l0.current }).2 with
      | none => rw [hw] at hr; cases hr
      | some l1 =>
        rw [hw] at hr
        dsimp only at hr
        by_cases he : is_at_end l1 = true
        · rw [if_pos he] at hr
          exact rule_of_make_error_token A _ _ _ heap r hr
        · rw [if_neg he] at hr
          exact rule_of_make_token A _ _ _ heap r hr
    · intro ty r hr
      exact rule_of_make_token A _ _ _ heap r hr
    · intro ty1 ty2 r hr
      exact rule_of_make_token A _ _ _ heap r hr
    · intro m r hr
      exact rule_of_make_error_token A _ _ _ heap r hr

theorem reachable_good {α : Type} (A : Allocator α) (src : List Char) (l : Lexer)
    (h : Reachable A src l) : l.src = src ∧ l.current ≤ l.src.length ∧ line_inv l := by
  induction h with
  | init => exact ⟨rfl, by simp [init_lexer], line_inv_init src⟩
  | step l0 heap r _ hs ih =>
    obtain ⟨r1, hr1, hp⟩ := scan_token_spec A l0 heap ih.2.1 ih.2.2
    rw [hs] at hr1
    cases hr1
    exact ⟨hp.1.trans ih.1, hp.2.2.1, hp.2.2.2.1⟩

/-- One `scan_token` call from a good state: it returns, and either the
token is end-of-file with the cursor on the sentinel, or the cursor has moved
forward. -/
theorem scan_token_progress {α : Type} (A : Allocator α) (l : Lexer) (heap : α)
    (hle : l.current ≤ l.src.length) (hinv : line_inv l) :
    ∃ r, scan_token A l heap = some r ∧ step_post l r.2.1 r.1 ∧
      ((r.1.type = TOKEN_EOF ∧ is_at_end r.2.1 = true) ∨ l.current < r.2.1.current) := by
  obtain ⟨l0, e1, e2, _, e4, e5, e6, e7⟩ := skip_whitespace_spec l hle hinv
  apply scan_token_cases A l heap (fun o => ∃ r, o = some r ∧ step_post l r.2.1 r.1 ∧
      ((r.1.type = TOKEN_EOF ∧ is_at_end r.2.1 = true) ∨ l.current < r.2.1.current))
  · intro hn; rw [hn] at e1; cases e1
  · intro l1 hs he
    rw [hs] at e1
    cases e1
    refine ⟨_, rfl, ⟨e2, e4, e5, e6, make_token_line A _ _ heap⟩, Or.inl ⟨?_, he⟩⟩
    exact make_token_type A _ _ heap
  · intro l1 hs he
    rw [hs] at e1
    cases e1
    have hnz : peek l0 ≠ '\x00' := by
      have : ¬ is_at_end l0 = true := by rw [he]; decide
      simpa [is_at_end, peek] using this
    have hlt : l0.current < l0.src.length := peek_lt_length l0 hnz
    have hle2 : (advance { l0 with start := l0.current }).2.current
        ≤ (advance { l0 with start := l0.current }).2.src.length := by
      simp only [advance]; omega
    have hinv2 : line_inv (advance { l0 with start := l0.current }).2 :=
      line_inv_advance { l0 with start := l0.current } e6 e7
    have key : ∀ o : Option (Token × Lexer × α),
        (∃ t l1 h1, o = some (t, l1, h1) ∧
          step_post (advance { l0 with start := l0.current }).2 l1 t) →
        ∃ r, o = some r ∧ step_post l r.2.1 r.1 ∧
          ((r.1.type = TOKEN_EOF ∧ is_at_end r.2.1 = true) ∨ l.current < r.2.1.current) := by
      intro o ho
      obtain ⟨r, hr, hp⟩ := spec_pack ho
      have h2 : l0.current + 1 ≤ r.2.1.current := hp.2.1
      exact ⟨r, hr, step_post_trans l (advance { l0 with start := l0.current }).2 _ _ e2
        (by simp only [advance]; omega) hp, Or.inr (by omega)⟩
    exact ⟨key _ (make_identifier_or_keyword_spec A _ heap hle2 hinv2),
      key _ (make_number_token_spec A _ heap hle2 hinv2),
      key _ (make_string_token_spec A _ heap hle2 hinv2),
      fun ty => key _ (emit_spec A _ ty heap hle2 hinv2),
      fun ty1 ty2 => key _ (match_emit_spec A _ ty1 ty2 heap hle2 hinv2),
      fun m => key _ (error_spec A _ m heap hle2 hinv2)⟩

/-- End-of-file is where a run of calls stays once the cursor is on the
sentinel. -/
theorem nth_scan_at_end {α : Type} (A : Allocator α) :
    ∀ (k : Nat) (l : Lexer) (heap : α), l.current ≤ l.src.length → is_at_end l = true →
      ∃ r, nth_scan A k l heap = some r ∧ r.1.type = TOKEN_EOF := by
  intro k
  induction k with
  | zero =>
    intro l heap hle he
    have hp : peek l = '\x00' := by simpa [is_at_end, peek] using he
    exact ⟨_, scan_token_eof A l heap hle hp, rfl⟩
  | succ n ih =>
    intro l heap hle he
    have hp : peek l = '\x00' := by simpa [is_at_end, peek] using he
    unfold nth_scan
    rw [scan_token_eof A l heap hle hp]
    exact ih _ heap hle he

theorem nth_scan_eof {α : Type} (A : Allocator α) :
    ∀ (k : Nat) (l : Lexer) (heap : α), l.current ≤ l.src.length → line_inv l →
      l.src.length - l.current ≤ k →
      ∃ r, nth_scan A k l heap = some r ∧ r.1.type = TOKEN_EOF := by
  intro k
  induction k with
  | zero =>
    intro l heap hle _ hk
    have hp : peek l = '\x00' := char_at_of_le l.src l.current (by omega)
    exact ⟨_, scan_token_eof A l heap hle hp, rfl⟩
  | succ n ih =>
    intro l heap hle hinv hk
    obtain ⟨r, hr, hp, hcase⟩ := scan_token_progress A l heap hle hinv
    unfold nth_scan
    rw [hr]
    dsimp only
    rcases hcase with ⟨_, he⟩ | hlt
    · exact nth_scan_at_end A n r.2.1 r.2.2 hp.2.2.1 he
    · apply ih r.2.1 r.2.2 hp.2.2.1 hp.2.2.2.1
      rw [hp.1]
      omega

theorem strlen_append (a b : List Char) (ha : ∀ x ∈ a, x ≠ '\x00') :
    strlen (a ++ b) = a.length + strlen b := by
  induction a with
  | nil => simp
  | cons x xs ih =>
    have hx : x ≠ '\x00' := ha x (List.mem_cons_self _ _)
    rw [List.cons_append, strlen, if_neg hx, ih (fun y hy => ha y (List.mem_cons_of_mem _ hy))]
    simp only [List.length_cons]
    omega

theorem unexpected_message_eq (c : Char) :
    unexpected_message c = "Unexpected character '".toList ++ c :: "'.".toList := rfl

theorem strlen_unexpected_message (c : Char) (hc : c ≠ '\x00') :
    strlen (unexpected_message c) = 25 := by
  rw [unexpected_message_eq, strlen_append _ _ (by decide), strlen, if_neg hc]
  rfl

theorem scan_unexpected {α : Type} (A : Allocator α) (l l0 : Lexer) (heap heap1 : α)
    (p : Nat) (c : Char) (hskip : skip_whitespace l = some l0) (hc : peek l0 = c)
    (hnz : c ≠ '\x00') (halpha : isalpha c = false) (hdigit : isdigit c = false)
    (hother : c ∉ ['_', '"', '(', ')', '{', '}', '[', ']', ';', ',', '.', ':', '^', '!',
      '=', '>', '<'])
    (halloc : A.alloc heap 26 "TokenError" = (some p, heap1)) :
    scan_token A l heap
      = some (⟨TOKEN_ERROR, l0.line,
            some ⟨p, "Unexpected character '".toList ++ c :: "'.".toList⟩⟩,
          ⟨l0.src, l0.current, l0.current + 1, l0.line⟩, heap1) := by
  simp only [List.mem_cons, List.mem_singleton, List.not_mem_nil, or_false, not_or] at hother
  obtain ⟨o1, o2, o3, o4, o5, o6, o7, o8, o9, o10, o11, o12, o13, o14, o15, o16, o17⟩ := hother
  have hend : ¬ is_at_end { l0 with start := l0.current } = true := by
    have : char_at l0.src l0.current = c := hc
    simp only [is_at_end, this]
    simpa using hnz
  have hadv : (advance { l0 with start := l0.current }).1 = c := hc
  unfold scan_token
  rw [hskip]
  dsimp only
  have hid : ¬ (isalpha c = true ∨ c = '_') := by
    rw [halpha]
    rintro (h | h)
    · exact absurd h (by decide)
    · exact o1 h
  have hdg : ¬ isdigit c = true := by rw [hdigit]; decide
  rw [if_neg hend, hadv, if_neg hid, if_neg hdg,
    if_neg o3, if_neg o4, if_neg o5, if_neg o6, if_neg o7, if_neg o8, if_neg o9, if_neg o10,
    if_neg o11, if_neg o12, if_neg o13, if_neg o14, if_neg o15, if_neg o16, if_neg o17,
    if_neg o2,
    make_error_token_ok A _ _ heap heap1 p 25 (strlen_unexpected_message c hnz) rfl halloc]
  rfl

/-! ## The tracing allocator -/

theorem tracing_alloc_ok (w : Nat) (tc : TracingContext) (heap heap1 heap2 : Heap)
    (size p q : Nat) (tag : String) (h1 : malloc heap size = (some p, heap1))
    (h2 : malloc heap1 (sizeof_AllocLog w) = (some q, heap2)) :
    tracing_alloc w tc heap size tag
      = (some p,
          ⟨⟨p, size, tag⟩ :: tc.head,
            tc.sink ++ [⟨"Allocated %zu bytes for %s at %p",
              [LogArg.zu size, LogArg.s tag, LogArg.p (some p)]⟩],
            (tc.allocated + size) % 2 ^ w, tc.freed⟩, heap2) := by
  unfold tracing_alloc
  simp only [h1, h2, sink_println]

theorem tracing_alloc_no_node (w : Nat) (tc : TracingContext) (heap heap1 heap2 : Heap)
    (size p : Nat) (tag : String) (h1 : malloc heap size = (some p, heap1))
    (h2 : malloc heap1 (sizeof_AllocLog w) = (none, heap2)) :
    tracing_alloc w tc heap size tag
      = (some p,
          ⟨tc.head,
            tc.sink ++ [⟨"Allocated %zu bytes for %s at %p",
              [LogArg.zu size, LogArg.s tag, LogArg.p (some p)]⟩],
            (tc.allocated + size) % 2 ^ w, tc.freed⟩, heap2) := by
  unfold tracing_alloc
  simp only [h1, h2, sink_println]

theorem unlink_first_eq (p : Nat) (l : List AllocLog) :
    unlink_first (some p) l
      = l.takeWhile (fun e => e.ptr != p) ++ (l.dropWhile (fun e => e.ptr != p)).tail := by
  induction l with
  | nil => rfl
  | cons e rest ih =>
    unfold unlink_first
    by_cases h : e.ptr = p
    · simp [h]
    · have h1 : ¬ (some e.ptr = some p) := by simpa using h
      rw [if_neg h1, ih]
      simp [h]

theorem dropWhile_head_of_mem (p : Nat) (l : List AllocLog) (h : ∃ e ∈ l, e.ptr = p) :
    ((l.dropWhile (fun e => e.ptr != p)).head?).map (fun e => e.ptr) = some p := by
  induction l with
  | nil => simp at h
  | cons e rest ih =>
    by_cases he : e.ptr = p
    · simp [he]
    · have : ∃ x ∈ rest, x.ptr = p := by
        obtain ⟨x, hx, hp⟩ := h
        simp only [List.mem_cons] at hx
        rcases hx with rfl | hx
        · exact absurd hp he
        · exact ⟨x, hx, hp⟩
      simp [he, ih this]

theorem alloc_then_free_fresh (w N p : Nat) (tag : String) (heap heap1 : Heap)
    (hN : N < 2 ^ w) (h1 : malloc heap N = (some p, heap1)) :
    (tracing_free w (tracing_alloc w fresh_context heap N tag).2.1
        (tracing_alloc w fresh_context heap N tag).2.2 (some p) N tag).1
      = ⟨[], [⟨"Allocated %zu bytes for %s at %p",
              [LogArg.zu N, LogArg.s tag, LogArg.p (some p)]⟩,
            ⟨"Freed %zu bytes for %s at %p",
              [LogArg.zu N, LogArg.s tag, LogArg.p (some p)]⟩], N, N⟩ := by
  have hmod : N % 2 ^ w = N := Nat.mod_eq_of_lt hN
  rcases h2 : malloc heap1 (sizeof_AllocLog w) with ⟨_ | q, heap2⟩
  · rw [tracing_alloc_no_node w _ heap heap1 heap2 N p tag h1 h2]
    simp [tracing_free, fresh_context, sink_println, unlink_first, hmod]
  · rw [tracing_alloc_ok w _ heap heap1 heap2 N p q tag h1 h2]
    simp [tracing_free, fresh_context, sink_println, unlink_first, hmod]

theorem dump_balanced_empty (w N : Nat) (s : List LogLine) :
    dump_memory_leaks w ⟨[], s, N, N⟩
      = ⟨[], s ++ [⟨"--- MEMORY LEAK REPORT ---", []⟩,
          ⟨"No memory leaks detected! All memory is accounted for :)", []⟩,
          ⟨"Total allocated: %zu bytes", [LogArg.zu N]⟩,
          ⟨"Total freed:     %zu bytes", [LogArg.zu N]⟩,
          ⟨"Memory leaked:   %zu bytes", [LogArg.zu 0]⟩,
          ⟨"--------------------------", []⟩], N, N⟩ := by
  simp [dump_memory_leaks, sink_println]

theorem dump_leak_lines_eq (tc : TracingContext) (l : List AllocLog) :
    dump_leak_lines tc l = ⟨tc.head, tc.sink ++ l.map leak_line, tc.allocated, tc.freed⟩ := by
  induction l generalizing tc with
  | nil => simp [dump_leak_lines]
  | cons e rest ih =>
    rw [dump_leak_lines, ih]
    simp [sink_println, leak_line]

theorem dump_memory_leaks_eq (w : Nat) (tc : TracingContext) :
    dump_memory_leaks w tc
      = ⟨tc.head,
          tc.sink ++ [⟨"--- MEMORY LEAK REPORT ---", []⟩]
            ++ (if tc.head = [] then
                  [⟨"No memory leaks detected! All memory is accounted for :)", []⟩]
                else tc.head.map leak_line)
            ++ [⟨"Total allocated: %zu bytes", [LogArg.zu tc.allocated]⟩,
                ⟨"Total freed:     %zu bytes", [LogArg.zu tc.freed]⟩,
                ⟨"Memory leaked:   %zu bytes",
                  [LogArg.zu (((tc.allocated : Int) - (tc.freed : Int)) % (2 : Int) ^ w).toNat]⟩,
                ⟨"--------------------------", []⟩],
          tc.allocated, tc.freed⟩ := by
  unfold dump_memory_leaks
  by_cases h : tc.head = []
  · simp [h, sink_println]
  · simp [h, sink_println, dump_leak_lines_eq]

theorem tracing_alloc_counters (w : Nat) (tc : TracingContext) (heap : Heap) (size : Nat)
    (tag : String) (h : (tracing_alloc w tc heap size tag).1.isSome = true) :
    (tracing_alloc w tc heap size tag).2.1.allocated = (tc.allocated + size) % 2 ^ w ∧
      (tracing_alloc w tc heap size tag).2.1.freed = tc.freed := by
  unfold tracing_alloc at h ⊢
  rcases h1 : malloc heap size with ⟨_ | p, heap1⟩
  · rw [h1] at h; simp at h
  · rcases h2 : (malloc heap1 (sizeof_AllocLog w)).1 with _ | q <;> simp [h2, sink_println]

theorem tracing_alloc_failed (w : Nat) (tc : TracingContext) (heap heap1 : Heap) (size : Nat)
    (tag : String) (h : malloc heap size = (none, heap1)) :
    tracing_alloc w tc heap size tag
      = (none, ⟨tc.head, tc.sink ++ [⟨"Failed to allocate %zu bytes for %s",
          [LogArg.zu size, LogArg.s tag]⟩], tc.allocated, tc.freed⟩, heap1) := by
  unfold tracing_alloc
  simp only [h, sink_println]

theorem run_ops_counters (w : Nat) (ops : List TraceOp) (s : TracingContext × Heap)
    (h : allocs_succeed w ops s = true) :
    (run_ops w ops s).1.allocated % 2 ^ w = (s.1.allocated + alloc_sum ops) % 2 ^ w ∧
      (run_ops w ops s).1.freed % 2 ^ w = (s.1.freed + free_sum ops) % 2 ^ w := by
  induction ops generalizing s with
  | nil => simp [run_ops, alloc_sum, free_sum]
  | cons op rest ih =>
    cases op with
    | alloc size tag =>
      simp only [allocs_succeed, Bool.and_eq_true] at h
      obtain ⟨ha, hf⟩ := tracing_alloc_counters w s.1 s.2 size tag h.1
      have := ih _ h.2
      simp only [run_ops, alloc_sum, free_sum]
      rw [this.1, this.2]
      simp only [run_op, ha, hf, Nat.mod_add_mod, Nat.add_assoc, and_self]
    | free ptr size tag =>
      simp only [allocs_succeed] at h
      have := ih _ h
      simp only [run_ops, alloc_sum, free_sum]
      rw [this.1, this.2]
      simp only [run_op, tracing_free, sink_println, Nat.mod_add_mod, Nat.add_assoc, and_self]

theorem run_ops_lt (w : Nat) (ops : List TraceOp) (s : TracingContext × Heap)
    (h : allocs_succeed w ops s = true) (ha : s.1.allocated < 2 ^ w) (hf : s.1.freed < 2 ^ w) :
    (run_ops w ops s).1.allocated < 2 ^ w ∧ (run_ops w ops s).1.freed < 2 ^ w := by
  have hpos : 0 < 2 ^ w := Nat.pow_pos (by decide)
  induction ops generalizing s with
  | nil => exact ⟨ha, hf⟩
  | cons op rest ih =>
    cases op with
    | alloc size tag =>
      simp only [allocs_succeed, Bool.and_eq_true] at h
      obtain ⟨ha1, hf1⟩ := tracing_alloc_counters w s.1 s.2 size tag h.1
      apply ih _ h.2
      · simp only [run_op, ha1]; exact Nat.mod_lt _ hpos
      · simp only [run_op, hf1]; exact hf
    | free ptr size tag =>
      simp only [allocs_succeed] at h
      apply ih _ h
      · simpa [run_op, tracing_free, sink_println] using ha
      · simp only [run_op, tracing_free, sink_println]; exact Nat.mod_lt _ hpos

theorem run_allocs_script (w : Nat) (reqs : List (Nat × String)) (addrs : List (Nat × Nat))
    (rest : List (Option Nat)) (tc : TracingContext) (hlen : addrs.length = reqs.length) :
    (run_allocs w reqs (tc, ⟨script_of addrs rest⟩)).1.head
        = (entries_of reqs addrs).reverse ++ tc.head ∧
      (run_allocs w reqs (tc, ⟨script_of addrs rest⟩)).2 = ⟨rest⟩ := by
  induction reqs generalizing addrs tc with
  | nil =>
    cases addrs with
    | nil => simp [run_allocs, entries_of, script_of]
    | cons p more => simp at hlen
  | cons a reqs ih =>
    cases addrs with
    | nil => simp at hlen
    | cons p more =>
      have hlen1 : more.length = reqs.length := by simpa using hlen
      have h1 : malloc ⟨script_of (p :: more) rest⟩ a.1
          = (some p.1, ⟨some p.2 :: script_of more rest⟩) := rfl
      have h2 : malloc ⟨some p.2 :: script_of more rest⟩ (sizeof_AllocLog w)
          = (some p.2, ⟨script_of more rest⟩) := rfl
      simp only [run_allocs]
      rw [tracing_alloc_ok w tc _ _ _ a.1 p.1 p.2 a.2 h1 h2]
      obtain ⟨e1, e2⟩ := ih more _ hlen1
      rw [e1, e2]
      simp [entries_of]

/-- On one of the four operator characters `scan_token` consumes it and
returns the token chosen by `match(lexer, '=')`. -/
theorem scan_operator {α : Type} (A : Allocator α) (l : Lexer) (heap : α)
    (h : l.current ≤ l.src.length) (o : Char) (ty1 ty2 : TokenType)
    (ho : (o, ty1, ty2) ∈ operator_table) (hp : peek l = o) :
    scan_token A l heap
      = emit A (match_char ⟨l.src, l.current, l.current + 1, l.line⟩ '=').2
          (if (match_char ⟨l.src, l.current, l.current + 1, l.line⟩ '=').1 = true then ty1
            else ty2) heap := by
  have hp1 : char_at l.src l.current = o := hp
  simp only [operator_table, List.mem_cons, Prod.mk.injEq, List.mem_singleton,
    List.not_mem_nil, or_false] at ho
  rcases ho with ⟨rfl, rfl, rfl⟩ | ⟨rfl, rfl, rfl⟩ | ⟨rfl, rfl, rfl⟩ | ⟨rfl, rfl, rfl⟩
  all_goals
    have hs : skip_whitespace l = some l :=
      skip_whitespace_noop l h (by rw [hp]; decide) (by rw [hp]; decide)
        (by rw [hp]; decide) (by rw [hp]; decide) (by rw [hp]; decide)
    have he : is_at_end { l with start := l.current } = false := by
      simp only [is_at_end, hp1]; decide
    simp [scan_token, hs, he, advance, hp1, isalpha, isdigit]

theorem scan_operator_two {α : Type} (A : Allocator α) (l : Lexer) (heap : α)
    (h : l.current ≤ l.src.length) (o : Char) (ty1 ty2 : TokenType)
    (ho : (o, ty1, ty2) ∈ operator_table) (hp : peek l = o)
    (hq : char_at l.src (l.current + 1) = '=') :
    scan_token A l heap
      = some (⟨ty1, l.line, none⟩, ⟨l.src, l.current, l.current + 2, l.line⟩, heap) := by
  rw [scan_operator A l heap h o ty1 ty2 ho hp]
  have hm : match_char ⟨l.src, l.current, l.current + 1, l.line⟩ '='
      = (true, ⟨l.src, l.current, l.current + 2, l.line⟩) := by
    simp [match_char, is_at_end, hq]
  rw [hm]
  simp only [operator_table, List.mem_cons, Prod.mk.injEq, List.mem_singleton,
    List.not_mem_nil, or_false] at ho
  rcases ho with ⟨rfl, rfl, rfl⟩ | ⟨rfl, rfl, rfl⟩ | ⟨rfl, rfl, rfl⟩ | ⟨rfl, rfl, rfl⟩ <;>
    simp [emit, make_token]

theorem scan_operator_one {α : Type} (A : Allocator α) (l : Lexer) (heap : α)
    (h : l.current ≤ l.src.length) (o : Char) (ty1 ty2 : TokenType)
    (ho : (o, ty1, ty2) ∈ operator_table) (hp : peek l = o)
    (hq : char_at l.src (l.current + 1) ≠ '=') :
    scan_token A l heap
      = some (⟨ty2, l.line, none⟩, ⟨l.src, l.current, l.current + 1, l.line⟩, heap) := by
  rw [scan_operator A l heap h o ty1 ty2 ho hp]
  have hm : match_char ⟨l.src, l.current, l.current + 1, l.line⟩ '='
      = (false, ⟨l.src, l.current, l.current + 1, l.line⟩) := by
    simp [match_char, is_at_end, hq]
  rw [hm]
  simp only [operator_table, List.mem_cons, Prod.mk.injEq, List.mem_singleton,
    List.not_mem_nil, or_false] at ho
  rcases ho with ⟨rfl, rfl, rfl⟩ | ⟨rfl, rfl, rfl⟩ | ⟨rfl, rfl, rfl⟩ | ⟨rfl, rfl, rfl⟩ <;>
    simp [emit, make_token]

/-- A run of blanks and newlines in front of the cursor is stepped over by the
loop of `skip_whitespace`, one iteration per byte; the line counter rises by
the number of newlines. -/
theorem skip_whitespace_loop_blanks (rest : List Char) :
    ∀ (ws : List Char), (∀ x ∈ ws, x = ' ' ∨ x = '\r' ∨ x = '\t' ∨ x = '\n') →
    ∀ (pre : List Char) (s ln fuel : Nat),
      skip_whitespace_loop (fuel + ws.length) ⟨pre ++ ws ++ rest, s, pre.length, ln⟩
        = skip_whitespace_loop fuel
            ⟨pre ++ ws ++ rest, s, pre.length + ws.length, ln + ws.count '\n'⟩ := by
  intro ws
  induction ws with
  | nil => intro _ pre s ln fuel; simp
  | cons w ws ih =>
    intro hws pre s ln fuel
    have hw := hws w (List.mem_cons_self _ _)
    have hws1 : ∀ x ∈ ws, x = ' ' ∨ x = '\r' ∨ x = '\t' ∨ x = '\n' :=
      fun x hx => hws x (List.mem_cons_of_mem _ hx)
    have hsrc : pre ++ w :: ws ++ rest = (pre ++ [w]) ++ ws ++ rest := by simp
    have hpk : peek ⟨pre ++ w :: ws ++ rest, s, pre.length, ln⟩ = w := by
      simp only [peek, List.append_assoc, char_at_append_length, List.cons_append,
        char_at_cons_zero]
    have hfuel : fuel + (w :: ws).length = (fuel + ws.length) + 1 := by
      simp only [List.length_cons]; omega
    have ih1 := ih hws1 (pre ++ [w]) s
    simp only [List.length_append, List.length_singleton] at ih1
    rw [hfuel]
    conv_lhs => unfold skip_whitespace_loop
    simp only [hpk]
    by_cases hb : w = ' ' ∨ w = '\r' ∨ w = '\t'
    · rw [if_pos hb]
      have hnl : w ≠ '\n' := by
        rcases hb with rfl | rfl | rfl <;> decide
      have hadv : (advance ⟨pre ++ w :: ws ++ rest, s, pre.length, ln⟩).2
          = ⟨pre ++ [w] ++ ws ++ rest, s, pre.length + 1, ln⟩ := by
        simp [advance]
      rw [hadv, ih1 ln fuel, ← hsrc]
      have hcount : (w :: ws).count '\n' = ws.count '\n' := by
        rw [List.count_cons_of_ne hnl.symm]
      rw [hcount]
      simp only [List.length_cons]
      have : pre.length + 1 + ws.length = pre.length + (ws.length + 1) := by omega
      rw [this]
    · rw [if_neg hb]
      have hnl : w = '\n' := by
        rcases hw with h | h | h | h
        · exact absurd (Or.inl h) hb
        · exact absurd (Or.inr (Or.inl h)) hb
        · exact absurd (Or.inr (Or.inr h)) hb
        · exact h
      rw [if_pos hnl]
      have hadv : (advance { (⟨pre ++ w :: ws ++ rest, s, pre.length, ln⟩ : Lexer) with
            line := ln + 1 }).2
          = ⟨pre ++ [w] ++ ws ++ rest, s, pre.length + 1, ln + 1⟩ := by
        simp [advance]
      rw [hadv, ih1 (ln + 1) fuel, ← hsrc]
      have hcount : (w :: ws).count '\n' = ws.count '\n' + 1 := by
        rw [hnl, List.count_cons_self]
      rw [hcount]
      simp only [List.length_cons]
      have h1 : pre.length + 1 + ws.length = pre.length + (ws.length + 1) := by omega
      have h2 : ln + 1 + ws.count '\n' = ln + (ws.count '\n' + 1) := by omega
      rw [h1, h2]

/-- On a `/` that is not followed by a second `/`, `skip_whitespace` returns
at once: no comment is recognised. -/
theorem skip_whitespace_slash (l : Lexer) (h : l.current ≤ l.src.length)
    (hp : peek l = '/') (hn : peek_next l ≠ '/') : skip_whitespace l = some l := by
  unfold skip_whitespace
  obtain ⟨f, hf⟩ : ∃ f, loop_fuel l = f + 1 := ⟨loop_fuel l - 1, by unfold loop_fuel; omega⟩
  rw [hf]
  unfold skip_whitespace_loop
  simp [hp, hn]

/-- Leading blanks and newlines in front of a byte on which `skip_whitespace`
returns: the cursor ends on that byte. -/
theorem skip_whitespace_blanks (ws rest : List Char) (s ln : Nat)
    (hws : ∀ x ∈ ws, x = ' ' ∨ x = '\r' ∨ x = '\t' ∨ x = '\n')
    (hstop : skip_whitespace ⟨ws ++ rest, s, ws.length, ln + ws.count '\n'⟩
      = some ⟨ws ++ rest, s, ws.length, ln + ws.count '\n'⟩) :
    skip_whitespace ⟨ws ++ rest, s, 0, ln⟩
      = some ⟨ws ++ rest, s, ws.length, ln + ws.count '\n'⟩ := by
  have h := skip_whitespace_loop_blanks rest ws hws [] s ln (rest.length + 1)
  simp only [List.nil_append, List.length_nil, Nat.zero_add] at h
  unfold skip_whitespace at hstop ⊢
  have e1 : loop_fuel ⟨ws ++ rest, s, 0, ln⟩ = rest.length + 1 + ws.length := by
    simp only [loop_fuel, List.length_append]; omega
  have e2 : loop_fuel ⟨ws ++ rest, s, ws.length, ln + ws.count '\n'⟩ = rest.length + 1 := by
    simp only [loop_fuel, List.length_append]; omega
  rw [e1, h, ← e2]
  exact hstop

theorem string_loop_shape (l : Lexer) (hle : l.current ≤ l.src.length) :
    ∃ l1, while_loop (fun x => peek x != '"' && !is_at_end x)
        (fun x => (advance (if peek x = '\n' then { x with line := x.line + 1 } else x)).2)
        (loop_fuel l) l = some l1 ∧ l1.src = l.src ∧ l1.start = l.start ∧
      l.current ≤ l1.current ∧ l1.current ≤ l1.src.length ∧
      (is_at_end l1 = false → l1.current < l1.src.length) := by
  have hcond : ∀ x : Lexer, (peek x != '"' && !is_at_end x) = true →
      x.current < x.src.length := by
    intro x hx
    simp only [Bool.and_eq_true, bne_iff_ne, ne_eq, Bool.not_eq_true', is_at_end,
      beq_eq_false_iff_ne] at hx
    exact lt_length_of_char_at_ne x.src x.current hx.2
  have hb1 : ∀ x : Lexer,
      (advance (if peek x = '\n' then { x with line := x.line + 1 } else x)).2.src = x.src := by
    intro x; by_cases hc : peek x = '\n' <;> simp [advance, hc]
  have hb2 : ∀ x : Lexer,
      (advance (if peek x = '\n' then { x with line := x.line + 1 } else x)).2.current
        = x.current + 1 := by
    intro x; by_cases hc : peek x = '\n' <;> simp [advance, hc]
  have hb3 : ∀ x : Lexer,
      (advance (if peek x = '\n' then { x with line := x.line + 1 } else x)).2.start
        = x.start := by
    intro x; by_cases hc : peek x = '\n' <;> simp [advance, hc]
  obtain ⟨l1, h1⟩ := while_loop_total (fun x => peek x != '"' && !is_at_end x)
    (fun x => (advance (if peek x = '\n' then { x with line := x.line + 1 } else x)).2)
    hcond hb1 hb2 (loop_fuel l) l hle (by simp only [loop_fuel]; omega)
  have hI := while_loop_inv
    (fun x => x.src = l.src ∧ x.start = l.start ∧ l.current ≤ x.current ∧
      x.current ≤ x.src.length)
    (fun x => peek x != '"' && !is_at_end x)
    (fun x => (advance (if peek x = '\n' then { x with line := x.line + 1 } else x)).2)
    (by
      intro x hx hIx
      have h3 := hcond x hx
      exact ⟨by rw [hb1]; exact hIx.1, by rw [hb3]; exact hIx.2.1, by rw [hb2]; omega,
        by rw [hb2, hb1]; omega⟩)
    (loop_fuel l) l l1 h1 ⟨rfl, rfl, Nat.le_refl _, hle⟩
  refine ⟨l1, h1, hI.1, hI.2.1, hI.2.2.1, hI.2.2.2, fun he => ?_⟩
  apply lt_length_of_char_at_ne
  intro h0
  simp [is_at_end, h0] at he

/-- The shape of one `scan_token` call from a state inside the buffer: the
call returns, and its token is made by `make_token` or `make_error_token` from
a lexer `lx`, the call leaving the lexer `lr`, as `scan_shape` says. -/
theorem scan_token_shape {α : Type} (A : Allocator α) (l : Lexer) (heap : α)
    (hle : l.current ≤ l.src.length) (hinv : line_inv l) :
    ∃ lx lr, scan_shape l lx lr ∧
      ((∃ ty, scan_token A l heap
          = some ((make_token A lx ty heap).1, lr, (make_token A lx ty heap).2)) ∨
        (∃ m, scan_token A l heap
          = some ((make_error_token A lx m heap).1, lr, (make_error_token A lx m heap).2))) := by
  obtain ⟨l0, e1, e2, _, e4, e5, e6, e7⟩ := skip_whitespace_spec l hle hinv
  apply scan_token_cases A l heap (fun o => ∃ lx lr, scan_shape l lx lr ∧
      ((∃ ty, o = some ((make_token A lx ty heap).1, lr, (make_token A lx ty heap).2)) ∨
        (∃ m, o
          = some ((make_error_token A lx m heap).1, lr, (make_error_token A lx m heap).2))))
  · intro hn; rw [hn] at e1; cases e1
  · intro l1 hs he
    rw [hs] at e1
    cases e1
    exact ⟨{ l0 with start := l0.current }, { l0 with start := l0.current },
      ⟨e2, Nat.le_refl _, e5, e2, Nat.le_refl _, e5, e4⟩, Or.inl ⟨TOKEN_EOF, rfl⟩⟩
  · intro l1 hs he
    rw [hs] at e1
    cases e1
    have hnz : peek l0 ≠ '\x00' := by
      have : ¬ is_at_end l0 = true := by rw [he]; decide
      simpa [is_at_end, peek] using this
    have hlt : l0.current < l0.src.length := peek_lt_length l0 hnz
    obtain ⟨l2, hl2⟩ : ∃ l2, l2 = (advance { l0 with start := l0.current }).2 := ⟨_, rfl⟩
    have hsrc2 : l2.src = l0.src := by rw [hl2]; rfl
    have hst2 : l2.start = l0.current := by rw [hl2]; rfl
    have hcu2 : l2.current = l0.current + 1 := by rw [hl2]; rfl
    have hle2 : l2.current ≤ l2.src.length := by rw [hcu2, hsrc2]; omega
    have hinv2 : line_inv l2 := by
      rw [hl2]; exact line_inv_advance { l0 with start := l0.current } e6 e7
    rw [← hl2]
    have base : scan_shape l l2 l2 :=
      ⟨hsrc2.trans e2, by omega, hle2, hsrc2.trans e2, by omega, hle2, by omega⟩
    have of_loop : ∀ x : Lexer, x.src = l2.src → x.start = l2.start →
        l2.current ≤ x.current → x.current ≤ x.src.length → scan_shape l x x := by
      intro x f2 f3 f4 f5
      exact ⟨(f2.trans hsrc2).trans e2, by omega, f5, (f2.trans hsrc2).trans e2, by omega, f5,
        by omega⟩
    refine ⟨?_, ?_, ?_, ?_, ?_, ?_⟩
    · obtain ⟨x, f1, f2, f3, f4, f5, _⟩ := advance_loop_spec (fun c => isalnum c || c == '_')
        (by
          intro c hc
          constructor <;> rintro rfl <;> exact absurd hc (by decide))
        l2 hle2 hinv2
      have f1' : while_loop (fun x => isalnum (peek x) || peek x == '_')
          (fun x => (advance x).2) (loop_fuel l2) l2 = some x := f1
      unfold make_identifier_or_keyword
      rw [f1']
      exact ⟨x, x, of_loop x f2 f3 f4 f5, Or.inl ⟨_, rfl⟩⟩
    · obtain ⟨x, f1, f2, f3, f4, f5, f6⟩ := advance_loop_spec isdigit isdigit_ne l2 hle2 hinv2
      have f1' : while_loop (fun x => isdigit (peek x)) (fun x => (advance x).2)
          (loop_fuel l2) l2 = some x := f1
      unfold make_number_token
      rw [f1']
      dsimp only
      by_cases hf : peek x = '.' ∧ isdigit (peek_next x) = true
      · rw [if_pos hf]
        have hltx : x.current < x.src.length := peek_lt_length x (by rw [hf.1]; decide)
        obtain ⟨y, g1, g2, g3, g4, g5, _⟩ := advance_loop_spec isdigit isdigit_ne (advance x).2
          (by simp only [advance]; omega) (line_inv_advance x f6 (by rw [hf.1]; decide))
        have g1' : while_loop (fun x => isdigit (peek x)) (fun x => (advance x).2)
            (loop_fuel (advance x).2) (advance x).2 = some y := g1
        rw [g1']
        refine ⟨y, y, of_loop y (g2.trans f2) (g3.trans f3) ?_ g5, Or.inl ⟨_, rfl⟩⟩
        simp only [advance] at g4
        omega
      · rw [if_neg hf]
        by_cases hg : peek x = '.' ∧ ¬ isdigit (peek_next x) = true
        · rw [if_pos hg]
          exact ⟨x, x, of_loop x f2 f3 f4 f5, Or.inr ⟨_, rfl⟩⟩
        · rw [if_neg hg]
          exact ⟨x, x, of_loop x f2 f3 f4 f5, Or.inl ⟨_, rfl⟩⟩
    · obtain ⟨x, f1, f2, f3, f4, f5, f6⟩ := string_loop_shape l2 hle2
      unfold make_string_token
      rw [f1]
      dsimp only
      by_cases he1 : is_at_end x = true
      · rw [if_pos he1]
        exact ⟨x, x, of_loop x f2 f3 f4 f5, Or.inr ⟨_, rfl⟩⟩
      · rw [if_neg he1]
        have hltx := f6 (by simpa using he1)
        refine ⟨{ x with start := x.start + 1 },
          (advance { ({ x with start := x.start + 1 } : Lexer) with
            start := ({ x with start := x.start + 1 } : Lexer).start - 1 }).2,
          ⟨(f2.trans hsrc2).trans e2, ?_, f5, (f2.trans hsrc2).trans e2, ?_, ?_, ?_⟩,
          Or.inl ⟨_, rfl⟩⟩
        · show x.start + 1 ≤ x.current
          omega
        · show x.start + 1 - 1 ≤ x.current + 1
          omega
        · show x.current + 1 ≤ x.src.length
          omega
        · show l.current ≤ x.start + 1 - 1
          omega
    · intro ty
      exact ⟨l2, l2, base, Or.inl ⟨ty, rfl⟩⟩
    · intro ty1 ty2
      refine ⟨(match_char l2 '=').2, (match_char l2 '=').2, ?_, Or.inl ⟨_, rfl⟩⟩
      unfold match_char
      by_cases hm1 : is_at_end l2 = true
      · rw [if_pos hm1]; exact base
      · rw [if_neg hm1]
        by_cases hm2 : char_at l2.src l2.current ≠ '='
        · rw [if_pos hm2]; exact base
        · rw [if_neg hm2]
          have hc1 : peek l2 = '=' := by simpa [peek] using hm2
          have hlt2 : l2.current < l2.src.length := peek_lt_length l2 (by rw [hc1]; decide)
          exact ⟨hsrc2.trans e2, by show l2.start ≤ l2.current + 1; omega,
            by show l2.current + 1 ≤ l2.src.length; omega, hsrc2.trans e2,
            by show l2.start ≤ l2.current + 1; omega,
            by show l2.current + 1 ≤ l2.src.length; omega,
            by show l.current ≤ l2.start; omega⟩
    · intro m
      exact ⟨l2, l2, base, Or.inr ⟨m, rfl⟩⟩

theorem strlen_of_no_nul (t : List Char) (h : ∀ c ∈ t, c ≠ '\x00') : strlen t = t.length := by
  have := strlen_append t [] h
  simpa [strlen] using this

theorem strlen_take_strlen (m : List Char) : strlen (m.take (strlen m)) = strlen m := by
  induction m with
  | nil => rfl
  | cons c cs ih =>
    by_cases hc : c = '\x00'
    · simp [strlen, hc]
    · simp only [strlen, if_neg hc, List.take_succ_cons, ih]

/-- The bytes that `make_token` copies from a source without NUL inside: there
are `current - start` of them and `strlen` counts them all. -/
theorem strlen_lexeme (l : Lexer) (hz : ∀ c ∈ l.src, c ≠ '\x00')
    (hle : l.current ≤ l.src.length) :
    strlen ((l.src.drop l.start).take (l.current - l.start)) = l.current - l.start := by
  rw [strlen_of_no_nul]
  · rw [List.length_take, List.length_drop]
    omega
  · intro c hc
    exact hz c (List.mem_of_mem_drop (List.mem_of_mem_take hc))

theorem make_token_tracing (w : Nat) (l : Lexer) (ty : TokenType) (tc : TracingContext)
    (p q : Nat) (rest : List (Option Nat))
    (hty : ty = TOKEN_IDENTIFIER ∨ ty = TOKEN_STRING ∨ ty = TOKEN_ERROR ∨
      ty = TOKEN_INTEGER ∨ ty = TOKEN_FLOAT) :
    make_token (tracing_allocator w) l ty (tc, ⟨some p :: some q :: rest⟩)
      = (⟨ty, l.line, some ⟨p, (l.src.drop l.start).take (l.current - l.start)⟩⟩,
          (⟨⟨p, l.current - l.start + 1, "TokenLexeme"⟩ :: tc.head,
            tc.sink ++ [⟨"Allocated %zu bytes for %s at %p",
              [LogArg.zu (l.current - l.start + 1), LogArg.s "TokenLexeme",
                LogArg.p (some p)]⟩],
            (tc.allocated + (l.current - l.start + 1)) % 2 ^ w, tc.freed⟩, ⟨rest⟩)) := by
  apply make_token_lexeme _ _ _ _ _ _ hty
  simp only [tracing_allocator]
  rw [tracing_alloc_ok w tc ⟨some p :: some q :: rest⟩ ⟨some q :: rest⟩ ⟨rest⟩ _ p q _ rfl rfl]

theorem make_error_token_tracing (w : Nat) (l : Lexer) (m : List Char) (tc : TracingContext)
    (p q : Nat) (rest : List (Option Nat)) :
    make_error_token (tracing_allocator w) l m (tc, ⟨some p :: some q :: rest⟩)
      = (⟨TOKEN_ERROR, l.line, some ⟨p, m.take (strlen m)⟩⟩,
          (⟨⟨p, strlen m + 1, "TokenError"⟩ :: tc.head,
            tc.sink ++ [⟨"Allocated %zu bytes for %s at %p",
              [LogArg.zu (strlen m + 1), LogArg.s "TokenError", LogArg.p (some p)]⟩],
            (tc.allocated + (strlen m + 1)) % 2 ^ w, tc.freed⟩, ⟨rest⟩)) := by
  unfold make_error_token
  simp only [tracing_allocator]
  rw [tracing_alloc_ok w tc ⟨some p :: some q :: rest⟩ ⟨some q :: rest⟩ ⟨rest⟩ _ p q _ rfl rfl]

/-- Releasing the block of the entry at the head of the ledger restores the
ledger and adds the released size to `freed`. -/
theorem tracing_free_head (w : Nat) (head : List AllocLog) (sink : List LogLine)
    (a f p n k : Nat) (tag tag1 : String) (heap : Heap) :
    (tracing_free w ⟨⟨p, n, tag⟩ :: head, sink, a, f⟩ heap (some p) k tag1).1
      = ⟨head, sink ++ [⟨"Freed %zu bytes for %s at %p",
          [LogArg.zu k, LogArg.s tag1, LogArg.p (some p)]⟩], a, (f + k) % 2 ^ w⟩ := by
  simp [tracing_free, sink_println, unlink_first]

theorem reachable_start_le {α : Type} (A : Allocator α) (src : List Char) (l : Lexer)
    (h : Reachable A src l) : l.start ≤ l.current := by
  induction h with
  | init => exact Nat.le_refl _
  | step l0 heap r h0 hs _ =>
    obtain ⟨_, hle, hinv⟩ := reachable_good A src l0 h0
    obtain ⟨lx, lr, hshape, hcase⟩ := scan_token_shape A l0 heap hle hinv
    rcases hcase with ⟨ty, hres⟩ | ⟨m, hres⟩
    · rw [hs] at hres
      cases hres
      exact hshape.2.2.2.2.1
    · rw [hs] at hres
      cases hres
      exact hshape.2.2.2.2.1

theorem make_token_view {α β : Type} (A : Allocator α) (B : Allocator β) (l l1 : Lexer)
    (ty : TokenType) (ha : α) (hb : β) :
    (some ((make_token A l ty ha).1, l1, (make_token A l ty ha).2)).map scan_view
      = (some ((make_token B l ty hb).1, l1, (make_token B l ty hb).2)).map scan_view := by
  simp only [Option.map_some', scan_view, make_token_type, make_token_line]

theorem make_error_token_view {α β : Type} (A : Allocator α) (B : Allocator β)
    (l l1 : Lexer) (m : List Char) (ha : α) (hb : β) :
    (some ((make_error_token A l m ha).1, l1, (make_error_token A l m ha).2)).map scan_view
      = (some ((make_error_token B l m hb).1, l1, (make_error_token B l m hb).2)).map
          scan_view := by
  simp only [Option.map_some', scan_view, make_error_token_type, make_error_token_line]

theorem emit_view {α β : Type} (A : Allocator α) (B : Allocator β) (l : Lexer)
    (ty : TokenType) (ha : α) (hb : β) :
    (emit A l ty ha).map scan_view = (emit B l ty hb).map scan_view :=
  make_token_view A B l l ty ha hb

theorem make_identifier_or_keyword_view {α β : Type} (A : Allocator α) (B : Allocator β)
    (l : Lexer) (ha : α) (hb : β) :
    (make_identifier_or_keyword A l ha).map scan_view
      = (make_identifier_or_keyword B l hb).map scan_view := by
  unfold make_identifier_or_keyword
  cases while_loop (fun l => isalnum (peek l) || peek l == '_') (fun l => (advance l).2)
      (loop_fuel l) l with
  | none => rfl
  | some l1 => exact make_token_view A B l1 l1 _ ha hb

theorem make_number_token_view {α β : Type} (A : Allocator α) (B : Allocator β)
    (l : Lexer) (ha : α) (hb : β) :
    (make_number_token A l ha).map scan_view = (make_number_token B l hb).map scan_view := by
  unfold make_number_token
  cases while_loop (fun l => isdigit (peek l)) (fun l => (advance l).2) (loop_fuel l) l with
  | none => rfl
  | some l1 =>
    dsimp only
    by_cases hf : peek l1 = '.' ∧ isdigit (peek_next l1) = true
    · rw [if_pos hf, if_pos hf]
      cases while_loop (fun l => isdigit (peek l)) (fun l => (advance l).2)
          (loop_fuel (advance l1).2) (advance l1).2 with
      | none => rfl
      | some l2 => exact make_token_view A B l2 l2 _ ha hb
    · rw [if_neg hf, if_neg hf]
      by_cases hg : peek l1 = '.' ∧ ¬ isdigit (peek_next l1) = true
      · rw [if_pos hg, if_pos hg]
        exact make_error_token_view A B l1 l1 _ ha hb
      · rw [if_neg hg, if_neg hg]
        exact make_token_view A B l1 l1 _ ha hb

theorem make_string_token_view {α β : Type} (A : Allocator α) (B : Allocator β)
    (l : Lexer) (ha : α) (hb : β) :
    (make_string_token A l ha).map scan_view = (make_string_token B l hb).map scan_view := by
  unfold make_string_token
  cases while_loop (fun l => peek l != '"' && !is_at_end l)
      (fun l => (advance (if peek l = '\n' then { l with line := l.line + 1 } else l)).2)
      (loop_fuel l) l with
  | none => rfl
  | some l1 =>
    dsimp only
    by_cases he : is_at_end l1 = true
    · rw [if_pos he, if_pos he]
      exact make_error_token_view A B l1 l1 _ ha hb
    · rw [if_neg he, if_neg he]
      exact make_token_view A B _ _ _ ha hb

theorem ite_view_congr {β γ δ : Type} {c : Prop} [Decidable c] {a b : Option β}
    {a1 b1 : Option γ} (f : β → δ) (g : γ → δ) (ha : c → a.map f = a1.map g)
    (hb : ¬ c → b.map f = b1.map g) :
    (if c then a else b).map f = (if c then a1 else b1).map g := by
  by_cases h : c
  · rw [if_pos h, if_pos h]; exact ha h
  · rw [if_neg h, if_neg h]; exact hb h

/-- The kind and line of the token and the lexer that `scan_token` leaves do
not depend on the allocator or on its state. -/
theorem scan_token_view {α β : Type} (A : Allocator α) (B : Allocator β) (l : Lexer)
    (ha : α) (hb : β) :
    (scan_token A l ha).map scan_view = (scan_token B l hb).map scan_view := by
  unfold scan_token
  cases skip_whitespace l with
  | none => rfl
  | some l0 =>
    dsimp only
    refine ite_view_congr _ _ (fun _ => emit_view A B _ _ ha hb) (fun _ => ?_)
    refine ite_view_congr _ _ (fun _ => make_identifier_or_keyword_view A B _ ha hb)
      (fun _ => ?_)
    refine ite_view_congr _ _ (fun _ => make_number_token_view A B _ ha hb) (fun _ => ?_)
    iterate 15 refine ite_view_congr _ _ (fun _ => emit_view A B _ _ ha hb) (fun _ => ?_)
    refine ite_view_congr _ _ (fun _ => make_string_token_view A B _ ha hb) (fun _ => ?_)
    exact make_error_token_view A B _ _ _ ha hb

theorem make_token_failed {α : Type} (A : Allocator α) (l : Lexer) (ty : TokenType)
    (heap : α) (hfail : ∀ n tag, (A.alloc heap n tag).1 = none) :
    (make_token A l ty heap).1.lexeme = none := by
  unfold make_token
  by_cases h : ty = TOKEN_IDENTIFIER ∨ ty = TOKEN_STRING ∨ ty = TOKEN_ERROR ∨
      ty = TOKEN_INTEGER ∨ ty = TOKEN_FLOAT
  · rw [if_pos h]
    have := hfail (l.current - l.start + 1) "TokenLexeme"
    rcases hr : A.alloc heap (l.current - l.start + 1) "TokenLexeme" with ⟨_ | p, h1⟩
    · simp only [hr]
    · rw [hr] at this; cases this
  · rw [if_neg h]

theorem make_error_token_failed {α : Type} (A : Allocator α) (l : Lexer) (m : List Char)
    (heap : α) (hfail : ∀ n tag, (A.alloc heap n tag).1 = none) :
    (make_error_token A l m heap).1.lexeme = none := by
  unfold make_error_token
  have := hfail (strlen m + 1) "TokenError"
  rcases hr : A.alloc heap (strlen m + 1) "TokenError" with ⟨_ | p, h1⟩
  · simp only [hr]
  · rw [hr] at this; cases this

theorem unlink_first_filter (p : Nat) (l : List AllocLog)
    (h : (l.map (fun e => e.ptr)).Nodup) : unlink_first (some p) l = live_free p l := by
  unfold live_free
  induction l with
  | nil => rfl
  | cons x xs ih =>
    simp only [List.map_cons, List.nodup_cons] at h
    unfold unlink_first
    by_cases hx : x.ptr = p
    · rw [if_pos (by rw [hx])]
      have hall : ∀ e ∈ xs, (e.ptr != p) = true := by
        intro e he
        have : e.ptr ≠ p := by
          intro hp
          apply h.1
          rw [hx, ← hp]
          exact List.mem_map_of_mem _ he
        simpa using this
      simp [hx, List.filter_eq_self.mpr hall]
    · rw [if_neg (by simpa using hx), ih h.2]
      simp [hx]

theorem ledger_sum_live_free (p : Nat) (l : List AllocLog) (e : AllocLog)
    (h : (l.map (fun e => e.ptr)).Nodup) (he : e ∈ l) (hp : e.ptr = p) :
    ledger_sum (live_free p l) + e.size = ledger_sum l := by
  unfold live_free ledger_sum
  induction l with
  | nil => simp at he
  | cons x xs ih =>
    simp only [List.map_cons, List.nodup_cons] at h
    by_cases hx : x.ptr = p
    · have hall : ∀ y ∈ xs, (y.ptr != p) = true := by
        intro y hy
        have : y.ptr ≠ p := by
          intro hyp
          apply h.1
          rw [hx, ← hyp]
          exact List.mem_map_of_mem _ hy
        simpa using this
      have hex : e = x := by
        rcases List.mem_cons.mp he with h1 | h1
        · exact h1
        · have := hall e h1
          simp [hp] at this
      subst hex
      simp [hx, List.filter_eq_self.mpr hall]
      omega
    · have hexs : e ∈ xs := by
        rcases List.mem_cons.mp he with h1 | h1
        · subst h1; exact absurd hp hx
        · exact h1
      have := ih h.2 hexs
      simp only [List.filter_cons, bne_iff_ne, ne_eq, hx, not_false_eq_true, decide_True,
        if_true, List.map_cons, List.sum_cons]
      simp only [bne_iff_ne, ne_eq] at this
      omega

theorem nodup_live_free (p : Nat) (l : List AllocLog)
    (h : (l.map (fun e => e.ptr)).Nodup) : ((live_free p l).map (fun e => e.ptr)).Nodup :=
  List.Nodup.sublist (List.Sublist.map _ (List.filter_sublist l)) h

theorem tracing_alloc_null (w : Nat) (tc : TracingContext) (heap : Heap) (size : Nat)
    (tag : String) (h : (tracing_alloc w tc heap size tag).1 = none) :
    (tracing_alloc w tc heap size tag).2.1.head = tc.head ∧
      (tracing_alloc w tc heap size tag).2.1.allocated = tc.allocated ∧
      (tracing_alloc w tc heap size tag).2.1.freed = tc.freed := by
  rcases h1 : malloc heap size with ⟨_ | p, heap1⟩
  · rw [tracing_alloc_failed w tc heap heap1 size tag h1]
    exact ⟨rfl, rfl, rfl⟩
  · unfold tracing_alloc at h
    rw [h1] at h
    cases h

theorem tracked_iff (tc : TracingContext) (p size : Nat) :
    tracked tc p size = true ↔ ∃ e ∈ tc.head, e.ptr = p ∧ e.size = size := by
  simp [tracked, List.any_eq_true]

theorem alloc_step (w : Nat) (s : TracingContext × Heap) (size : Nat) (tag : String)
    (hinv : ledger_inv w s.1) (hf : fresh_address w s size tag = true)
    (hn : node_obtained w s size tag = true) :
    ledger_inv w (tracing_alloc w s.1 s.2 size tag).2.1 ∧
      (tracing_alloc w s.1 s.2 size tag).2.1.head
        = live_alloc (tracing_alloc w s.1 s.2 size tag).1 size tag s.1.head := by
  unfold fresh_address at hf
  unfold node_obtained at hn
  cases hr : (tracing_alloc w s.1 s.2 size tag).1 with
  | none =>
    obtain ⟨e1, e2, e3⟩ := tracing_alloc_null w s.1 s.2 size tag hr
    refine ⟨⟨by rw [e1]; exact hinv.1, by rw [e1, e2, e3]; exact hinv.2⟩, ?_⟩
    rw [e1]
    rfl
  | some p =>
    rw [hr] at hf hn
    simp only [List.all_eq_true, bne_iff_ne, ne_eq, decide_eq_true_eq] at hf hn
    obtain ⟨c1, c2⟩ := tracing_alloc_counters w s.1 s.2 size tag (by rw [hr]; rfl)
    refine ⟨⟨?_, ?_⟩, by rw [hn]; rfl⟩
    · rw [hn]
      simp only [List.map_cons, List.nodup_cons]
      refine ⟨?_, hinv.1⟩
      intro hmem
      obtain ⟨e, he, hp⟩ := List.mem_map.mp hmem
      exact hf e he hp
    · rw [hn, c1, c2]
      have h1 : (s.1.allocated + size) % 2 ^ w ≡ s.1.allocated + size [MOD 2 ^ w] :=
        Nat.mod_modEq _ _
      have h2 : s.1.allocated + size ≡ s.1.freed + ledger_sum s.1.head + size [MOD 2 ^ w] :=
        Nat.ModEq.add_right size hinv.2
      have h3 : s.1.freed + ledger_sum s.1.head + size
          = s.1.freed + ledger_sum (⟨p, size, tag⟩ :: s.1.head) := by
        simp only [ledger_sum, List.map_cons, List.sum_cons]; omega
      rw [← h3]
      exact h1.trans h2

theorem free_step (w : Nat) (tc : TracingContext) (heap : Heap) (p size : Nat) (tag : String)
    (hinv : ledger_inv w tc) (ht : tracked tc p size = true) :
    ledger_inv w (tracing_free w tc heap (some p) size tag).1 ∧
      (tracing_free w tc heap (some p) size tag).1.head = live_free p tc.head := by
  obtain ⟨e, he, hp, hsz⟩ := (tracked_iff tc p size).mp ht
  have hhead : (tracing_free w tc heap (some p) size tag).1.head = live_free p tc.head := by
    simp only [tracing_free, sink_println]
    exact unlink_first_filter p tc.head hinv.1
  have hal : (tracing_free w tc heap (some p) size tag).1.allocated = tc.allocated := rfl
  have hfr : (tracing_free w tc heap (some p) size tag).1.freed = (tc.freed + size) % 2 ^ w :=
    rfl
  refine ⟨⟨by rw [hhead]; exact nodup_live_free p tc.head hinv.1, ?_⟩, hhead⟩
  rw [hhead, hal, hfr]
  have hsum := ledger_sum_live_free p tc.head e hinv.1 he hp
  rw [hsz] at hsum
  have h1 : tc.freed + ledger_sum tc.head
      = tc.freed + size + ledger_sum (live_free p tc.head) := by omega
  have h2 : (tc.freed + size) % 2 ^ w + ledger_sum (live_free p tc.head)
      ≡ tc.freed + size + ledger_sum (live_free p tc.head) [MOD 2 ^ w] :=
    Nat.ModEq.add_right _ (Nat.mod_modEq _ _)
  have h3 := hinv.2
  rw [h1] at h3
  exact h3.trans h2.symm

theorem call_step (w : Nat) (s : TracingContext × Heap) (c : TracingCall)
    (hinv : ledger_inv w s.1) (hok : call_ok w s c = true) (hnd : call_nodes w s c = true) :
    ledger_inv w (run_call w s c).1 ∧
      (run_call w s c).1.head = live_after w s s.1.head c := by
  cases c with
  | alloc size tag => exact alloc_step w s size tag hinv hok hnd
  | free ptr size tag =>
    cases ptr with
    | none => simp [call_ok] at hok
    | some p => exact free_step w s.1 s.2 p size tag hinv hok
  | realloc ptr old_size new_size tag =>
    cases ptr with
    | none =>
      have := alloc_step w s new_size tag hinv hok hnd
      simpa [run_call, tracing_realloc, live_after] using this
    | some p =>
      by_cases hz : new_size = 0
      · simp only [call_ok, if_pos hz] at hok
        have := free_step w s.1 s.2 p old_size tag hinv hok
        simpa [run_call, tracing_realloc, live_after, hz] using this
      · simp only [call_ok, if_neg hz, Bool.and_eq_true, Bool.or_eq_true] at hok
        simp only [call_nodes, if_neg hz] at hnd
        obtain ⟨a1, a2⟩ := alloc_step w s new_size tag hinv hok.1 hnd
        rcases hr : tracing_alloc w s.1 s.2 new_size tag with ⟨_ | q, tc1, heap1⟩
        · rw [hr] at a1 a2
          simp only [run_call, tracing_realloc, live_after, if_neg hz, hr]
          exact ⟨a1, a2⟩
        · rw [hr] at a1 a2
          have ht : tracked s.1 p old_size = true := by
            rcases hok.2 with h | h
            · rw [hr] at h; cases h
            · exact h
          have ht1 : tracked tc1 p old_size = true := by
            rw [tracked_iff] at ht ⊢
            obtain ⟨e, he, hp⟩ := ht
            simp only [live_alloc] at a2
            exact ⟨e, by rw [a2]; exact List.mem_cons_of_mem _ he, hp⟩
          obtain ⟨f1, f2⟩ := free_step w tc1 heap1 p old_size tag a1 ht1
          simp only [run_call, tracing_realloc, live_after, if_neg hz, hr]
          refine ⟨f1, ?_⟩
          rw [f2]
          simp only [live_alloc] at a2
          rw [a2]

theorem calls_step (w : Nat) (ops : List TracingCall) (s : TracingContext × Heap)
    (hinv : ledger_inv w s.1) (hok : calls_ok w ops s = true)
    (hnd : calls_nodes w ops s = true) :
    ledger_inv w (run_calls w ops s).1 ∧
      (run_calls w ops s).1.head = live_blocks w ops s s.1.head := by
  induction ops generalizing s with
  | nil => exact ⟨hinv, rfl⟩
  | cons c rest ih =>
    simp only [calls_ok, calls_nodes, Bool.and_eq_true] at hok hnd
    obtain ⟨h1, h2⟩ := call_step w s c hinv hok.1 hnd.1
    obtain ⟨h3, h4⟩ := ih (run_call w s c) h1 hok.2 hnd.2
    refine ⟨h3, ?_⟩
    simp only [run_calls, live_blocks]
    rw [h4, h2]

/-- The figure `allocated - freed` in `size_t` arithmetic, for a consistent
context: the sum of the sizes in the ledger. -/
theorem leaked_of_ledger_inv (w : Nat) (tc : TracingContext) (h : ledger_inv w tc) :
    (((tc.allocated : Int) - (tc.freed : Int)) % (2 : Int) ^ w).toNat
      = ledger_sum tc.head % 2 ^ w := by
  have hpow : ((2 : Int) ^ w) = ((2 ^ w : Nat) : Int) := by push_cast; rfl
  have h1 : ((tc.allocated : Nat) : Int) ≡ ((tc.freed + ledger_sum tc.head : Nat) : Int)
      [ZMOD ((2 ^ w : Nat) : Int)] := Int.natCast_modEq_iff.mpr h.2
  have h2 : (tc.allocated : Int) - (tc.freed : Int) ≡ (ledger_sum tc.head : Int)
      [ZMOD ((2 ^ w : Nat) : Int)] := by
    have := Int.ModEq.sub_right (tc.freed : Int) h1
    simpa using this
  rw [hpow, h2, ← Int.natCast_mod, Int.toNat_natCast]

theorem ite_ne_eof {c : Prop} [Decidable c] {a b : TokenType} (ha : a ≠ TOKEN_EOF)
    (hb : b ≠ TOKEN_EOF) : (if c then a else b) ≠ TOKEN_EOF := by
  by_cases h : c
  · rw [if_pos h]; exact ha
  · rw [if_neg h]; exact hb

theorem check_keyword_ne_eof (l : Lexer) (start len : Nat) (rest : List Char)
    (ty : TokenType) (h : ty ≠ TOKEN_EOF) : check_keyword l start len rest ty ≠ TOKEN_EOF := by
  unfold check_keyword
  exact ite_ne_eof h (by decide)

/-- The classifier never answers end-of-file. -/
theorem identifier_type_ne_eof (l : Lexer) : identifier_type l ≠ TOKEN_EOF := by
  unfold identifier_type
  dsimp only
  repeat' apply ite_ne_eof
  all_goals first
    | exact check_keyword_ne_eof _ _ _ _ _ (by decide)
    | decide

/-- A result that does not come from the end-of-file statement. -/
theorem not_eof_of_make_token {α : Type} (A : Allocator α) (l l1 : Lexer) (ty : TokenType)
    (heap : α) (hty : ty ≠ TOKEN_EOF) (r : Token × Lexer × α)
    (h : some ((make_token A l ty heap).1, l1, (make_token A l ty heap).2) = some r) :
    r.1.type ≠ TOKEN_EOF := by
  cases h
  dsimp only
  rw [make_token_type]
  exact hty

theorem not_eof_of_make_error_token {α : Type} (A : Allocator α) (l l1 : Lexer)
    (m : List Char) (heap : α) (r : Token × Lexer × α)
    (h : some ((make_error_token A l m heap).1, l1, (make_error_token A l m heap).2)
      = some r) : r.1.type ≠ TOKEN_EOF := by
  cases h
  dsimp only
  rw [make_error_token_type]
  decide

theorem make_identifier_or_keyword_ne_eof {α : Type} (A : Allocator α) (l : Lexer) (heap : α)
    (r : Token × Lexer × α) (hr : make_identifier_or_keyword A l heap = some r) :
    r.1.type ≠ TOKEN_EOF := by
  unfold make_identifier_or_keyword at hr
  cases hw : while_loop (fun l => isalnum (peek l) || peek l == '_')
      (fun l => (advance l).2) (loop_fuel l) l with
  | none => rw [hw] at hr; cases hr
  | some l1 =>
    rw [hw] at hr
    exact not_eof_of_make_token A _ _ _ heap (identifier_type_ne_eof l1) r hr

theorem make_number_token_ne_eof {α : Type} (A : Allocator α) (l : Lexer) (heap : α)
    (r : Token × Lexer × α) (hr : make_number_token A l heap = some r) :
    r.1.type ≠ TOKEN_EOF := by
  unfold make_number_token at hr
  cases hw : while_loop (fun l => isdigit (peek l)) (fun l => (advance l).2)
      (loop_fuel l) l with
  | none => rw [hw] at hr; cases hr
  | some l1 =>
    rw [hw] at hr
    dsimp only at hr
    by_cases hf : peek l1 = '.' ∧ isdigit (peek_next l1) = true
    · rw [if_pos hf] at hr
      cases hw2 : while_loop (fun l => isdigit (peek l)) (fun l => (advance l).2)
          (loop_fuel (advance l1).2) (advance l1).2 with
      | none => rw [hw2] at hr; cases hr
      | some l2 =>
        rw [hw2] at hr
        exact not_eof_of_make_token A _ _ _ heap (by decide) r hr
    · rw [if_neg hf] at hr
      by_cases hg : peek l1 = '.' ∧ ¬ isdigit (peek_next l1) = true
      · rw [if_pos hg] at hr
        exact not_eof_of_make_error_token A _ _ _ heap r hr
      · rw [if_neg hg] at hr
        exact not_eof_of_make_token A _ _ _ heap (by decide) r hr

theorem make_string_token_ne_eof {α : Type} (A : Allocator α) (l : Lexer) (heap : α)
    (r : Token × Lexer × α) (hr : make_string_token A l heap = some r) :
    r.1.type ≠ TOKEN_EOF := by
  unfold make_string_token at hr
  cases hw : while_loop (fun l => peek l != '"' && !is_at_end l)
      (fun l => (advance (if peek l = '\n' then { l with line := l.line + 1 } else l)).2)
      (loop_fuel l) l with
  | none => rw [hw] at hr; cases hr
  | some l1 =>
    rw [hw] at hr
    dsimp only at hr
    by_cases he : is_at_end l1 = true
    · rw [if_pos he] at hr
      exact not_eof_of_make_error_token A _ _ _ heap r hr
    · rw [if_neg he] at hr
      exact not_eof_of_make_token A _ _ _ heap (by decide) r hr

/-- Only the end-of-file statement of `scan_token` returns `TOKEN_EOF`: the
cursor is then on the terminator, `start` equals `current`, and the allocator
state is untouched. -/
theorem scan_token_eof_inv {α : Type} (A : Allocator α) (l : Lexer) (heap : α)
    (r : Token × Lexer × α) (hs : scan_token A l heap = some r)
    (he : r.1.type = TOKEN_EOF) :
    ∃ l0, skip_whitespace l = some l0 ∧ is_at_end l0 = true ∧
      r = (⟨TOKEN_EOF, l0.line, none⟩, { l0 with start := l0.current }, heap) := by
  revert r
  unfold scan_token
  cases hsk : skip_whitespace l with
  | none => intro r hs; cases hs
  | some l0 =>
    dsimp only
    refine ite_elim (fun o => ∀ r : Token × Lexer × α, o = some r → r.1.type = TOKEN_EOF →
        ∃ l1, some l0 = some l1 ∧ is_at_end l1 = true ∧
          r = (⟨TOKEN_EOF, l1.line, none⟩, { l1 with start := l1.current }, heap))
      (fun hend => ?_) (fun _ => ?_)
    · intro r hr _
      refine ⟨l0, rfl, hend, ?_⟩
      simp only [emit, make_token] at hr
      rw [if_neg (by decide)] at hr
      cases hr
      rfl
    · suffices h : ∀ r : Token × Lexer × α, _ = some r → r.1.type ≠ TOKEN_EOF from
        fun r hr hty => absurd hty (h r hr)
      have hemit : ∀ (x : Lexer) (ty : TokenType), ty ≠ TOKEN_EOF →
          ∀ r, emit A x ty heap = some r → r.1.type ≠ TOKEN_EOF :=
        fun x ty hty r hr => not_eof_of_make_token A x x ty heap hty r hr
      refine ite_elim (fun o => ∀ r : Token × Lexer × α, o = some r → r.1.type ≠ TOKEN_EOF)
        (fun _ => make_identifier_or_keyword_ne_eof A _ heap) (fun _ => ?_)
      refine ite_elim (fun o => ∀ r : Token × Lexer × α, o = some r → r.1.type ≠ TOKEN_EOF)
        (fun _ => make_number_token_ne_eof A _ heap) (fun _ => ?_)
      iterate 11
        refine ite_elim
          (fun o => ∀ r : Token × Lexer × α, o = some r → r.1.type ≠ TOKEN_EOF)
          (fun _ => hemit _ _ (by decide)) (fun _ => ?_)
      iterate 4
        refine ite_elim
          (fun o => ∀ r : Token × Lexer × α, o = some r → r.1.type ≠ TOKEN_EOF)
          (fun _ => hemit _ _ (ite_ne_eof (by decide) (by decide))) (fun _ => ?_)
      refine ite_elim (fun o => ∀ r : Token × Lexer × α, o = some r → r.1.type ≠ TOKEN_EOF)
        (fun _ => make_string_token_ne_eof A _ heap) (fun _ => ?_)
      exact fun r hr => not_eof_of_make_error_token A _ _ _ heap r hr

/-- On the terminator with `start = current`, every run of calls returns the
end-of-file token and changes nothing. -/
theorem nth_scan_eof_fixed {α : Type} (A : Allocator α) :
    ∀ (k : Nat) (l : Lexer) (heap : α), l.current ≤ l.src.length → is_at_end l = true →
      l.start = l.current →
      nth_scan A k l heap = some (⟨TOKEN_EOF, l.line, none⟩, l, heap) := by
  intro k
  induction k with
  | zero =>
    intro l heap hle he hst
    have hp : peek l = '\x00' := by simpa [is_at_end, peek] using he
    have h1 := scan_token_eof A l heap hle hp
    have hl : ({ l with start := l.current } : Lexer) = l := by
      cases l; simp only at hst; subst hst; rfl
    rw [hl] at h1
    exact h1
  | succ n ih =>
    intro l heap hle he hst
    have hp : peek l = '\x00' := by simpa [is_at_end, peek] using he
    have h1 := scan_token_eof A l heap hle hp
    have hl : ({ l with start := l.current } : Lexer) = l := by
      cases l; simp only at hst; subst hst; rfl
    rw [hl] at h1
    unfold nth_scan
    rw [h1]
    exact ih l heap hle he hst

theorem read_at_ok (l : Lexer) (i : Nat) (h : i ≤ l.src.length) :
    read_at l i = some (char_at l.src i) := by
  unfold read_at
  rw [if_pos h]

theorem cursor_checked_ok (l : Lexer) (hs : l.start ≤ l.current)
    (h : l.current ≤ l.src.length) : cursor_checked l = some l := by
  unfold cursor_checked
  rw [if_pos ⟨hs, h⟩]

theorem and_checked_some (a b : Bool) : and_checked (some a) (some b) = some (a && b) := by
  cases a <;> rfl

theorem or_checked_some (a b : Bool) : or_checked (some a) (some b) = some (a || b) := by
  cases a <;> rfl

theorem peek_checked_eq (l : Lexer) (h : l.current ≤ l.src.length) :
    peek_checked l = some (peek l) := read_at_ok l _ h

theorem is_at_end_checked_eq (l : Lexer) (h : l.current ≤ l.src.length) :
    is_at_end_checked l = some (is_at_end l) := by
  unfold is_at_end_checked
  rw [read_at_ok l _ h]
  rfl

theorem advance_checked_eq (l : Lexer) (hs : l.start ≤ l.current)
    (h : l.current < l.src.length) : advance_checked l = some (advance l) := by
  unfold advance_checked
  rw [cursor_checked_ok _ (by show l.start ≤ l.current + 1; omega)
    (by show l.current + 1 ≤ l.src.length; omega)]
  dsimp only
  rw [Nat.add_sub_cancel, read_at_ok _ _ (by show l.current ≤ l.src.length; omega)]
  rfl

theorem not_at_end_lt (l : Lexer) (he : is_at_end l = false) : l.current < l.src.length := by
  apply lt_length_of_char_at_ne
  intro h0
  simp [is_at_end, h0] at he

theorem peek_next_checked_eq (l : Lexer) (h : l.current ≤ l.src.length) :
    peek_next_checked l = some (peek_next l) := by
  unfold peek_next_checked peek_next
  rw [is_at_end_checked_eq l h]
  cases he : is_at_end l
  · have := not_at_end_lt l he
    simp only [Bool.false_eq_true, if_false]
    exact read_at_ok l _ (by omega)
  · simp

theorem match_checked_eq (l : Lexer) (expected : Char) (hs : l.start ≤ l.current)
    (h : l.current ≤ l.src.length) :
    match_checked l expected = some (match_char l expected) := by
  unfold match_checked match_char
  rw [is_at_end_checked_eq l h]
  cases he : is_at_end l
  · have hlt := not_at_end_lt l he
    simp only [Bool.false_eq_true, if_false]
    rw [read_at_ok l _ h]
    dsimp only
    by_cases hc : char_at l.src l.current ≠ expected
    · rw [if_pos hc, if_pos hc]
    · rw [if_neg hc, if_neg hc,
        cursor_checked_ok _ (by show l.start ≤ l.current + 1; omega)
          (by show l.current + 1 ≤ l.src.length; omega)]
      rfl
  · simp

theorem emit_checked_eq {α : Type} (A : Allocator α) (l : Lexer) (ty : TokenType) (heap : α)
    (hs : l.start ≤ l.current) : emit_checked A l ty heap = emit A l ty heap := by
  unfold emit_checked
  rw [if_pos hs]

/-- A checked loop agrees with the plain loop as long as the checks of its
condition and body succeed on the states the loop goes through. -/
theorem while_loop_checked_eq (I : Lexer → Prop) (cond : Lexer → Bool) (body : Lexer → Lexer)
    (condc : Lexer → Option Bool) (bodyc : Lexer → Option Lexer)
    (hc : ∀ x, I x → condc x = some (cond x))
    (hb : ∀ x, I x → cond x = true → bodyc x = some (body x) ∧ I (body x)) :
    ∀ (fuel : Nat) (l : Lexer), I l →
      while_loop_checked condc bodyc fuel l = while_loop cond body fuel l := by
  intro fuel
  induction fuel with
  | zero => intro l _; rfl
  | succ n ih =>
    intro l hI
    unfold while_loop_checked while_loop
    rw [hc l hI]
    cases hcl : cond l
    · simp
    · obtain ⟨e1, e2⟩ := hb l hI hcl
      simp only [e1, if_true]
      exact ih _ e2

theorem advance_step_checked (x : Lexer) (hs : x.start ≤ x.current)
    (h : x.current < x.src.length) :
    (advance_checked x).map (fun a => a.2) = some (advance x).2 ∧
      ((advance x).2.start ≤ (advance x).2.current ∧
        (advance x).2.current ≤ (advance x).2.src.length) := by
  rw [advance_checked_eq x hs h]
  exact ⟨rfl, by simp only [advance]; omega, by simp only [advance]; omega⟩

theorem digits_loop_checked (fuel : Nat) (l : Lexer) (hs : l.start ≤ l.current)
    (h : l.current ≤ l.src.length) :
    while_loop_checked (fun l => (peek_checked l).map isdigit)
        (fun l => (advance_checked l).map (fun a => a.2)) fuel l
      = while_loop (fun l => isdigit (peek l)) (fun l => (advance l).2) fuel l := by
  apply while_loop_checked_eq (fun x => x.start ≤ x.current ∧ x.current ≤ x.src.length)
    _ _ _ _ _ _ fuel l ⟨hs, h⟩
  · intro x hx
    rw [peek_checked_eq x hx.2]
    rfl
  · intro x hx hc
    exact advance_step_checked x hx.1 (peek_lt_length x (isdigit_ne _ hc).2)

theorem identifier_loop_checked (fuel : Nat) (l : Lexer) (hs : l.start ≤ l.current)
    (h : l.current ≤ l.src.length) :
    while_loop_checked
        (fun l => or_checked ((peek_checked l).map isalnum)
          ((peek_checked l).map (fun c => c == '_')))
        (fun l => (advance_checked l).map (fun a => a.2)) fuel l
      = while_loop (fun l => isalnum (peek l) || peek l == '_') (fun l => (advance l).2)
          fuel l := by
  apply while_loop_checked_eq (fun x => x.start ≤ x.current ∧ x.current ≤ x.src.length)
    _ _ _ _ _ _ fuel l ⟨hs, h⟩
  · intro x hx
    rw [peek_checked_eq x hx.2]
    exact or_checked_some _ _
  · intro x hx hc
    apply advance_step_checked x hx.1 (peek_lt_length x _)
    intro h0
    rw [h0] at hc
    exact absurd hc (by decide)

theorem comment_loop_checked (fuel : Nat) (l : Lexer) (hs : l.start ≤ l.current)
    (h : l.current ≤ l.src.length) :
    while_loop_checked
        (fun l => and_checked ((peek_checked l).map (fun c => c != '\n'))
          ((is_at_end_checked l).map (fun e => !e)))
        (fun l => (advance_checked l).map (fun a => a.2)) fuel l
      = while_loop (fun l => peek l != '\n' && !is_at_end l) (fun l => (advance l).2)
          fuel l := by
  apply while_loop_checked_eq (fun x => x.start ≤ x.current ∧ x.current ≤ x.src.length)
    _ _ _ _ _ _ fuel l ⟨hs, h⟩
  · intro x hx
    rw [peek_checked_eq x hx.2, is_at_end_checked_eq x hx.2]
    exact and_checked_some _ _
  · intro x hx hc
    apply advance_step_checked x hx.1 (not_at_end_lt x _)
    simp only [Bool.and_eq_true, Bool.not_eq_true'] at hc
    exact hc.2

theorem string_loop_checked (fuel : Nat) (l : Lexer) (hs : l.start ≤ l.current)
    (h : l.current ≤ l.src.length) :
    while_loop_checked
        (fun l => and_checked ((peek_checked l).map (fun c => c != '"'))
          ((is_at_end_checked l).map (fun e => !e)))
        (fun l => (peek_checked l).bind (fun c =>
          (advance_checked (if c = '\n' then { l with line := l.line + 1 } else l)).map
            (fun a => a.2))) fuel l
      = while_loop (fun l => peek l != '"' && !is_at_end l)
          (fun l => (advance (if peek l = '\n' then { l with line := l.line + 1 } else l)).2)
          fuel l := by
  apply while_loop_checked_eq (fun x => x.start ≤ x.current ∧ x.current ≤ x.src.length)
    _ _ _ _ _ _ fuel l ⟨hs, h⟩
  · intro x hx
    rw [peek_checked_eq x hx.2, is_at_end_checked_eq x hx.2]
    exact and_checked_some _ _
  · intro x hx hc
    simp only [Bool.and_eq_true, Bool.not_eq_true'] at hc
    have hlt := not_at_end_lt x hc.2
    rw [peek_checked_eq x hx.2]
    simp only [Option.some_bind]
    by_cases hn : peek x = '\n'
    · simp only [if_pos hn]
      exact advance_step_checked { x with line := x.line + 1 } hx.1 hlt
    · simp only [if_neg hn]
      exact advance_step_checked x hx.1 hlt

/-- A loop that steps over bytes in front of the terminator keeps the cursor
between `start` and the terminator. -/
theorem advance_loop_cursor (cond : Lexer → Bool)
    (hcond : ∀ x, cond x = true → x.current < x.src.length) (fuel : Nat) (l l1 : Lexer)
    (hs : l.start ≤ l.current) (h : l.current ≤ l.src.length)
    (h1 : while_loop cond (fun l => (advance l).2) fuel l = some l1) :
    l1.start ≤ l1.current ∧ l1.current ≤ l1.src.length := by
  apply while_loop_inv (fun x => x.start ≤ x.current ∧ x.current ≤ x.src.length) _ _ _
    fuel l l1 h1 ⟨hs, h⟩
  intro x hc hx
  have := hcond x hc
  simp only [advance]
  omega

theorem comment_loop_cursor (fuel : Nat) (l l1 : Lexer) (hs : l.start ≤ l.current)
    (h : l.current ≤ l.src.length)
    (h1 : while_loop (fun l => peek l != '\n' && !is_at_end l) (fun l => (advance l).2)
      fuel l = some l1) : l1.start ≤ l1.current ∧ l1.current ≤ l1.src.length := by
  apply advance_loop_cursor _ _ fuel l l1 hs h h1
  intro x hc
  simp only [Bool.and_eq_true, Bool.not_eq_true'] at hc
  exact not_at_end_lt x hc.2

theorem skip_whitespace_loop_checked_eq :
    ∀ (fuel : Nat) (l : Lexer), l.start ≤ l.current → l.current ≤ l.src.length →
      skip_whitespace_loop_checked fuel l = skip_whitespace_loop fuel l := by
  intro fuel
  induction fuel with
  | zero => intro l _ _; rfl
  | succ n ih =>
    intro l hs h
    unfold skip_whitespace_loop_checked skip_whitespace_loop
    rw [peek_checked_eq l h]
    dsimp only
    by_cases hb : peek l = ' ' ∨ peek l = '\r' ∨ peek l = '\t'
    · rw [if_pos hb, if_pos hb]
      have hlt : l.current < l.src.length :=
        peek_lt_length l (by rcases hb with h1 | h1 | h1 <;> rw [h1] <;> decide)
      rw [advance_checked_eq l hs hlt]
      exact ih _ (by simp only [advance]; omega) (by simp only [advance]; omega)
    · rw [if_neg hb, if_neg hb]
      by_cases hn : peek l = '\n'
      · rw [if_pos hn, if_pos hn]
        have hlt : l.current < l.src.length := peek_lt_length l (by rw [hn]; decide)
        rw [advance_checked_eq { l with line := l.line + 1 } hs hlt]
        exact ih _ (by simp only [advance]; omega) (by simp only [advance]; omega)
      · rw [if_neg hn, if_neg hn]
        by_cases hsl : peek l = '/'
        · rw [if_pos hsl, if_pos hsl, peek_next_checked_eq l h]
          dsimp only
          by_cases hs2 : peek_next l = '/'
          · rw [if_pos hs2, if_pos hs2, comment_loop_checked _ l hs h]
            cases hw : while_loop (fun l => peek l != '\n' && !is_at_end l)
                (fun l => (advance l).2) (loop_fuel l) l with
            | none => rfl
            | some l1 =>
              obtain ⟨c1, c2⟩ := comment_loop_cursor _ l l1 hs h hw
              exact ih l1 c1 c2
          · rw [if_neg hs2, if_neg hs2]
        · rw [if_neg hsl, if_neg hsl]

theorem skip_whitespace_checked_eq (l : Lexer) (hs : l.start ≤ l.current)
    (h : l.current ≤ l.src.length) : skip_whitespace_checked l = skip_whitespace l :=
  skip_whitespace_loop_checked_eq (loop_fuel l) l hs h

theorem make_identifier_or_keyword_checked_eq {α : Type} (A : Allocator α) (l : Lexer)
    (heap : α) (hs : l.start ≤ l.current) (h : l.current ≤ l.src.length) :
    make_identifier_or_keyword_checked A l heap = make_identifier_or_keyword A l heap := by
  unfold make_identifier_or_keyword_checked make_identifier_or_keyword
  rw [identifier_loop_checked _ l hs h]
  cases hw : while_loop (fun l => isalnum (peek l) || peek l == '_') (fun l => (advance l).2)
      (loop_fuel l) l with
  | none => rfl
  | some l1 =>
    have hc := advance_loop_cursor _
      (fun x hx => peek_lt_length x (by
        intro h0
        rw [h0] at hx
        exact absurd hx (by decide))) _ l l1 hs h hw
    dsimp only
    rw [emit_checked_eq A l1 _ heap hc.1]
    rfl

theorem make_number_token_checked_eq {α : Type} (A : Allocator α) (l : Lexer) (heap : α)
    (hs : l.start ≤ l.current) (h : l.current ≤ l.src.length) :
    make_number_token_checked A l heap = make_number_token A l heap := by
  unfold make_number_token_checked make_number_token
  rw [digits_loop_checked _ l hs h]
  cases hw : while_loop (fun l => isdigit (peek l)) (fun l => (advance l).2) (loop_fuel l) l with
  | none => rfl
  | some l1 =>
    obtain ⟨hs1, h1⟩ := advance_loop_cursor _
      (fun x hx => peek_lt_length x (isdigit_ne _ hx).2) _ l l1 hs h hw
    dsimp only
    rw [peek_checked_eq l1 h1, peek_next_checked_eq l1 h1]
    simp only [Option.map_some', and_checked_some]
    by_cases hf : peek l1 = '.' ∧ isdigit (peek_next l1) = true
    · rw [if_pos hf]
      have hlt : l1.current < l1.src.length := peek_lt_length l1 (by rw [hf.1]; decide)
      have hv : (decide (peek l1 = '.') && isdigit (peek_next l1)) = true := by
        simp [hf.1, hf.2]
      rw [hv]
      dsimp only
      rw [advance_checked_eq l1 hs1 hlt]
      dsimp only
      rw [digits_loop_checked _ (advance l1).2 (by simp only [advance]; omega)
        (by simp only [advance]; omega)]
      cases hw2 : while_loop (fun l => isdigit (peek l)) (fun l => (advance l).2)
          (loop_fuel (advance l1).2) (advance l1).2 with
      | none => rfl
      | some l2 =>
        have hc2 := advance_loop_cursor _
          (fun x hx => peek_lt_length x (isdigit_ne _ hx).2) _ (advance l1).2 l2
          (by simp only [advance]; omega) (by simp only [advance]; omega) hw2
        dsimp only
        rw [emit_checked_eq A l2 _ heap hc2.1]
        rfl
    · rw [if_neg hf]
      have hv : (decide (peek l1 = '.') && isdigit (peek_next l1)) = false := by
        rw [Bool.and_eq_false_iff]
        by_cases hp : peek l1 = '.'
        · right
          have : ¬ isdigit (peek_next l1) = true := fun hd => hf ⟨hp, hd⟩
          simpa using this
        · left
          simpa using hp
      rw [hv]
      dsimp only
      by_cases hg : peek l1 = '.' ∧ ¬ isdigit (peek_next l1) = true
      · rw [if_pos hg]
        have hv2 : (decide (peek l1 = '.') && !isdigit (peek_next l1)) = true := by
          simp [hg.1, hg.2]
        rw [hv2]
      · rw [if_neg hg]
        have hv2 : (decide (peek l1 = '.') && !isdigit (peek_next l1)) = false := by
          rw [Bool.and_eq_false_iff]
          by_cases hp : peek l1 = '.'
          · right
            have : ¬ ¬ isdigit (peek_next l1) = true := fun hd => hg ⟨hp, hd⟩
            simpa using this
          · left
            simpa using hp
        rw [hv2]
        dsimp only
        rw [emit_checked_eq A l1 _ heap hs1]
        rfl

/-- In `make_string_token`, entered with the opening quote consumed, every
check succeeds: in particular the cursor check after `start++`. -/
theorem make_string_token_checked_eq {α : Type} (A : Allocator α) (l : Lexer) (heap : α)
    (hs : l.start < l.current) (h : l.current ≤ l.src.length) :
    make_string_token_checked A l heap = make_string_token A l heap := by
  obtain ⟨l1, f1, _, f3, f4, f5, f6⟩ := string_loop_shape l h
  unfold make_string_token_checked make_string_token
  rw [string_loop_checked _ l (by omega) h, f1]
  dsimp only
  rw [is_at_end_checked_eq l1 f5]
  cases he : is_at_end l1
  · have hlt := f6 he
    simp only [Bool.false_eq_true, if_false]
    rw [cursor_checked_ok _ (by show l1.start + 1 ≤ l1.current; omega)
      (by show l1.current ≤ l1.src.length; omega)]
    dsimp only
    rw [emit_checked_eq A _ _ heap (by show l1.start + 1 ≤ l1.current; omega)]
    simp only [emit]
    rw [cursor_checked_ok _ (by show l1.start + 1 - 1 ≤ l1.current; omega)
      (by show l1.current ≤ l1.src.length; omega)]
    dsimp only
    rw [advance_checked_eq _ (by show l1.start + 1 - 1 ≤ l1.current; omega)
      (by show l1.current < l1.src.length; omega)]
  · simp

theorem match_emit_checked_eq {α : Type} (A : Allocator α) (l : Lexer) (ty1 ty2 : TokenType)
    (heap : α) (hs : l.start ≤ l.current) (h : l.current ≤ l.src.length) :
    match_emit_checked A l ty1 ty2 heap
      = emit A (match_char l '=').2 (if (match_char l '=').1 = true then ty1 else ty2) heap := by
  unfold match_emit_checked
  rw [match_checked_eq l '=' hs h]
  dsimp only
  apply emit_checked_eq
  unfold match_char
  by_cases h1 : is_at_end l = true
  · rw [if_pos h1]; exact hs
  · rw [if_neg h1]
    by_cases h2 : char_at l.src l.current ≠ '='
    · rw [if_pos h2]; exact hs
    · rw [if_neg h2]
      show l.start ≤ l.current + 1
      omega

/-- From a state with `start ≤ current` inside the buffer, `scan_token` with
its checks is `scan_token`: no read of the call goes beyond the terminating
NUL, and after every assignment to `start` or `current` the cursor has
`start ≤ current ≤ src.length`. -/
theorem scan_token_checked_eq {α : Type} (A : Allocator α) (l : Lexer) (heap : α)
    (hst : l.start ≤ l.current) (hle : l.current ≤ l.src.length) (hinv : line_inv l) :
    scan_token_checked A l heap = scan_token A l heap := by
  obtain ⟨l0, e1, _, _, _, e5, _, _⟩ := skip_whitespace_spec l hle hinv
  unfold scan_token_checked scan_token
  rw [skip_whitespace_checked_eq l hst hle, e1]
  dsimp only
  have hle1 : ({ l0 with start := l0.current } : Lexer).current
      ≤ ({ l0 with start := l0.current } : Lexer).src.length := e5
  have hst1 : ({ l0 with start := l0.current } : Lexer).start
      ≤ ({ l0 with start := l0.current } : Lexer).current := Nat.le_refl _
  rw [cursor_checked_ok _ hst1 hle1]
  dsimp only
  rw [is_at_end_checked_eq _ hle1]
  cases he : is_at_end { l0 with start := l0.current }
  · have hlt := not_at_end_lt _ he
    have hle2 : (advance { l0 with start := l0.current }).2.current
        ≤ (advance { l0 with start := l0.current }).2.src.length := by
      simp only [advance] at hlt ⊢; omega
    have hst2 : (advance { l0 with start := l0.current }).2.start
        < (advance { l0 with start := l0.current }).2.current := by
      simp only [advance]; omega
    have hst3 : (advance { l0 with start := l0.current }).2.start
        ≤ (advance { l0 with start := l0.current }).2.current := Nat.le_of_lt hst2
    simp only [Bool.false_eq_true, if_false]
    rw [advance_checked_eq _ hst1 hlt]
    dsimp only
    rw [make_identifier_or_keyword_checked_eq A _ heap hst3 hle2,
      make_number_token_checked_eq A _ heap hst3 hle2,
      make_string_token_checked_eq A _ heap hst2 hle2,
      match_emit_checked_eq A _ _ _ heap hst3 hle2, match_emit_checked_eq A _ _ _ heap hst3 hle2,
      match_emit_checked_eq A _ _ _ heap hst3 hle2, match_emit_checked_eq A _ _ _ heap hst3 hle2]
    simp only [emit_checked_eq A _ _ heap hst3]
  · simp only [if_true]
    exact emit_checked_eq A _ _ heap hst1

/-! ## Claims -/

/-- C1: for each of the 19 punctuation and operator texts, the first
`scan_token` on a lexer initialised on exactly that text returns the
corresponding kind on line 1 with a null lexeme, leaving the cursor at the end
of the text, and the second call returns `TOKEN_EOF`; no allocation is made. -/
theorem C1_punctuation_then_eof {α : Type} (A : Allocator α) (heap heap2 : α) :
    ∀ e ∈ punctuation_table,
      scan_token A (init_lexer e.1.toList) heap
          = some (⟨e.2, 1, none⟩, whole e.1.toList, heap) ∧
      scan_token A (whole e.1.toList) heap2
          = some (⟨TOKEN_EOF, 1, none⟩, at_eof e.1.toList 1, heap2) := by
  intro e he
  simp only [punctuation_table, List.mem_cons, List.mem_singleton, List.not_mem_nil,
    or_false] at he
  rcases he with rfl | rfl | rfl | rfl | rfl | rfl | rfl | rfl | rfl | rfl | rfl | rfl | rfl |
    rfl | rfl | rfl | rfl | rfl | rfl <;> exact ⟨rfl, rfl⟩

/-- Witness of C1 at the text `!=` with the raw allocator. -/
theorem C1_punctuation_then_eof_witness :
    scan_token raw_allocator (init_lexer "!=".toList) ⟨[]⟩
        = some (⟨TOKEN_BANG_EQUAL, 1, none⟩, whole "!=".toList, ⟨[]⟩) ∧
    scan_token raw_allocator (whole "!=".toList) ⟨[]⟩
        = some (⟨TOKEN_EOF, 1, none⟩, at_eof "!=".toList 1, ⟨[]⟩) :=
  C1_punctuation_then_eof raw_allocator ⟨[]⟩ ⟨[]⟩ ("!=", TOKEN_BANG_EQUAL) (by decide)

/-- C2: for each of the 21 keywords, the first `scan_token` on a lexer
initialised on exactly that keyword returns the matching keyword kind on
line 1 with a null lexeme, and the next call returns `TOKEN_EOF`. -/
theorem C2_keyword_then_eof {α : Type} (A : Allocator α) (heap heap2 : α) :
    ∀ e ∈ keyword_table,
      scan_token A (init_lexer e.1.toList) heap
          = some (⟨e.2, 1, none⟩, whole e.1.toList, heap) ∧
      scan_token A (whole e.1.toList) heap2
          = some (⟨TOKEN_EOF, 1, none⟩, at_eof e.1.toList 1, heap2) := by
  intro e he
  simp only [keyword_table, List.mem_cons, List.mem_singleton, List.not_mem_nil,
    or_false] at he
  rcases he with rfl | rfl | rfl | rfl | rfl | rfl | rfl | rfl | rfl | rfl | rfl | rfl | rfl |
    rfl | rfl | rfl | rfl | rfl | rfl | rfl | rfl <;> exact ⟨rfl, rfl⟩

/-- Witness of C2 at the keyword `continue` with the raw allocator. -/
theorem C2_keyword_then_eof_witness :
    scan_token raw_allocator (init_lexer "continue".toList) ⟨[]⟩
        = some (⟨TOKEN_CONTINUE, 1, none⟩, whole "continue".toList, ⟨[]⟩) ∧
    scan_token raw_allocator (whole "continue".toList) ⟨[]⟩
        = some (⟨TOKEN_EOF, 1, none⟩, at_eof "continue".toList 1, ⟨[]⟩) :=
  C2_keyword_then_eof raw_allocator ⟨[]⟩ ⟨[]⟩ ("continue", TOKEN_CONTINUE) (by decide)

/-- C3: for every non-empty text `c :: cs` of ASCII letters, digits and
underscores that starts with a letter or underscore and equals none of the 21
keywords, with the lexeme allocation succeeding, scanning that text returns a
`TOKEN_IDENTIFIER` token whose lexeme is the text verbatim, followed by
`TOKEN_EOF`; and at every lexer position with a non-empty lexeme the
switch-based classifier `identifier_type` agrees with the exact-text lookup
of the lexeme in the keyword table. -/
theorem C3_identifier_verbatim {α : Type} (A : Allocator α) (heap heap1 heap2 : α) (p : Nat)
    (c : Char) (cs : List Char) (hc : isalpha c = true ∨ c = '_')
    (hcs : ∀ x ∈ cs, isalnum x = true ∨ x = '_')
    (hkw : ∀ e ∈ keyword_table, e.1.toList ≠ c :: cs)
    (halloc : A.alloc heap ((c :: cs).length + 1) "TokenLexeme" = (some p, heap1)) :
    scan_token A (init_lexer (c :: cs)) heap
      = some (⟨TOKEN_IDENTIFIER, 1, some ⟨p, c :: cs⟩⟩, whole (c :: cs), heap1) ∧
    scan_token A (whole (c :: cs)) heap2
      = some (⟨TOKEN_EOF, 1, none⟩, at_eof (c :: cs) 1, heap2) ∧
    (∀ l : Lexer, l.start < l.current → l.current ≤ l.src.length →
      identifier_type l
        = keyword_lookup ((l.src.drop l.start).take (l.current - l.start))) := by
  refine ⟨?_, scan_token_eof_whole A heap2 (c :: cs) 0 1, ?_⟩
  · apply scan_identifier A heap heap1 p c cs hc hcs halloc
    by_contra hne
    obtain ⟨e, he, heq⟩ := keyword_lookup_ne (c :: cs) hne
    exact hkw e he heq
  · intro l hs hl
    rw [identifier_type_lexeme l hs hl, identifier_type_whole]

/-- Witness of C3 at the source `letter`, and of the agreement of the
classifier with the table at the lexeme `iffy` inside `x iffy`. -/
theorem C3_identifier_verbatim_witness :
    scan_token raw_allocator (init_lexer ('l' :: "etter".toList)) ⟨[some 4096]⟩
      = some (⟨TOKEN_IDENTIFIER, 1, some ⟨4096, 'l' :: "etter".toList⟩⟩,
          whole ('l' :: "etter".toList), ⟨[]⟩) ∧
    scan_token raw_allocator (whole ('l' :: "etter".toList)) ⟨[]⟩
      = some (⟨TOKEN_EOF, 1, none⟩, at_eof ('l' :: "etter".toList) 1, ⟨[]⟩) ∧
    identifier_type ⟨"x iffy".toList, 2, 6, 1⟩
      = keyword_lookup (("x iffy".toList.drop 2).take (6 - 2)) :=
  have h := C3_identifier_verbatim raw_allocator ⟨[some 4096]⟩ ⟨[]⟩ ⟨[]⟩ 4096 'l'
    "etter".toList (by decide) (by decide) (by decide) rfl
  ⟨h.1, h.2.1, h.2.2 ⟨"x iffy".toList, 2, 6, 1⟩ (by decide) (by decide)⟩

/-- C4: for non-empty digit strings `d` and `e`, with the lexeme allocation
succeeding at address `p`: scanning the source `d` returns `TOKEN_INTEGER`
with lexeme `d`, scanning the source `d.e` returns `TOKEN_FLOAT` with the
whole text `d.e` as lexeme, and in both cases the next call returns
`TOKEN_EOF`. -/
theorem C4_number_literals {α : Type} (A : Allocator α) (heap heap1 heap2 : α) (p : Nat)
    (d e : List Char) (hd : d ≠ []) (hdd : ∀ c ∈ d, isdigit c = true)
    (he : e ≠ []) (hee : ∀ c ∈ e, isdigit c = true) :
    (A.alloc heap (d.length + 1) "TokenLexeme" = (some p, heap1) →
      scan_token A (init_lexer d) heap
          = some (⟨TOKEN_INTEGER, 1, some ⟨p, d⟩⟩, whole d, heap1) ∧
      scan_token A (whole d) heap2 = some (⟨TOKEN_EOF, 1, none⟩, at_eof d 1, heap2)) ∧
    (A.alloc heap ((d ++ '.' :: e).length + 1) "TokenLexeme" = (some p, heap1) →
      scan_token A (init_lexer (d ++ '.' :: e)) heap
          = some (⟨TOKEN_FLOAT, 1, some ⟨p, d ++ '.' :: e⟩⟩, whole (d ++ '.' :: e), heap1) ∧
      scan_token A (whole (d ++ '.' :: e)) heap2
          = some (⟨TOKEN_EOF, 1, none⟩, at_eof (d ++ '.' :: e) 1, heap2)) := by
  refine ⟨fun halloc => ⟨?_, scan_token_eof_whole A heap2 d 0 1⟩,
    fun halloc => ⟨?_, scan_token_eof_whole A heap2 _ 0 1⟩⟩
  · have := scan_integer A heap heap1 p d [] hd hdd (by rw [char_at_nil]; decide)
      (by rw [char_at_nil]; decide) halloc
    simpa [whole] using this
  · have hlen : (d ++ '.' :: e).length = d.length + 1 + e.length := by
      simp only [List.length_append, List.length_cons]; omega
    rw [hlen] at halloc
    have := scan_float A heap heap1 p d e [] hd hdd he hee (by rw [char_at_nil]; decide)
      halloc
    rw [List.append_nil] at this
    rw [this, whole, hlen]

/-- Witness of C4 at `d = 3`, `e = 14` with the raw allocator. -/
theorem C4_number_literals_witness :
    (scan_token raw_allocator (init_lexer "3".toList) ⟨[some 4096]⟩
        = some (⟨TOKEN_INTEGER, 1, some ⟨4096, "3".toList⟩⟩, whole "3".toList, ⟨[]⟩) ∧
      scan_token raw_allocator (whole "3".toList) ⟨[]⟩
        = some (⟨TOKEN_EOF, 1, none⟩, at_eof "3".toList 1, ⟨[]⟩)) ∧
    (scan_token raw_allocator (init_lexer "3.14".toList) ⟨[some 4096]⟩
        = some (⟨TOKEN_FLOAT, 1, some ⟨4096, "3.14".toList⟩⟩, whole "3.14".toList, ⟨[]⟩) ∧
      scan_token raw_allocator (whole "3.14".toList) ⟨[]⟩
        = some (⟨TOKEN_EOF, 1, none⟩, at_eof "3.14".toList 1, ⟨[]⟩)) :=
  have h := C4_number_literals raw_allocator ⟨[some 4096]⟩ ⟨[]⟩ ⟨[]⟩ 4096 "3".toList
    "14".toList (by decide) (by decide) (by decide) (by decide)
  ⟨h.1 rfl, h.2 rfl⟩

/-- C5: for every source that starts with a non-empty run of digits `d`
followed by a dot whose next character is not a digit (the end of input
included), the first `scan_token` returns a `TOKEN_ERROR` token (not a
`TOKEN_INTEGER`) whose lexeme is the non-null message
`Invalid number literal`, when the message allocation succeeds. -/
theorem C5_trailing_dot_is_error {α : Type} (A : Allocator α) (heap heap1 : α) (p : Nat)
    (d rest : List Char) (hd : d ≠ []) (hdd : ∀ c ∈ d, isdigit c = true)
    (hr : isdigit (char_at rest 0) = false)
    (halloc : A.alloc heap 23 "TokenError" = (some p, heap1)) :
    scan_token A (init_lexer (d ++ '.' :: rest)) heap
      = some (⟨TOKEN_ERROR, 1, some ⟨p, "Invalid number literal".toList⟩⟩,
          ⟨d ++ '.' :: rest, 0, d.length, 1⟩, heap1) :=
  scan_number_error A heap heap1 p d rest hd hdd hr halloc

/-- Witness of C5 at the source `1.` with the raw allocator. -/
theorem C5_trailing_dot_is_error_witness :
    scan_token raw_allocator (init_lexer "1.".toList) ⟨[some 4096]⟩
      = some (⟨TOKEN_ERROR, 1, some ⟨4096, "Invalid number literal".toList⟩⟩,
          ⟨"1.".toList, 0, 1, 1⟩, ⟨[]⟩) :=
  C5_trailing_dot_is_error raw_allocator ⟨[some 4096]⟩ ⟨[]⟩ 4096 "1".toList [] (by decide)
    (by decide) (by decide) rfl

/-- C6, as stated, fails on the source `1.`: after the error token the cursor
is at index 1, on the dot, and the following call returns `TOKEN_DOT`, not
`TOKEN_EOF`. -/
theorem C6_dot_consumed_counterexample :
    scan_token raw_allocator (init_lexer "1.".toList) ⟨[some 4096]⟩
      = some (⟨TOKEN_ERROR, 1, some ⟨4096, "Invalid number literal".toList⟩⟩,
          ⟨"1.".toList, 0, 1, 1⟩, ⟨[]⟩) ∧
    char_at "1.".toList 1 = '.' ∧
    scan_token raw_allocator ⟨"1.".toList, 0, 1, 1⟩ ⟨[]⟩
      = some (⟨TOKEN_DOT, 1, none⟩, ⟨"1.".toList, 1, 2, 1⟩, ⟨[]⟩) ∧
    scan_token raw_allocator ⟨"1.".toList, 0, 1, 1⟩ ⟨[]⟩
      ≠ some (⟨TOKEN_EOF, 1, none⟩, ⟨"1.".toList, 2, 2, 1⟩, ⟨[]⟩) := by
  decide

/-- C6 amended: when `scan_token` returns the invalid-number error token for
digits `d` followed by a dot and no digit, the dot has not been consumed: the
cursor after the call is on the dot (index `d.length`), and the call after the
error token returns `TOKEN_DOT` with a null lexeme and moves the cursor past
the dot. -/
theorem C6_dot_left_for_next_token {α : Type} (A : Allocator α) (heap heap1 heap2 : α)
    (p : Nat) (d rest : List Char) (hd : d ≠ []) (hdd : ∀ c ∈ d, isdigit c = true)
    (hr : isdigit (char_at rest 0) = false)
    (halloc : A.alloc heap 23 "TokenError" = (some p, heap1)) :
    scan_token A (init_lexer (d ++ '.' :: rest)) heap
      = some (⟨TOKEN_ERROR, 1, some ⟨p, "Invalid number literal".toList⟩⟩,
          ⟨d ++ '.' :: rest, 0, d.length, 1⟩, heap1) ∧
    char_at (d ++ '.' :: rest) d.length = '.' ∧
    scan_token A ⟨d ++ '.' :: rest, 0, d.length, 1⟩ heap2
      = some (⟨TOKEN_DOT, 1, none⟩, ⟨d ++ '.' :: rest, d.length, d.length + 1, 1⟩, heap2) := by
  have hdot : char_at (d ++ '.' :: rest) d.length = '.' := by
    rw [char_at_append_length, char_at_cons_zero]
  exact ⟨scan_number_error A heap heap1 p d rest hd hdd hr halloc, hdot,
    scan_token_dot A ⟨d ++ '.' :: rest, 0, d.length, 1⟩ heap2 (by simp) hdot⟩

/-- Witness of the amended C6 at the source `1.` with the raw allocator. -/
theorem C6_dot_left_for_next_token_witness :
    scan_token raw_allocator (init_lexer "1.".toList) ⟨[some 4096]⟩
      = some (⟨TOKEN_ERROR, 1, some ⟨4096, "Invalid number literal".toList⟩⟩,
          ⟨"1.".toList, 0, 1, 1⟩, ⟨[]⟩) ∧
    char_at "1.".toList 1 = '.' ∧
    scan_token raw_allocator ⟨"1.".toList, 0, 1, 1⟩ ⟨[]⟩
      = some (⟨TOKEN_DOT, 1, none⟩, ⟨"1.".toList, 1, 2, 1⟩, ⟨[]⟩) :=
  C6_dot_left_for_next_token raw_allocator ⟨[some 4096]⟩ ⟨[]⟩ ⟨[]⟩ 4096 "1".toList []
    (by decide) (by decide) (by decide) rfl

/-- C7: for every source made of a quote followed by a text `s` without a
quote (an unterminated string; `s` is C-string text, so it holds no NUL), with
the message allocation succeeding, the
first `scan_token` returns a `TOKEN_ERROR` token whose lexeme is exactly
`Unterminated string.`, leaves the cursor at the end of the buffer, and the
next call returns `TOKEN_EOF`. -/
theorem C7_unterminated_string {α : Type} (A : Allocator α) (heap heap1 heap2 : α) (p : Nat)
    (s : List Char) (hq : ∀ c ∈ s, c ≠ '"') (hz : ∀ c ∈ s, c ≠ '\x00')
    (halloc : A.alloc heap 21 "TokenError" = (some p, heap1)) :
    scan_token A (init_lexer ('"' :: s)) heap
      = some (⟨TOKEN_ERROR, 1 + s.count '\n', some ⟨p, "Unterminated string.".toList⟩⟩,
          ⟨'"' :: s, 0, ('"' :: s).length, 1 + s.count '\n'⟩, heap1) ∧
    scan_token A ⟨'"' :: s, 0, ('"' :: s).length, 1 + s.count '\n'⟩ heap2
      = some (⟨TOKEN_EOF, 1 + s.count '\n', none⟩, at_eof ('"' :: s) (1 + s.count '\n'),
          heap2) :=
  ⟨scan_unterminated_string A heap heap1 p s hq hz halloc,
    scan_token_eof_whole A heap2 ('"' :: s) 0 (1 + s.count '\n')⟩

/-- Witness of C7 at the source `"no end` with the raw allocator. -/
theorem C7_unterminated_string_witness :
    scan_token raw_allocator (init_lexer ('"' :: "no end".toList)) ⟨[some 4096]⟩
      = some (⟨TOKEN_ERROR, 1 + "no end".toList.count '\n',
            some ⟨4096, "Unterminated string.".toList⟩⟩,
          ⟨'"' :: "no end".toList, 0, ('"' :: "no end".toList).length,
            1 + "no end".toList.count '\n'⟩, ⟨[]⟩) ∧
    scan_token raw_allocator ⟨'"' :: "no end".toList, 0, ('"' :: "no end".toList).length,
        1 + "no end".toList.count '\n'⟩ ⟨[]⟩
      = some (⟨TOKEN_EOF, 1 + "no end".toList.count '\n', none⟩,
          at_eof ('"' :: "no end".toList) (1 + "no end".toList.count '\n'), ⟨[]⟩) :=
  C7_unterminated_string raw_allocator ⟨[some 4096]⟩ ⟨[]⟩ ⟨[]⟩ 4096 "no end".toList
    (by decide) (by decide) rfl

/-- C8: for every text `s` without a quote (C-string text, so without NUL)
and every remainder `r`, with the lexeme allocation succeeding, scanning the
source `"s"r` returns a
`TOKEN_STRING` token whose lexeme is exactly `s` (both quotes excluded, the
empty `s` giving the empty lexeme), and the cursor is then at the first
character of `r`, immediately past the closing quote. -/
theorem C8_string_literal {α : Type} (A : Allocator α) (heap heap1 : α) (p : Nat)
    (s r : List Char) (hq : ∀ c ∈ s, c ≠ '"') (hz : ∀ c ∈ s, c ≠ '\x00')
    (halloc : A.alloc heap (s.length + 1) "TokenLexeme" = (some p, heap1)) :
    scan_token A (init_lexer ('"' :: s ++ '"' :: r)) heap
      = some (⟨TOKEN_STRING, 1 + s.count '\n', some ⟨p, s⟩⟩,
          ⟨'"' :: s ++ '"' :: r, 0, s.length + 2, 1 + s.count '\n'⟩, heap1) ∧
    ('"' :: s ++ '"' :: r).drop (s.length + 2) = r := by
  refine ⟨scan_string A heap heap1 p s r hq hz halloc, ?_⟩
  rw [show '"' :: s ++ '"' :: r = ('"' :: s ++ ['"']) ++ r by simp]
  exact List.drop_left' (by simp)

/-- Witness of C8 at the source `"hello" x` with the raw allocator. -/
theorem C8_string_literal_witness :
    scan_token raw_allocator (init_lexer ('"' :: "hello".toList ++ '"' :: " x".toList))
        ⟨[some 4096]⟩
      = some (⟨TOKEN_STRING, 1 + "hello".toList.count '\n', some ⟨4096, "hello".toList⟩⟩,
          ⟨'"' :: "hello".toList ++ '"' :: " x".toList, 0, "hello".toList.length + 2,
            1 + "hello".toList.count '\n'⟩, ⟨[]⟩) ∧
    ('"' :: "hello".toList ++ '"' :: " x".toList).drop ("hello".toList.length + 2)
      = " x".toList :=
  C8_string_literal raw_allocator ⟨[some 4096]⟩ ⟨[]⟩ 4096 "hello".toList " x".toList
    (by decide) (by decide) rfl

/-- C9: for every source and every `k`, the call number `k + 1` of successive
`scan_token` calls on a freshly initialised lexer returns a token whose line
is 1 plus the number of newlines in the part of the source consumed up to the
end of that token, and the lexer's line counter equals the same number; so
`x` is on line 1, `b` in `a\n\n\nb` is on line 4, and `x` after the two-line
string literal in `"line1\nline2"\nx` is on line 3. -/
theorem C9_line_counter {α : Type} (A : Allocator α) (src : List Char) (k : Nat) (heap : α) :
    (∃ r, nth_scan A k (init_lexer src) heap = some r ∧
      r.1.line = 1 + (src.take r.2.1.current).count '\n' ∧
      r.2.1.line = 1 + (src.take r.2.1.current).count '\n') ∧
    (nth_scan raw_allocator 0 (init_lexer "x".toList) ⟨[some 4096]⟩
      = some (⟨TOKEN_IDENTIFIER, 1, some ⟨4096, "x".toList⟩⟩, ⟨"x".toList, 0, 1, 1⟩, ⟨[]⟩)) ∧
    (nth_scan raw_allocator 1 (init_lexer "a\n\n\nb".toList) ⟨[some 4096, some 4112]⟩
      = some (⟨TOKEN_IDENTIFIER, 4, some ⟨4112, "b".toList⟩⟩,
          ⟨"a\n\n\nb".toList, 4, 5, 4⟩, ⟨[]⟩)) ∧
    (nth_scan raw_allocator 1 (init_lexer "\"line1\nline2\"\nx".toList)
        ⟨[some 4096, some 4112]⟩
      = some (⟨TOKEN_IDENTIFIER, 3, some ⟨4112, "x".toList⟩⟩,
          ⟨"\"line1\nline2\"\nx".toList, 14, 15, 3⟩, ⟨[]⟩)) := by
  refine ⟨?_, by decide, by decide, by decide⟩
  obtain ⟨r, hr, h1, h2, h3⟩ := nth_scan_spec A k (init_lexer src) heap
    (by simp [init_lexer]) (line_inv_init src)
  have hsrc : r.2.1.src = src := h1
  unfold line_inv at h2
  rw [hsrc] at h2
  exact ⟨r, hr, by rw [h3, h2], h2⟩

/-- C10: line comments are transparent. For every comment text `c` without a
newline (C-string text, so without NUL) and every remainder `r`, the first `scan_token` on `//c\nr` returns
the same token kind and lexeme (and leaves the same allocator state) as the
first `scan_token` on `r` alone, with a line number larger by exactly 1 and
the cursors moved by the length of the comment line; and scanning `//c`
without a trailing newline returns `TOKEN_EOF` with a null lexeme, no error
token. -/
theorem C10_line_comment_transparent {α : Type} (A : Allocator α) (heap : α)
    (c r : List Char) (hnl : ∀ x ∈ c, x ≠ '\n') (hz : ∀ x ∈ c, x ≠ '\x00') :
    (∃ t l h1, scan_token A (init_lexer r) heap = some (t, l, h1) ∧
      scan_token A (init_lexer ('/' :: '/' :: c ++ '\n' :: r)) heap
        = some (⟨t.type, t.line + 1, t.lexeme⟩,
            ⟨'/' :: '/' :: c ++ '\n' :: r, c.length + 3 + l.start, c.length + 3 + l.current,
              l.line + 1⟩, h1)) ∧
    scan_token A (init_lexer ('/' :: '/' :: c)) heap
      = some (⟨TOKEN_EOF, 1, none⟩, at_eof ('/' :: '/' :: c) 1, heap) := by
  refine ⟨?_, scan_comment_at_end A heap c hnl hz⟩
  obtain ⟨r0, hr0, _⟩ := scan_token_spec A (init_lexer r) heap (by simp [init_lexer])
    (line_inv_init r)
  refine ⟨r0.1, r0.2.1, r0.2.2, hr0, ?_⟩
  rw [scan_comment_line A heap c r hnl hz, hr0]
  simp only [Option.map_some', shift_result, bump, shift, List.length_append,
    List.length_cons, List.length_nil, List.append_assoc, List.cons_append, List.nil_append,
    List.singleton_append]
  have hsrc := (scan_token_spec A (init_lexer r) heap (by simp [init_lexer])
    (line_inv_init r))
  obtain ⟨r1, hr1, hp⟩ := hsrc
  rw [hr0] at hr1
  cases hr1
  have : r0.2.1.src = r := hp.1
  rw [this]

/-- Witness of C10 at the comment ` this is a comment` and the remainder `x`
with the raw allocator: the identifier `x` on line 2, and end-of-file for the
comment alone. -/
theorem C10_line_comment_transparent_witness :
    scan_token raw_allocator
        (init_lexer ('/' :: '/' :: " this is a comment".toList ++ '\n' :: "x".toList))
        ⟨[some 4096]⟩
      = some (⟨TOKEN_IDENTIFIER, 2, some ⟨4096, "x".toList⟩⟩,
          ⟨'/' :: '/' :: " this is a comment".toList ++ '\n' :: "x".toList, 21, 22, 2⟩,
          ⟨[]⟩) ∧
    scan_token raw_allocator (init_lexer ('/' :: '/' :: " this is a comment".toList))
        ⟨[some 4096]⟩
      = some (⟨TOKEN_EOF, 1, none⟩, at_eof ('/' :: '/' :: " this is a comment".toList) 1,
          ⟨[some 4096]⟩) := by
  obtain ⟨⟨t, l, h1, e1, e2⟩, e3⟩ := C10_line_comment_transparent raw_allocator
    ⟨[some 4096]⟩ " this is a comment".toList "x".toList (by decide) (by decide)
  have e0 : scan_token raw_allocator (init_lexer "x".toList) ⟨[some 4096]⟩
      = some (⟨TOKEN_IDENTIFIER, 1, some ⟨4096, "x".toList⟩⟩, ⟨"x".toList, 0, 1, 1⟩,
          ⟨[]⟩) := by decide
  rw [e0] at e1
  simp only [Option.some.injEq, Prod.mk.injEq] at e1
  obtain ⟨rfl, rfl, rfl⟩ := e1
  exact ⟨e2, e3⟩

/-- C11: for every source whose first non-skipped character `c` (the byte
under the cursor after `skip_whitespace`, not the terminating NUL) is not an
ASCII letter, digit, underscore, quote, nor one of the 15 punctuation and
operator characters, with the message allocation succeeding, `scan_token`
returns a `TOKEN_ERROR` token whose lexeme is exactly the 25-character text
`Unexpected character 'c'.` with `c` embedded verbatim and untruncated, and
exactly that one character is consumed. -/
theorem C11_unexpected_character {α : Type} (A : Allocator α) (l l0 : Lexer)
    (heap heap1 : α) (p : Nat) (c : Char) (hskip : skip_whitespace l = some l0)
    (hc : peek l0 = c) (hnz : c ≠ '\x00') (halpha : isalpha c = false)
    (hdigit : isdigit c = false)
    (hother : c ∉ ['_', '"', '(', ')', '{', '}', '[', ']', ';', ',', '.', ':', '^', '!',
      '=', '>', '<'])
    (halloc : A.alloc heap 26 "TokenError" = (some p, heap1)) :
    scan_token A l heap
      = some (⟨TOKEN_ERROR, l0.line,
            some ⟨p, "Unexpected character '".toList ++ c :: "'.".toList⟩⟩,
          ⟨l0.src, l0.current, l0.current + 1, l0.line⟩, heap1) ∧
    ("Unexpected character '".toList ++ c :: "'.".toList).length = 25 :=
  ⟨scan_unexpected A l l0 heap heap1 p c hskip hc hnz halpha hdigit hother halloc, rfl⟩

/-- Witness of C11 at the source ` @` with the raw allocator. -/
theorem C11_unexpected_character_witness :
    scan_token raw_allocator (init_lexer " @".toList) ⟨[some 4096]⟩
      = some (⟨TOKEN_ERROR, 1,
            some ⟨4096, "Unexpected character '".toList ++ '@' :: "'.".toList⟩⟩,
          ⟨" @".toList, 1, 1 + 1, 1⟩, ⟨[]⟩) ∧
    ("Unexpected character '".toList ++ '@' :: "'.".toList).length = 25 :=
  C11_unexpected_character raw_allocator (init_lexer " @".toList) ⟨" @".toList, 0, 1, 1⟩
    ⟨[some 4096]⟩ ⟨[]⟩ 4096 '@' (by decide) (by decide) (by decide) (by decide) (by decide)
    (by decide) rfl

/-- C12: every `scan_token` call in a reachable lexer state returns a token
whose lexeme is null unless its kind is one of identifier, string, integer,
float, error (so punctuation, operator, keyword and end-of-file tokens always
have a null lexeme); and when the allocator answers every request made in the
state of the call, the lexeme is non-null if and only if the kind is one of
those five. -/
theorem C12_lexeme_iff_kind {α : Type} (A : Allocator α) (src : List Char) (l : Lexer)
    (heap : α) (hr : Reachable A src l) :
    ∃ r, scan_token A l heap = some r ∧
      (r.1.lexeme ≠ none → carries_lexeme r.1.type) ∧
      ((∀ n tag, (A.alloc heap n tag).1 ≠ none) →
        (r.1.lexeme ≠ none ↔ carries_lexeme r.1.type)) := by
  obtain ⟨_, hle, hinv⟩ := reachable_good A src l hr
  obtain ⟨r, hs, _⟩ := scan_token_spec A l heap hle hinv
  have h := scan_token_rule A l heap r hs
  exact ⟨r, hs, h.1, fun hall => ⟨h.1, h.2 hall⟩⟩

/-- Witness of C12 in the state reached after the identifier of `x=1`: the
next token `=` has a null lexeme and is not of a kind that carries text. -/
theorem C12_lexeme_iff_kind_witness :
    scan_token raw_allocator ⟨"x=1".toList, 0, 1, 1⟩ ⟨[some 5000]⟩
      = some (⟨TOKEN_EQUAL, 1, none⟩, ⟨"x=1".toList, 1, 2, 1⟩, ⟨[some 5000]⟩) ∧
    ((none : Option Lexeme) ≠ none ↔ carries_lexeme TOKEN_EQUAL) := by
  have e0 : scan_token raw_allocator ⟨"x=1".toList, 0, 1, 1⟩ ⟨[some 5000]⟩
      = some (⟨TOKEN_EQUAL, 1, none⟩, ⟨"x=1".toList, 1, 2, 1⟩, ⟨[some 5000]⟩) := by decide
  have hreach : Reachable raw_allocator "x=1".toList ⟨"x=1".toList, 0, 1, 1⟩ :=
    Reachable.step (init_lexer "x=1".toList) ⟨[some 4096]⟩
      (⟨TOKEN_IDENTIFIER, 1, some ⟨4096, "x".toList⟩⟩, ⟨"x=1".toList, 0, 1, 1⟩, ⟨[]⟩)
      Reachable.init (by decide)
  obtain ⟨r, hs, _, hiff⟩ := C12_lexeme_iff_kind raw_allocator "x=1".toList
    ⟨"x=1".toList, 0, 1, 1⟩ ⟨[some 5000]⟩ hreach
  rw [e0] at hs
  cases hs
  exact ⟨e0, hiff (fun n tag => by simp [raw_allocator, raw_alloc, malloc])⟩

/-- C13: `scan_token` always makes progress and terminates. In every
reachable lexer state of a source it returns one token, with the cursor still
inside the buffer, and either the token is `TOKEN_EOF` and the cursor is on
the end sentinel, or the cursor has strictly advanced; hence on a source of
length `n` the call number `n + 1` returns `TOKEN_EOF`, error tokens
included. -/
theorem C13_progress_and_termination {α : Type} (A : Allocator α) (src : List Char)
    (l : Lexer) (heap : α) (hr : Reachable A src l) :
    (∃ r, scan_token A l heap = some r ∧ r.2.1.src = src ∧
      l.current ≤ r.2.1.current ∧ r.2.1.current ≤ src.length ∧
      ((r.1.type = TOKEN_EOF ∧ is_at_end r.2.1 = true) ∨ l.current < r.2.1.current)) ∧
    (∃ r, nth_scan A src.length (init_lexer src) heap = some r ∧ r.1.type = TOKEN_EOF) := by
  obtain ⟨hsrc, hle, hinv⟩ := reachable_good A src l hr
  constructor
  · obtain ⟨r, hs, hp, hcase⟩ := scan_token_progress A l heap hle hinv
    have h1 : r.2.1.src = src := hp.1.trans hsrc
    refine ⟨r, hs, h1, hp.2.1, ?_, hcase⟩
    rw [← h1]
    exact hp.2.2.1
  · exact nth_scan_eof A src.length (init_lexer src) heap (by simp [init_lexer])
      (line_inv_init src) (by simp [init_lexer])

/-- Witness of C13 on the source `1. @`, which scans as error, dot, error:
the call in the state after the first error token returns, and the call
number 5 returns end-of-file. -/
theorem C13_progress_and_termination_witness :
    (scan_token raw_allocator ⟨"1. @".toList, 0, 1, 1⟩ ⟨[]⟩).isSome = true ∧
    (nth_scan raw_allocator "1. @".toList.length (init_lexer "1. @".toList) ⟨[]⟩).map
      (fun r => r.1.type) = some TOKEN_EOF := by
  have hreach : Reachable raw_allocator "1. @".toList ⟨"1. @".toList, 0, 1, 1⟩ :=
    Reachable.step (init_lexer "1. @".toList) ⟨[]⟩
      (⟨TOKEN_ERROR, 1, none⟩, ⟨"1. @".toList, 0, 1, 1⟩, ⟨[]⟩) Reachable.init (by decide)
  obtain ⟨⟨r, hs, _⟩, ⟨r2, hs2, hty⟩⟩ := C13_progress_and_termination raw_allocator
    "1. @".toList ⟨"1. @".toList, 0, 1, 1⟩ ⟨[]⟩ hreach
  rw [hs, hs2]
  exact ⟨rfl, by rw [Option.map_some', hty]⟩

/-- C14 fails on the code: `token_type_to_string` has no case for the twelve
arithmetic kinds `TOKEN_PLUS` .. `TOKEN_REM_EQUAL` of the enumeration, so the
distinct values `TOKEN_PLUS` and `TOKEN_MINUS` both get the name
`TOKEN_UNKNOWN` of the `default` branch, which is not the enumerator
identifier of either; `TOKEN_EOF` and `TOKEN_RETURN` are named by their
identifiers. -/
theorem C14_token_names_collide :
    TOKEN_PLUS ≠ TOKEN_MINUS ∧
    token_type_to_string TOKEN_PLUS = "TOKEN_UNKNOWN" ∧
    token_type_to_string TOKEN_MINUS = "TOKEN_UNKNOWN" ∧
    token_type_to_string TOKEN_PLUS = token_type_to_string TOKEN_MINUS ∧
    token_type_to_string TOKEN_PLUS ≠ "TOKEN_PLUS" ∧
    token_type_to_string TOKEN_EOF = "TOKEN_EOF" ∧
    token_type_to_string TOKEN_RETURN = "TOKEN_RETURN" := by
  decide

/-- C15, as stated, fails when `tracing_alloc` gets its block but the `malloc`
of the ledger node returns `NULL`: the call returns the address 4096, counts
the 8 bytes, and prepends no entry to the ledger. -/
theorem C15_no_entry_counterexample :
    tracing_alloc 64 fresh_context ⟨[some 4096, none]⟩ 8 "integer"
      = (some 4096,
          ⟨[], [⟨"Allocated %zu bytes for %s at %p",
            [LogArg.zu 8, LogArg.s "integer", LogArg.p (some 4096)]⟩], 8, 0⟩, ⟨[]⟩) ∧
    (tracing_alloc 64 fresh_context ⟨[some 4096, none]⟩ 8 "integer").2.1.head
      ≠ [⟨4096, 8, "integer"⟩] := by
  decide

/-- C15 amended: for every tracing context, size and tag, a `tracing_alloc`
that returns the address `p` and whose ledger-node allocation also succeeds
prepends exactly one entry `{p, size, tag}` at the head of the ledger, with
all earlier entries unchanged and in the same order behind it, increases
`allocated` by `size` in `size_t` arithmetic (by exactly `size` when the sum
fits `w` bits), leaves `freed` unchanged and writes the `Allocated` line. -/
theorem C15_tracing_alloc_prepends (w : Nat) (tc : TracingContext) (heap heap1 heap2 : Heap)
    (size p q : Nat) (tag : String) (h1 : malloc heap size = (some p, heap1))
    (h2 : malloc heap1 (sizeof_AllocLog w) = (some q, heap2)) :
    (tracing_alloc w tc heap size tag).1 = some p ∧
    (tracing_alloc w tc heap size tag).2.1.head = ⟨p, size, tag⟩ :: tc.head ∧
    (tracing_alloc w tc heap size tag).2.1.allocated = (tc.allocated + size) % 2 ^ w ∧
    (tc.allocated + size < 2 ^ w →
      (tracing_alloc w tc heap size tag).2.1.allocated = tc.allocated + size) ∧
    (tracing_alloc w tc heap size tag).2.1.freed = tc.freed ∧
    (tracing_alloc w tc heap size tag).2.1.sink
      = tc.sink ++ [⟨"Allocated %zu bytes for %s at %p",
          [LogArg.zu size, LogArg.s tag, LogArg.p (some p)]⟩] := by
  rw [tracing_alloc_ok w tc heap heap1 heap2 size p q tag h1 h2]
  exact ⟨rfl, rfl, rfl, fun h => Nat.mod_eq_of_lt h, rfl, rfl⟩

/-- Witness of the amended C15: a second allocation of 11 bytes on a context
that already tracks one block. -/
theorem C15_tracing_alloc_prepends_witness :
    (tracing_alloc 64 ⟨[⟨4096, 8, "integer"⟩], [], 8, 0⟩ ⟨[some 5000, some 9000]⟩ 11
        "string").1 = some 5000 ∧
    (tracing_alloc 64 ⟨[⟨4096, 8, "integer"⟩], [], 8, 0⟩ ⟨[some 5000, some 9000]⟩ 11
        "string").2.1.head = [⟨5000, 11, "string"⟩, ⟨4096, 8, "integer"⟩] ∧
    (tracing_alloc 64 ⟨[⟨4096, 8, "integer"⟩], [], 8, 0⟩ ⟨[some 5000, some 9000]⟩ 11
        "string").2.1.allocated = 19 ∧
    (tracing_alloc 64 ⟨[⟨4096, 8, "integer"⟩], [], 8, 0⟩ ⟨[some 5000, some 9000]⟩ 11
        "string").2.1.freed = 0 :=
  have h := C15_tracing_alloc_prepends 64 ⟨[⟨4096, 8, "integer"⟩], [], 8, 0⟩
    ⟨[some 5000, some 9000]⟩ ⟨[some 9000]⟩ ⟨[]⟩ 11 5000 9000 "string" rfl rfl
  ⟨h.1, h.2.1, h.2.2.2.1 (by decide), h.2.2.2.2.1⟩

/-- C16: for every tracing context whose ledger holds an entry for the address
`p`, `tracing_free(p, size, tag)` removes exactly one entry, the first one
from the head whose address is `p`: the ledger splits into the entries in
front of it (none with address `p`), that entry, and the entries behind it,
and the new ledger is the front followed by the back, unchanged and in the
same order; `freed` grows by `size` in `size_t` arithmetic (by exactly `size`
when the sum fits `w` bits), `allocated` and the heap are unchanged. -/
theorem C16_tracing_free_unlinks_one (w : Nat) (tc : TracingContext) (heap : Heap)
    (p size : Nat) (tag : String) (hmem : ∃ e ∈ tc.head, e.ptr = p) :
    tc.head = tc.head.takeWhile (fun e => e.ptr != p)
      ++ tc.head.dropWhile (fun e => e.ptr != p) ∧
    (∀ e ∈ tc.head.takeWhile (fun e => e.ptr != p), e.ptr ≠ p) ∧
    ((tc.head.dropWhile (fun e => e.ptr != p)).head?).map (fun e => e.ptr) = some p ∧
    (tracing_free w tc heap (some p) size tag).1.head
      = tc.head.takeWhile (fun e => e.ptr != p)
        ++ (tc.head.dropWhile (fun e => e.ptr != p)).tail ∧
    (tracing_free w tc heap (some p) size tag).1.freed = (tc.freed + size) % 2 ^ w ∧
    (tc.freed + size < 2 ^ w →
      (tracing_free w tc heap (some p) size tag).1.freed = tc.freed + size) ∧
    (tracing_free w tc heap (some p) size tag).1.allocated = tc.allocated ∧
    (tracing_free w tc heap (some p) size tag).2 = heap := by
  refine ⟨(List.takeWhile_append_dropWhile _ _).symm, ?_, dropWhile_head_of_mem p tc.head hmem,
    unlink_first_eq p tc.head, rfl, fun h => Nat.mod_eq_of_lt h, rfl, rfl⟩
  intro e he
  have := List.mem_takeWhile_imp he
  simpa using this

/-- Witness of C16: releasing the middle one of three tracked blocks. -/
theorem C16_tracing_free_unlinks_one_witness :
    (tracing_free 64 ⟨[⟨3, 4, "b"⟩, ⟨2, 11, "string"⟩, ⟨1, 8, "integer"⟩], [], 23, 0⟩ ⟨[]⟩
        (some 2) 11 "string").1.head = [⟨3, 4, "b"⟩, ⟨1, 8, "integer"⟩] ∧
    (tracing_free 64 ⟨[⟨3, 4, "b"⟩, ⟨2, 11, "string"⟩, ⟨1, 8, "integer"⟩], [], 23, 0⟩ ⟨[]⟩
        (some 2) 11 "string").1.freed = 11 ∧
    (tracing_free 64 ⟨[⟨3, 4, "b"⟩, ⟨2, 11, "string"⟩, ⟨1, 8, "integer"⟩], [], 23, 0⟩ ⟨[]⟩
        (some 2) 11 "string").1.allocated = 23 :=
  have h := C16_tracing_free_unlinks_one 64
    ⟨[⟨3, 4, "b"⟩, ⟨2, 11, "string"⟩, ⟨1, 8, "integer"⟩], [], 23, 0⟩ ⟨[]⟩ 2 11 "string"
    ⟨⟨2, 11, "string"⟩, by decide, rfl⟩
  ⟨h.2.2.2.1, h.2.2.2.2.2.1 (by decide), h.2.2.2.2.2.2.1⟩

/-- C17 fails on the code: `tracing_realloc` on a non-null pointer never
returns an address, its last statement being `return NULL;`. On a context
that tracks the block 4096 of 8 bytes, growing it to 24 bytes allocates the
new block 5000, records it in the ledger, releases 4096, and returns null
instead of 5000. -/
theorem C17_tracing_realloc_returns_null :
    (∀ (w : Nat) (tc : TracingContext) (heap : Heap) (p old_size new_size : Nat)
        (tag : String),
      (tracing_realloc w tc heap (some p) old_size new_size tag).1 = none) ∧
    tracing_realloc 64 ⟨[⟨4096, 8, "test"⟩], [], 8, 0⟩ ⟨[some 5000, some 9000]⟩
        (some 4096) 8 24 "test"
      = (none,
          ⟨[⟨5000, 24, "test"⟩],
            [⟨"Allocated %zu bytes for %s at %p",
                [LogArg.zu 24, LogArg.s "test", LogArg.p (some 5000)]⟩,
              ⟨"Freed %zu bytes for %s at %p",
                [LogArg.zu 8, LogArg.s "test", LogArg.p (some 4096)]⟩], 32, 8⟩, ⟨[]⟩) := by
  refine ⟨?_, by decide⟩
  intro w tc heap p old_size new_size tag
  unfold tracing_realloc
  dsimp only
  by_cases hz : new_size = 0
  · rw [if_pos hz]
  · rw [if_neg hz]
    rcases tracing_alloc w tc heap new_size tag with ⟨_ | q, tc1, heap1⟩ <;> rfl

/-- C18: for every tracing context, `old_size`, `new_size` and tag,
`tracing_realloc(NULL, old_size, new_size, tag)` has exactly the return value
and the effect on the ledger, the counters, the sink and the heap of
`tracing_alloc(new_size, tag)`. -/
theorem C18_realloc_null_is_alloc (w : Nat) (tc : TracingContext) (heap : Heap)
    (old_size new_size : Nat) (tag : String) :
    tracing_realloc w tc heap none old_size new_size tag
      = tracing_alloc w tc heap new_size tag :=
  rfl

/-- C19: for every tracing context, every non-null pointer `p` and every
`old_size` and tag, `tracing_realloc(p, old_size, 0, tag)` returns null and
has exactly the effect on the ledger, the counters, the sink and the heap of
`tracing_free(p, old_size, tag)`. -/
theorem C19_realloc_zero_is_free (w : Nat) (tc : TracingContext) (heap : Heap)
    (p old_size : Nat) (tag : String) :
    tracing_realloc w tc heap (some p) old_size 0 tag
      = (none, (tracing_free w tc heap (some p) old_size tag).1,
          (tracing_free w tc heap (some p) old_size tag).2) :=
  rfl

/-- C20: starting from a fresh tracing context, for every size `N` (a `size_t`
value) a `tracing_alloc(N, tag)` that returns `p`, followed by
`tracing_free(p, N, tag)`, leaves `allocated = N`, `freed = N` and an empty
ledger; `dump_memory_leaks` called right after writes the header, the
no-leaks line, no `Leaked` line, the two totals `N`, a leaked amount of 0 and
the closing line. -/
theorem C20_alloc_free_balanced (w N p : Nat) (tag : String) (heap heap1 : Heap)
    (hN : N < 2 ^ w) (h1 : malloc heap N = (some p, heap1)) :
    (tracing_alloc w fresh_context heap N tag).1 = some p ∧
    (tracing_free w (tracing_alloc w fresh_context heap N tag).2.1
        (tracing_alloc w fresh_context heap N tag).2.2 (some p) N tag).1
      = ⟨[], [⟨"Allocated %zu bytes for %s at %p",
              [LogArg.zu N, LogArg.s tag, LogArg.p (some p)]⟩,
            ⟨"Freed %zu bytes for %s at %p",
              [LogArg.zu N, LogArg.s tag, LogArg.p (some p)]⟩], N, N⟩ ∧
    dump_memory_leaks w
        (tracing_free w (tracing_alloc w fresh_context heap N tag).2.1
          (tracing_alloc w fresh_context heap N tag).2.2 (some p) N tag).1
      = ⟨[], [⟨"Allocated %zu bytes for %s at %p",
              [LogArg.zu N, LogArg.s tag, LogArg.p (some p)]⟩,
            ⟨"Freed %zu bytes for %s at %p",
              [LogArg.zu N, LogArg.s tag, LogArg.p (some p)]⟩,
            ⟨"--- MEMORY LEAK REPORT ---", []⟩,
            ⟨"No memory leaks detected! All memory is accounted for :)", []⟩,
            ⟨"Total allocated: %zu bytes", [LogArg.zu N]⟩,
            ⟨"Total freed:     %zu bytes", [LogArg.zu N]⟩,
            ⟨"Memory leaked:   %zu bytes", [LogArg.zu 0]⟩,
            ⟨"--------------------------", []⟩], N, N⟩ := by
  refine ⟨?_, alloc_then_free_fresh w N p tag heap heap1 hN h1, ?_⟩
  · unfold tracing_alloc
    simp only [h1]
  · rw [alloc_then_free_fresh w N p tag heap heap1 hN h1, dump_balanced_empty]
    rfl

/-- Witness of C20 at `N = 11` with `w = 64`. -/
theorem C20_alloc_free_balanced_witness :
    (tracing_alloc 64 fresh_context ⟨[some 4096, some 9000]⟩ 11 "string").1 = some 4096 ∧
    (tracing_free 64 (tracing_alloc 64 fresh_context ⟨[some 4096, some 9000]⟩ 11 "string").2.1
        (tracing_alloc 64 fresh_context ⟨[some 4096, some 9000]⟩ 11 "string").2.2
        (some 4096) 11 "string").1
      = ⟨[], [⟨"Allocated %zu bytes for %s at %p",
              [LogArg.zu 11, LogArg.s "string", LogArg.p (some 4096)]⟩,
            ⟨"Freed %zu bytes for %s at %p",
              [LogArg.zu 11, LogArg.s "string", LogArg.p (some 4096)]⟩], 11, 11⟩ ∧
    dump_memory_leaks 64
        (tracing_free 64
          (tracing_alloc 64 fresh_context ⟨[some 4096, some 9000]⟩ 11 "string").2.1
          (tracing_alloc 64 fresh_context ⟨[some 4096, some 9000]⟩ 11 "string").2.2
          (some 4096) 11 "string").1
      = ⟨[], [⟨"Allocated %zu bytes for %s at %p",
              [LogArg.zu 11, LogArg.s "string", LogArg.p (some 4096)]⟩,
            ⟨"Freed %zu bytes for %s at %p",
              [LogArg.zu 11, LogArg.s "string", LogArg.p (some 4096)]⟩,
            ⟨"--- MEMORY LEAK REPORT ---", []⟩,
            ⟨"No memory leaks detected! All memory is accounted for :)", []⟩,
            ⟨"Total allocated: %zu bytes", [LogArg.zu 11]⟩,
            ⟨"Total freed:     %zu bytes", [LogArg.zu 11]⟩,
            ⟨"Memory leaked:   %zu bytes", [LogArg.zu 0]⟩,
            ⟨"--------------------------", []⟩], 11, 11⟩ :=
  C20_alloc_free_balanced 64 11 4096 "string" ⟨[some 4096, some 9000]⟩
    ⟨[some 9000]⟩ (by decide) rfl

/-- C21: on a fresh tracing context, after any sequence of `tracing_alloc` and
`tracing_free` calls in which every `tracing_alloc` returns a non-null address,
`allocated` is the sum of the sizes passed to `tracing_alloc` and `freed` is
the sum of the sizes passed to `tracing_free`, both in `size_t` arithmetic
(modulo `2 ^ w`, hence the plain sums whenever these fit in a `size_t`), and
a following `dump_memory_leaks` leaves both counters as they are. -/
theorem C21_counters_are_sums (w : Nat) (ops : List TraceOp) (heap : Heap)
    (h : allocs_succeed w ops (fresh_context, heap) = true) :
    (run_ops w ops (fresh_context, heap)).1.allocated = alloc_sum ops % 2 ^ w ∧
      (run_ops w ops (fresh_context, heap)).1.freed = free_sum ops % 2 ^ w ∧
      (alloc_sum ops < 2 ^ w →
        (run_ops w ops (fresh_context, heap)).1.allocated = alloc_sum ops) ∧
      (free_sum ops < 2 ^ w → (run_ops w ops (fresh_context, heap)).1.freed = free_sum ops) ∧
      (dump_memory_leaks w (run_ops w ops (fresh_context, heap)).1).allocated
        = (run_ops w ops (fresh_context, heap)).1.allocated ∧
      (dump_memory_leaks w (run_ops w ops (fresh_context, heap)).1).freed
        = (run_ops w ops (fresh_context, heap)).1.freed := by
  have hpos : 0 < 2 ^ w := Nat.pow_pos (by decide)
  obtain ⟨h1, h2⟩ := run_ops_counters w ops (fresh_context, heap) h
  obtain ⟨h3, h4⟩ := run_ops_lt w ops (fresh_context, heap) h hpos hpos
  rw [Nat.mod_eq_of_lt h3] at h1
  rw [Nat.mod_eq_of_lt h4] at h2
  have e1 : (run_ops w ops (fresh_context, heap)).1.allocated = alloc_sum ops % 2 ^ w := by
    rw [h1]; simp [fresh_context]
  have e2 : (run_ops w ops (fresh_context, heap)).1.freed = free_sum ops % 2 ^ w := by
    rw [h2]; simp [fresh_context]
  refine ⟨e1, e2, fun hlt => ?_, fun hlt => ?_, ?_, ?_⟩
  · rw [e1, Nat.mod_eq_of_lt hlt]
  · rw [e2, Nat.mod_eq_of_lt hlt]
  · rw [dump_memory_leaks_eq]
  · rw [dump_memory_leaks_eq]

/-- Witness for C21, the run of `test_allocator.c`: alloc 8, alloc 11, free 11,
then the report, with `allocated = 19` and `freed = 11`. -/
theorem C21_counters_are_sums_witness :
    (dump_memory_leaks 64 (run_ops 64
        [TraceOp.alloc 8 "integer", TraceOp.alloc 11 "string",
          TraceOp.free (some 5000) 11 "string"]
        (fresh_context, ⟨[some 4096, some 9000, some 5000, some 9100]⟩)).1).allocated = 19 ∧
      (dump_memory_leaks 64 (run_ops 64
        [TraceOp.alloc 8 "integer", TraceOp.alloc 11 "string",
          TraceOp.free (some 5000) 11 "string"]
        (fresh_context, ⟨[some 4096, some 9000, some 5000, some 9100]⟩)).1).freed = 11 :=
  have h := C21_counters_are_sums 64
    [TraceOp.alloc 8 "integer", TraceOp.alloc 11 "string", TraceOp.free (some 5000) 11 "string"]
    ⟨[some 4096, some 9000, some 5000, some 9100]⟩ (by decide)
  ⟨h.2.2.2.2.1.trans (h.2.2.1 (by decide)), h.2.2.2.2.2.trans (h.2.2.2.1 (by decide))⟩

/-- C22, as stated, fails: a `tracing_alloc` that returns the address 4096 but
does not obtain its ledger node is a successful allocation that is never
released, and the report that follows itemises nothing and emits the no-leaks
line. -/
theorem C22_unlisted_allocation_counterexample :
    (tracing_alloc 64 fresh_context ⟨[some 4096, none]⟩ 8 "integer").1 = some 4096 ∧
      (dump_memory_leaks 64
          (tracing_alloc 64 fresh_context ⟨[some 4096, none]⟩ 8 "integer").2.1).sink
        = [⟨"Allocated %zu bytes for %s at %p",
              [LogArg.zu 8, LogArg.s "integer", LogArg.p (some 4096)]⟩,
            ⟨"--- MEMORY LEAK REPORT ---", []⟩,
            ⟨"No memory leaks detected! All memory is accounted for :)", []⟩,
            ⟨"Total allocated: %zu bytes", [LogArg.zu 8]⟩,
            ⟨"Total freed:     %zu bytes", [LogArg.zu 0]⟩,
            ⟨"Memory leaked:   %zu bytes", [LogArg.zu 8]⟩,
            ⟨"--------------------------", []⟩] := by
  decide

/-- C22 (amended): for every tracing context the report holds, between its
header and its summary, exactly one `Leaked` line per ledger entry in ledger
order from the head (the no-leaks line when the ledger is empty); and after a
sequence of `tracing_alloc` calls that each obtain their block and their
ledger node, with no releases, the ledger is the list of these allocations
most recent first in front of the old entries, so the itemised lines list
them in reverse allocation order, each with its own size, tag and address. -/
theorem C22_leak_lines_in_ledger_order (w : Nat) (tc : TracingContext)
    (reqs : List (Nat × String)) (addrs : List (Nat × Nat)) (rest : List (Option Nat))
    (hlen : addrs.length = reqs.length) (hne : reqs ≠ []) :
    (dump_memory_leaks w tc).sink
        = tc.sink ++ [⟨"--- MEMORY LEAK REPORT ---", []⟩]
            ++ (if tc.head = [] then
                  [⟨"No memory leaks detected! All memory is accounted for :)", []⟩]
                else tc.head.map leak_line)
            ++ [⟨"Total allocated: %zu bytes", [LogArg.zu tc.allocated]⟩,
                ⟨"Total freed:     %zu bytes", [LogArg.zu tc.freed]⟩,
                ⟨"Memory leaked:   %zu bytes",
                  [LogArg.zu (((tc.allocated : Int) - (tc.freed : Int)) % (2 : Int) ^ w).toNat]⟩,
                ⟨"--------------------------", []⟩] ∧
      (run_allocs w reqs (tc, ⟨script_of addrs rest⟩)).1.head
        = (entries_of reqs addrs).reverse ++ tc.head ∧
      (dump_memory_leaks w (run_allocs w reqs (tc, ⟨script_of addrs rest⟩)).1).sink
        = (run_allocs w reqs (tc, ⟨script_of addrs rest⟩)).1.sink
            ++ [⟨"--- MEMORY LEAK REPORT ---", []⟩]
            ++ ((entries_of reqs addrs).reverse.map leak_line ++ tc.head.map leak_line)
            ++ [⟨"Total allocated: %zu bytes",
                  [LogArg.zu (run_allocs w reqs (tc, ⟨script_of addrs rest⟩)).1.allocated]⟩,
                ⟨"Total freed:     %zu bytes",
                  [LogArg.zu (run_allocs w reqs (tc, ⟨script_of addrs rest⟩)).1.freed]⟩,
                ⟨"Memory leaked:   %zu bytes",
                  [LogArg.zu
                    ((((run_allocs w reqs (tc, ⟨script_of addrs rest⟩)).1.allocated : Int)
                      - ((run_allocs w reqs (tc, ⟨script_of addrs rest⟩)).1.freed : Int))
                        % (2 : Int) ^ w).toNat]⟩,
                ⟨"--------------------------", []⟩] := by
  obtain ⟨e1, _⟩ := run_allocs_script w reqs addrs rest tc hlen
  refine ⟨by rw [dump_memory_leaks_eq], e1, ?_⟩
  have hhead : (run_allocs w reqs (tc, ⟨script_of addrs rest⟩)).1.head ≠ [] := by
    rw [e1]
    cases reqs with
    | nil => exact absurd rfl hne
    | cons a reqs =>
      cases addrs with
      | nil => simp at hlen
      | cons p more => simp [entries_of]
  rw [dump_memory_leaks_eq, if_neg hhead, e1, List.map_append]

/-- Witness for C22: two allocations on a fresh context, 8 bytes "integer" at
4096 and then 11 bytes "string" at 5000; the report itemises the string
first. -/
theorem C22_leak_lines_in_ledger_order_witness :
    (dump_memory_leaks 64 (run_allocs 64 [(8, "integer"), (11, "string")]
        (fresh_context, ⟨script_of [(4096, 9000), (5000, 9100)] []⟩)).1).sink
      = [⟨"Allocated %zu bytes for %s at %p",
            [LogArg.zu 8, LogArg.s "integer", LogArg.p (some 4096)]⟩,
          ⟨"Allocated %zu bytes for %s at %p",
            [LogArg.zu 11, LogArg.s "string", LogArg.p (some 5000)]⟩,
          ⟨"--- MEMORY LEAK REPORT ---", []⟩,
          ⟨"Leaked %zu bytes for %s at %p",
            [LogArg.zu 11, LogArg.s "string", LogArg.p (some 5000)]⟩,
          ⟨"Leaked %zu bytes for %s at %p",
            [LogArg.zu 8, LogArg.s "integer", LogArg.p (some 4096)]⟩,
          ⟨"Total allocated: %zu bytes", [LogArg.zu 19]⟩,
          ⟨"Total freed:     %zu bytes", [LogArg.zu 0]⟩,
          ⟨"Memory leaked:   %zu bytes", [LogArg.zu 19]⟩,
          ⟨"--------------------------", []⟩] :=
  (C22_leak_lines_in_ledger_order 64 fresh_context [(8, "integer"), (11, "string")]
    [(4096, 9000), (5000, 9100)] [] rfl (by decide)).2.2.trans (by decide)

/-- C23 fails in the code: `dump_memory_leaks` never assigns `head`, so after
the call the ledger of the context is what it was before, and a second call
on the same context itemises the same entries again instead of emitting the
no-leaks line. Shown in general and on the ledger holding the one entry
(4096, 8, "integer"). -/
theorem C23_dump_keeps_head (w : Nat) (tc : TracingContext) :
    (dump_memory_leaks w tc).head = tc.head ∧
      (dump_memory_leaks w (dump_memory_leaks w tc)).sink
        = (dump_memory_leaks w tc).sink ++ [⟨"--- MEMORY LEAK REPORT ---", []⟩]
            ++ (if tc.head = [] then
                  [⟨"No memory leaks detected! All memory is accounted for :)", []⟩]
                else tc.head.map leak_line)
            ++ [⟨"Total allocated: %zu bytes", [LogArg.zu tc.allocated]⟩,
                ⟨"Total freed:     %zu bytes", [LogArg.zu tc.freed]⟩,
                ⟨"Memory leaked:   %zu bytes",
                  [LogArg.zu (((tc.allocated : Int) - (tc.freed : Int)) % (2 : Int) ^ w).toNat]⟩,
                ⟨"--------------------------", []⟩] ∧
      (dump_memory_leaks 64 ⟨[⟨4096, 8, "integer"⟩], [], 8, 0⟩).head
        = [⟨4096, 8, "integer"⟩] ∧
      (dump_memory_leaks 64 (dump_memory_leaks 64 ⟨[⟨4096, 8, "integer"⟩], [], 8, 0⟩)).sink
        = [⟨"--- MEMORY LEAK REPORT ---", []⟩,
            ⟨"Leaked %zu bytes for %s at %p",
              [LogArg.zu 8, LogArg.s "integer", LogArg.p (some 4096)]⟩,
            ⟨"Total allocated: %zu bytes", [LogArg.zu 8]⟩,
            ⟨"Total freed:     %zu bytes", [LogArg.zu 0]⟩,
            ⟨"Memory leaked:   %zu bytes", [LogArg.zu 8]⟩,
            ⟨"--------------------------", []⟩,
            ⟨"--- MEMORY LEAK REPORT ---", []⟩,
            ⟨"Leaked %zu bytes for %s at %p",
              [LogArg.zu 8, LogArg.s "integer", LogArg.p (some 4096)]⟩,
            ⟨"Total allocated: %zu bytes", [LogArg.zu 8]⟩,
            ⟨"Total freed:     %zu bytes", [LogArg.zu 0]⟩,
            ⟨"Memory leaked:   %zu bytes", [LogArg.zu 8]⟩,
            ⟨"--------------------------", []⟩] := by
  refine ⟨by rw [dump_memory_leaks_eq], ?_, by decide, by decide⟩
  rw [dump_memory_leaks_eq w (dump_memory_leaks w tc)]
  simp only [dump_memory_leaks_eq w tc]

/-- C24: with a tracing allocator injected whose block and ledger-node
allocations succeed, on a source without NUL inside and at every reachable
lexer position, `scan_token` returns and `free_token_lexeme` on its token
leaves the ledger as it was before `scan_token`. A token without a lexeme
changes neither the ledger nor the counters (the allocator state is
untouched). For a token with a lexeme the entry recorded at construction has
the size `strlen(lexeme) + 1`, the very size passed to the release, and
`allocated` and `freed` have both grown by that size (`size_t` arithmetic). -/
theorem C24_scan_then_free_balanced (w : Nat) (src : List Char) (l : Lexer)
    (tc : TracingContext) (p q : Nat) (rest : List (Option Nat))
    (hz : ∀ c ∈ src, c ≠ '\x00') (hl : Reachable (tracing_allocator w) src l) :
    ∃ r, scan_token (tracing_allocator w) l (tc, ⟨some p :: some q :: rest⟩) = some r ∧
      (free_token_lexeme (tracing_allocator w) r.1 r.2.2).1.head = tc.head ∧
      ((r.1.lexeme = none ∧ r.2.2 = (tc, ⟨some p :: some q :: rest⟩) ∧
          free_token_lexeme (tracing_allocator w) r.1 r.2.2
            = (tc, ⟨some p :: some q :: rest⟩)) ∨
        (∃ text tag, r.1.lexeme = some ⟨p, text⟩ ∧
          r.2.2.1.head = ⟨p, strlen text + 1, tag⟩ :: tc.head ∧
          r.2.2.1.allocated = (tc.allocated + (strlen text + 1)) % 2 ^ w ∧
          r.2.2.1.freed = tc.freed ∧
          (free_token_lexeme (tracing_allocator w) r.1 r.2.2).1.allocated
            = (tc.allocated + (strlen text + 1)) % 2 ^ w ∧
          (free_token_lexeme (tracing_allocator w) r.1 r.2.2).1.freed
            = (tc.freed + (strlen text + 1)) % 2 ^ w)) := by
  obtain ⟨hsrc, hle, hinv⟩ := reachable_good _ src l hl
  obtain ⟨lx, lr, hshape, hcase⟩ := scan_token_shape (tracing_allocator w) l
    (tc, ⟨some p :: some q :: rest⟩) hle hinv
  have hzx : ∀ c ∈ lx.src, c ≠ '\x00' := by
    rw [hshape.1, hsrc]; exact hz
  rcases hcase with ⟨ty, hres⟩ | ⟨m, hres⟩
  · refine ⟨_, hres, ?_⟩
    by_cases hty : ty = TOKEN_IDENTIFIER ∨ ty = TOKEN_STRING ∨ ty = TOKEN_ERROR ∨
        ty = TOKEN_INTEGER ∨ ty = TOKEN_FLOAT
    · have hlen := strlen_lexeme lx hzx hshape.2.2.1
      rw [make_token_tracing w lx ty tc p q rest hty]
      refine ⟨?_, Or.inr ⟨(lx.src.drop lx.start).take (lx.current - lx.start), "TokenLexeme",
        rfl, ?_, ?_, rfl, ?_, ?_⟩⟩
      · simp only [free_token_lexeme, tracing_allocator, tracing_free_head]
      · rw [hlen]
      · rw [hlen]
      · simp only [free_token_lexeme, tracing_allocator, tracing_free_head, hlen]
      · simp only [free_token_lexeme, tracing_allocator, tracing_free_head, hlen]
    · have hmk : make_token (tracing_allocator w) lx ty (tc, ⟨some p :: some q :: rest⟩)
          = (⟨ty, lx.line, none⟩, (tc, ⟨some p :: some q :: rest⟩)) := by
        unfold make_token
        rw [if_neg hty]
      rw [hmk]
      exact ⟨rfl, Or.inl ⟨rfl, rfl, rfl⟩⟩
  · refine ⟨_, hres, ?_⟩
    rw [make_error_token_tracing w lx m tc p q rest]
    refine ⟨?_, Or.inr ⟨m.take (strlen m), "TokenError", rfl, ?_, ?_, rfl, ?_, ?_⟩⟩
    · simp only [free_token_lexeme, tracing_allocator, tracing_free_head]
    · rw [strlen_take_strlen]
    · rw [strlen_take_strlen]
    · simp only [free_token_lexeme, tracing_allocator, tracing_free_head, strlen_take_strlen]
    · simp only [free_token_lexeme, tracing_allocator, tracing_free_head, strlen_take_strlen]

/-- Witness for C24: the identifier `ab` scanned with a tracing allocator on a
fresh context; three bytes are recorded at 4096 and the release empties the
ledger again. -/
theorem C24_scan_then_free_balanced_witness :
    scan_token (tracing_allocator 64) (init_lexer "ab".toList)
        (fresh_context, ⟨[some 4096, some 9000]⟩)
      = some (⟨TOKEN_IDENTIFIER, 1, some ⟨4096, "ab".toList⟩⟩, ⟨"ab".toList, 0, 2, 1⟩,
          (⟨[⟨4096, 3, "TokenLexeme"⟩],
            [⟨"Allocated %zu bytes for %s at %p",
              [LogArg.zu 3, LogArg.s "TokenLexeme", LogArg.p (some 4096)]⟩], 3, 0⟩, ⟨[]⟩)) ∧
      (free_token_lexeme (tracing_allocator 64)
        ⟨TOKEN_IDENTIFIER, 1, some ⟨4096, "ab".toList⟩⟩
        (⟨[⟨4096, 3, "TokenLexeme"⟩],
          [⟨"Allocated %zu bytes for %s at %p",
            [LogArg.zu 3, LogArg.s "TokenLexeme", LogArg.p (some 4096)]⟩], 3, 0⟩,
          ⟨[]⟩)).1.head = [] := by
  obtain ⟨r, h1, h2, _⟩ := C24_scan_then_free_balanced 64 "ab".toList (init_lexer "ab".toList)
    fresh_context 4096 9000 [] (by decide) Reachable.init
  have e : scan_token (tracing_allocator 64) (init_lexer "ab".toList)
      (fresh_context, ⟨[some 4096, some 9000]⟩)
      = some (⟨TOKEN_IDENTIFIER, 1, some ⟨4096, "ab".toList⟩⟩, ⟨"ab".toList, 0, 2, 1⟩,
          (⟨[⟨4096, 3, "TokenLexeme"⟩],
            [⟨"Allocated %zu bytes for %s at %p",
              [LogArg.zu 3, LogArg.s "TokenLexeme", LogArg.p (some 4096)]⟩], 3, 0⟩, ⟨[]⟩)) := by
    decide
  rw [e] at h1
  cases h1
  exact ⟨e, h2⟩

/-- C25: the report ends with the three summary lines and the closing line;
the first two figures are the counters `allocated` and `freed` of the context
and the third is `allocated - freed` in `size_t` arithmetic, that is modulo
`2 ^ w`. For counters that are `size_t` values it is the exact difference when
`freed ≤ allocated`, and `2 ^ w - (freed - allocated)` otherwise. -/
theorem C25_report_totals (w : Nat) (tc : TracingContext) (ha : tc.allocated < 2 ^ w)
    (hf : tc.freed < 2 ^ w) :
    (∃ body, (dump_memory_leaks w tc).sink
        = tc.sink ++ body
            ++ [⟨"Total allocated: %zu bytes", [LogArg.zu tc.allocated]⟩,
                ⟨"Total freed:     %zu bytes", [LogArg.zu tc.freed]⟩,
                ⟨"Memory leaked:   %zu bytes",
                  [LogArg.zu (((tc.allocated : Int) - (tc.freed : Int)) % (2 : Int) ^ w).toNat]⟩,
                ⟨"--------------------------", []⟩]) ∧
      ((((tc.allocated : Int) - (tc.freed : Int)) % (2 : Int) ^ w).toNat
        = if tc.freed ≤ tc.allocated then tc.allocated - tc.freed
          else 2 ^ w - (tc.freed - tc.allocated)) := by
  refine ⟨⟨_, by rw [dump_memory_leaks_eq, List.append_assoc tc.sink]⟩, ?_⟩
  have hpow : ((2 : Int) ^ w) = ((2 ^ w : Nat) : Int) := by push_cast; rfl
  by_cases hle : tc.freed ≤ tc.allocated
  · rw [if_pos hle]
    have e : ((tc.allocated : Int) - (tc.freed : Int)) = ((tc.allocated - tc.freed : Nat) : Int) := by
      omega
    rw [e, hpow, ← Int.natCast_mod, Int.toNat_natCast]
    exact Nat.mod_eq_of_lt (by omega)
  · rw [if_neg hle]
    have e : ((tc.allocated : Int) - (tc.freed : Int))
        = ((2 ^ w - (tc.freed - tc.allocated) : Nat) : Int) + (-1) * ((2 ^ w : Nat) : Int) := by
      omega
    rw [e, hpow, Int.add_mul_emod_self, ← Int.natCast_mod, Int.toNat_natCast]
    exact Nat.mod_eq_of_lt (by omega)

/-- Witness for C25: 19 bytes allocated and 11 freed give the figure 8; 8
allocated and 19 freed give the wrapped figure `2 ^ 64 - 11`. -/
theorem C25_report_totals_witness :
    ((((19 : Nat) : Int) - ((11 : Nat) : Int)) % (2 : Int) ^ 64).toNat = 8 ∧
      ((((8 : Nat) : Int) - ((19 : Nat) : Int)) % (2 : Int) ^ 64).toNat
        = 18446744073709551605 :=
  ⟨(C25_report_totals 64 ⟨[], [], 19, 11⟩ (by decide) (by decide)).2.trans (by decide),
    (C25_report_totals 64 ⟨[], [], 8, 19⟩ (by decide) (by decide)).2.trans (by decide)⟩

/-- C26: when the allocation of the block fails, `tracing_alloc(size, tag)`
returns null and leaves the ledger, `allocated` and `freed` as they were; the
only effect on the context is the line that reports the failed request. -/
theorem C26_failed_alloc_changes_nothing (w : Nat) (tc : TracingContext) (heap heap1 : Heap)
    (size : Nat) (tag : String) (h : malloc heap size = (none, heap1)) :
    (tracing_alloc w tc heap size tag).1 = none ∧
      (tracing_alloc w tc heap size tag).2.1.head = tc.head ∧
      (tracing_alloc w tc heap size tag).2.1.allocated = tc.allocated ∧
      (tracing_alloc w tc heap size tag).2.1.freed = tc.freed ∧
      (tracing_alloc w tc heap size tag).2.1.sink
        = tc.sink ++ [⟨"Failed to allocate %zu bytes for %s",
            [LogArg.zu size, LogArg.s tag]⟩] := by
  rw [tracing_alloc_failed w tc heap heap1 size tag h]
  exact ⟨rfl, rfl, rfl, rfl, rfl⟩

/-- Witness for C26: a request of 8 bytes that the system allocator refuses,
on a context that holds one entry. -/
theorem C26_failed_alloc_changes_nothing_witness :
    (tracing_alloc 64 ⟨[⟨4096, 8, "integer"⟩], [], 8, 0⟩ ⟨[none, some 5000]⟩ 8 "string").1
        = none ∧
      (tracing_alloc 64 ⟨[⟨4096, 8, "integer"⟩], [], 8, 0⟩ ⟨[none, some 5000]⟩ 8
        "string").2.1.head = [⟨4096, 8, "integer"⟩] ∧
      (tracing_alloc 64 ⟨[⟨4096, 8, "integer"⟩], [], 8, 0⟩ ⟨[none, some 5000]⟩ 8
        "string").2.1.allocated = 8 ∧
      (tracing_alloc 64 ⟨[⟨4096, 8, "integer"⟩], [], 8, 0⟩ ⟨[none, some 5000]⟩ 8
        "string").2.1.freed = 0 :=
  have h := C26_failed_alloc_changes_nothing 64 ⟨[⟨4096, 8, "integer"⟩], [], 8, 0⟩
    ⟨[none, some 5000]⟩ ⟨[some 5000]⟩ 8 "string" rfl
  ⟨h.1, h.2.1, h.2.2.1, h.2.2.2.1⟩

/-- C28: cursor invariant. Every lexer state that is reached on a source of
length `n`, the state after `init_lexer` and the state after each `scan_token`
call, keeps the buffer and has `start ≤ current ≤ n`. A further `scan_token`
call from such a state returns, and it returns the same with all its checks
made: every read of `is_at_end`, `peek`, `peek_next`, `advance` and `match`
stays at or below the index `n` of the terminating NUL, and after every
assignment to `start` or `current`, the temporary `start++` and the `start--`
of `make_string_token` included, the cursor has `start ≤ current ≤ n`. For a
string literal the body loop ends with `start + 1 ≤ current`, which is what
the temporary `start++` needs, also for the empty literal. The lexer `lx` from
which the token is made and the lexer `lr` the call leaves behind both have
`start ≤ current ≤ n`. -/
theorem C28_cursor_invariant {α : Type} (A : Allocator α) (src : List Char) (l : Lexer)
    (heap : α) (h : Reachable A src l) :
    l.src = src ∧ l.start ≤ l.current ∧ l.current ≤ src.length ∧
      scan_token_checked A l heap = scan_token A l heap ∧
      (∀ l0 x, skip_whitespace l = some l0 →
        while_loop (fun y => peek y != '"' && !is_at_end y)
            (fun y => (advance (if peek y = '\n' then { y with line := y.line + 1 }
              else y)).2)
            (loop_fuel (advance { l0 with start := l0.current }).2)
            (advance { l0 with start := l0.current }).2 = some x →
        cursor_checked { x with start := x.start + 1 }
          = some { x with start := x.start + 1 }) ∧
      ∃ lx lr, scan_shape l lx lr ∧
        ((∃ ty, scan_token A l heap
            = some ((make_token A lx ty heap).1, lr, (make_token A lx ty heap).2)) ∨
          (∃ m, scan_token A l heap
            = some ((make_error_token A lx m heap).1, lr,
                (make_error_token A lx m heap).2))) := by
  obtain ⟨hsrc, hle, hinv⟩ := reachable_good A src l h
  have hst := reachable_start_le A src l h
  refine ⟨hsrc, hst, by rw [← hsrc]; exact hle,
    scan_token_checked_eq A l heap hst hle hinv, ?_, scan_token_shape A l heap hle hinv⟩
  intro l0 x hsk hw
  obtain ⟨l1, e1, _, _, _, e5, _, _⟩ := skip_whitespace_spec l hle hinv
  rw [hsk] at e1
  cases e1
  by_cases hend : l0.current < l0.src.length
  · obtain ⟨x1, f1, _, f3, f4, f5, _⟩ := string_loop_shape
      (advance { l0 with start := l0.current }).2 (by simp only [advance]; omega)
    rw [hw] at f1
    cases f1
    apply cursor_checked_ok
    · simp only [advance] at f3 f4
      show x.start + 1 ≤ x.current
      omega
    · exact f5
  · exfalso
    have hfuel : loop_fuel (advance { l0 with start := l0.current }).2 = 0 := by
      simp only [loop_fuel, advance]; omega
    rw [hfuel] at hw
    simp [while_loop] at hw

/-- Witness for C28: the empty string literal. The call with all its checks
returns the string token with the empty lexeme and leaves `start = 0`,
`current = 2`; a lexer with `start = 2` and `current = 1` does not pass the
cursor check. -/
theorem C28_cursor_invariant_witness :
    scan_token_checked raw_allocator (init_lexer ['"', '"']) ⟨[some 4096]⟩
        = some (⟨TOKEN_STRING, 1, some ⟨4096, []⟩⟩, ⟨['"', '"'], 0, 2, 1⟩, ⟨[]⟩) ∧
      cursor_checked ⟨['"', '"'], 2, 1, 1⟩ = none :=
  ⟨(C28_cursor_invariant raw_allocator ['"', '"'] (init_lexer ['"', '"']) ⟨[some 4096]⟩
    Reachable.init).2.2.2.1.trans (by decide), by decide⟩

/-- C29: for each operator character `o` of `!`, `=`, `>`, `<` and every
remainder `r`, the first `scan_token` on `o ++ "=" ++ r` returns the
two-character kind and leaves the cursor at `r` (index 2), and on `o ++ r`
with `r` not starting with `=` it returns the one-character kind and leaves
the cursor at `r` (index 1), the peeked character unconsumed. Hence `===`
scans as EQUAL_EQUAL then EQUAL, and `=!` as EQUAL then BANG. -/
theorem C29_one_or_two_character_operators {α : Type} (A : Allocator α) (heap : α)
    (o : Char) (ty1 ty2 : TokenType) (r : List Char) (ho : (o, ty1, ty2) ∈ operator_table) :
    scan_token A (init_lexer (o :: '=' :: r)) heap
        = some (⟨ty1, 1, none⟩, ⟨o :: '=' :: r, 0, 2, 1⟩, heap) ∧
      (char_at r 0 ≠ '=' →
        scan_token A (init_lexer (o :: r)) heap
          = some (⟨ty2, 1, none⟩, ⟨o :: r, 0, 1, 1⟩, heap)) ∧
      scan_token A (init_lexer "===".toList) heap
        = some (⟨TOKEN_EQUAL_EQUAL, 1, none⟩, ⟨"===".toList, 0, 2, 1⟩, heap) ∧
      scan_token A ⟨"===".toList, 0, 2, 1⟩ heap
        = some (⟨TOKEN_EQUAL, 1, none⟩, ⟨"===".toList, 2, 3, 1⟩, heap) ∧
      scan_token A (init_lexer "=!".toList) heap
        = some (⟨TOKEN_EQUAL, 1, none⟩, ⟨"=!".toList, 0, 1, 1⟩, heap) ∧
      scan_token A ⟨"=!".toList, 0, 1, 1⟩ heap
        = some (⟨TOKEN_BANG, 1, none⟩, ⟨"=!".toList, 1, 2, 1⟩, heap) := by
  have hmem_eq : ('=', TOKEN_EQUAL_EQUAL, TOKEN_EQUAL) ∈ operator_table := by decide
  have hmem_bang : ('!', TOKEN_BANG_EQUAL, TOKEN_BANG) ∈ operator_table := by decide
  refine ⟨?_, fun hr => ?_, ?_, ?_, ?_, ?_⟩
  · exact scan_operator_two A (init_lexer (o :: '=' :: r)) heap (by simp [init_lexer]) o ty1 ty2
      ho (char_at_cons_zero _ _) (by simp [init_lexer, char_at_cons_succ, char_at_cons_zero])
  · exact scan_operator_one A (init_lexer (o :: r)) heap (by simp [init_lexer]) o ty1 ty2
      ho (char_at_cons_zero _ _) (by simpa [init_lexer, char_at_cons_succ] using hr)
  · exact scan_operator_two A (init_lexer "===".toList) heap (by decide) '=' _ _ hmem_eq
      (by decide) (by decide)
  · exact scan_operator_one A ⟨"===".toList, 0, 2, 1⟩ heap (by decide) '=' _ _ hmem_eq
      (by decide) (by decide)
  · exact scan_operator_one A (init_lexer "=!".toList) heap (by decide) '=' _ _ hmem_eq
      (by decide) (by decide)
  · exact scan_operator_one A ⟨"=!".toList, 0, 1, 1⟩ heap (by decide) '!' _ _ hmem_bang
      (by decide) (by decide)

/-- Witness for C29: `>` followed by `=` and then `x`, and `<` followed by
`x`. -/
theorem C29_one_or_two_character_operators_witness :
    scan_token raw_allocator (init_lexer ">=x".toList) ⟨[]⟩
        = some (⟨TOKEN_GREATER_EQUAL, 1, none⟩, ⟨">=x".toList, 0, 2, 1⟩, ⟨[]⟩) ∧
      scan_token raw_allocator (init_lexer "<x".toList) ⟨[]⟩
        = some (⟨TOKEN_LESS, 1, none⟩, ⟨"<x".toList, 0, 1, 1⟩, ⟨[]⟩) :=
  ⟨(C29_one_or_two_character_operators raw_allocator ⟨[]⟩ '>' TOKEN_GREATER_EQUAL
      TOKEN_GREATER "x".toList (by decide)).1,
    (C29_one_or_two_character_operators raw_allocator ⟨[]⟩ '<' TOKEN_LESS_EQUAL
      TOKEN_LESS "x".toList (by decide)).2.1 (by decide)⟩

/-- C30: a source that begins, after blanks and newlines, with `/` not followed
by a second `/` is not treated as a comment: `scan_token` returns the error
token with the message "Unexpected character '/'." and consumes that one `/`
only. The same holds for `+`, `-`, `*` and `%`, whatever follows them: each
gives the error token "Unexpected character '<c>'." and no operator token. The
26 bytes of the message are obtained from the allocator. -/
theorem C30_slash_and_arithmetic_are_errors {α : Type} (A : Allocator α) (heap heap1 : α)
    (p : Nat) (ws r : List Char) (c : Char)
    (hws : ∀ x ∈ ws, x = ' ' ∨ x = '\r' ∨ x = '\t' ∨ x = '\n')
    (hc : c ∈ ['/', '+', '-', '*', '%']) (hnext : c = '/' → char_at r 0 ≠ '/')
    (halloc : A.alloc heap 26 "TokenError" = (some p, heap1)) :
    scan_token A (init_lexer (ws ++ c :: r)) heap
      = some (⟨TOKEN_ERROR, 1 + ws.count '\n',
            some ⟨p, "Unexpected character '".toList ++ c :: "'.".toList⟩⟩,
          ⟨ws ++ c :: r, ws.length, ws.length + 1, 1 + ws.count '\n'⟩, heap1) := by
  have hpk : peek ⟨ws ++ c :: r, 0, ws.length, 1 + ws.count '\n'⟩ = c := by
    simp only [peek, char_at_append_length, char_at_cons_zero]
  have hle : (⟨ws ++ c :: r, 0, ws.length, 1 + ws.count '\n'⟩ : Lexer).current
      ≤ (⟨ws ++ c :: r, 0, ws.length, 1 + ws.count '\n'⟩ : Lexer).src.length := by
    simp
  have hstop : skip_whitespace ⟨ws ++ c :: r, 0, ws.length, 1 + ws.count '\n'⟩
      = some ⟨ws ++ c :: r, 0, ws.length, 1 + ws.count '\n'⟩ := by
    by_cases hs : c = '/'
    · apply skip_whitespace_slash _ hle (by rw [hpk, hs])
      have hne : ¬ is_at_end ⟨ws ++ c :: r, 0, ws.length, 1 + ws.count '\n'⟩ = true := by
        have : char_at (ws ++ c :: r) ws.length = '/' := by rw [← hs]; exact hpk
        simp only [is_at_end, this]; decide
      simp only [peek_next, hne]
      have : char_at (ws ++ c :: r) (ws.length + 1) = char_at r 0 := by
        rw [char_at_append_right, char_at_cons_succ]
      simpa [this] using hnext hs
    · apply skip_whitespace_noop _ hle <;> rw [hpk] <;>
        simp only [List.mem_cons, List.mem_singleton, List.not_mem_nil, or_false] at hc <;>
        rcases hc with rfl | rfl | rfl | rfl | rfl <;> first | decide | exact hs
  have hskip := skip_whitespace_blanks ws (c :: r) 0 1 hws hstop
  have hres := scan_unexpected A (init_lexer (ws ++ c :: r))
    ⟨ws ++ c :: r, 0, ws.length, 1 + ws.count '\n'⟩ heap heap1 p c hskip hpk
    (by
      simp only [List.mem_cons, List.mem_singleton, List.not_mem_nil, or_false] at hc
      rcases hc with rfl | rfl | rfl | rfl | rfl <;> decide)
    (by
      simp only [List.mem_cons, List.mem_singleton, List.not_mem_nil, or_false] at hc
      rcases hc with rfl | rfl | rfl | rfl | rfl <;> decide)
    (by
      simp only [List.mem_cons, List.mem_singleton, List.not_mem_nil, or_false] at hc
      rcases hc with rfl | rfl | rfl | rfl | rfl <;> decide)
    (by
      simp only [List.mem_cons, List.mem_singleton, List.not_mem_nil, or_false] at hc
      rcases hc with rfl | rfl | rfl | rfl | rfl <;> decide)
    halloc
  exact hres

/-- Witness for C30: the source `" /a"` gives the error token for `/` and
leaves the cursor on `a`; the source `"/"` does so at the end of the input. -/
theorem C30_slash_and_arithmetic_are_errors_witness :
    scan_token raw_allocator (init_lexer " /a".toList) ⟨[some 4096]⟩
        = some (⟨TOKEN_ERROR, 1, some ⟨4096, "Unexpected character '/'.".toList⟩⟩,
            ⟨" /a".toList, 1, 2, 1⟩, ⟨[]⟩) ∧
      scan_token raw_allocator (init_lexer "/".toList) ⟨[some 4096]⟩
        = some (⟨TOKEN_ERROR, 1, some ⟨4096, "Unexpected character '/'.".toList⟩⟩,
            ⟨"/".toList, 0, 1, 1⟩, ⟨[]⟩) :=
  ⟨C30_slash_and_arithmetic_are_errors raw_allocator ⟨[some 4096]⟩ ⟨[]⟩ 4096 " ".toList
      "a".toList '/' (by decide) (by decide) (by decide) rfl,
    C30_slash_and_arithmetic_are_errors raw_allocator ⟨[some 4096]⟩ ⟨[]⟩ 4096 [] [] '/'
      (by decide) (by decide) (by decide) rfl⟩

/-- C31: allocation failure does not change tokenisation. In every reachable
lexer state, `scan_token` with an allocator that answers null returns a token,
and with any other allocator and allocator state (a succeeding one included)
it returns a token of the same kind and line and leaves the lexer in the same
state; the token of the failing run has a null lexeme, and
`free_token_lexeme` on it releases nothing: it leaves every allocator state
as it is. -/
theorem C31_allocation_failure_keeps_tokenisation {α β : Type} (A : Allocator α)
    (B : Allocator β) (src : List Char) (l : Lexer) (ha : α) (hb : β)
    (hl : Reachable A src l) (hfail : ∀ n tag, (A.alloc ha n tag).1 = none) :
    ∃ ra rb, scan_token A l ha = some ra ∧ scan_token B l hb = some rb ∧
      ra.1.type = rb.1.type ∧ ra.1.line = rb.1.line ∧ ra.2.1 = rb.2.1 ∧
      ra.1.lexeme = none ∧ ∀ h : α, free_token_lexeme A ra.1 h = h := by
  obtain ⟨_, hle, hinv⟩ := reachable_good A src l hl
  obtain ⟨rb, hrb, _⟩ := scan_token_spec B l hb hle hinv
  obtain ⟨lx, lr, _, hcase⟩ := scan_token_shape A l ha hle hinv
  have hview := scan_token_view A B l ha hb
  have hnone : ∀ ra, scan_token A l ha = some ra → ra.1.lexeme = none := by
    intro ra hra
    rcases hcase with ⟨ty, hres⟩ | ⟨m, hres⟩
    · rw [hra] at hres
      cases hres
      exact make_token_failed A lx ty ha hfail
    · rw [hra] at hres
      cases hres
      exact make_error_token_failed A lx m ha hfail
  have hsome : ∃ ra, scan_token A l ha = some ra := by
    rcases hcase with ⟨ty, hres⟩ | ⟨m, hres⟩ <;> exact ⟨_, hres⟩
  obtain ⟨ra, hra⟩ := hsome
  rw [hra, hrb] at hview
  simp only [Option.map_some', Option.some.injEq, scan_view, Prod.mk.injEq] at hview
  refine ⟨ra, rb, hra, hrb, hview.1, hview.2.1, hview.2.2, hnone ra hra, fun h => ?_⟩
  unfold free_token_lexeme
  rw [hnone ra hra]

/-- Witness for C31: the identifier `ab` scanned with an exhausted heap and
with a heap that answers 4096. -/
theorem C31_allocation_failure_keeps_tokenisation_witness :
    scan_token raw_allocator (init_lexer "ab".toList) ⟨[]⟩
        = some (⟨TOKEN_IDENTIFIER, 1, none⟩, ⟨"ab".toList, 0, 2, 1⟩, ⟨[]⟩) ∧
      scan_token raw_allocator (init_lexer "ab".toList) ⟨[some 4096]⟩
        = some (⟨TOKEN_IDENTIFIER, 1, some ⟨4096, "ab".toList⟩⟩, ⟨"ab".toList, 0, 2, 1⟩,
            ⟨[]⟩) ∧
      free_token_lexeme raw_allocator ⟨TOKEN_IDENTIFIER, 1, none⟩ (⟨[some 7]⟩ : Heap)
        = ⟨[some 7]⟩ := by
  obtain ⟨ra, rb, h1, h2, _, _, _, _, h7⟩ := C31_allocation_failure_keeps_tokenisation
    raw_allocator raw_allocator "ab".toList (init_lexer "ab".toList) ⟨[]⟩ ⟨[some 4096]⟩
    Reachable.init (fun _ _ => rfl)
  have e1 : scan_token raw_allocator (init_lexer "ab".toList) ⟨[]⟩
      = some (⟨TOKEN_IDENTIFIER, 1, none⟩, ⟨"ab".toList, 0, 2, 1⟩, ⟨[]⟩) := by decide
  have e2 : scan_token raw_allocator (init_lexer "ab".toList) ⟨[some 4096]⟩
      = some (⟨TOKEN_IDENTIFIER, 1, some ⟨4096, "ab".toList⟩⟩, ⟨"ab".toList, 0, 2, 1⟩,
          ⟨[]⟩) := by decide
  rw [e1] at h1
  cases h1
  exact ⟨e1, e2, h7 ⟨[some 7]⟩⟩

/-- C32, as stated, fails: on a fresh context one `tracing_alloc` of 8 bytes
gets the address 4096, which is not in the (empty) ledger, but does not obtain
its ledger node. The block is live, yet the ledger holds no entry for it,
`allocated - freed` is 8 while the sizes in the ledger sum to 0, and the
report gives `Memory leaked` 8 with no `Leaked` line. -/
theorem C32_live_block_without_entry_counterexample :
    calls_ok 64 [TracingCall.alloc 8 "integer"] (fresh_context, ⟨[some 4096, none]⟩) = true ∧
      live_blocks 64 [TracingCall.alloc 8 "integer"] (fresh_context, ⟨[some 4096, none]⟩) []
        = [⟨4096, 8, "integer"⟩] ∧
      (run_calls 64 [TracingCall.alloc 8 "integer"]
          (fresh_context, ⟨[some 4096, none]⟩)).1
        = ⟨[], [⟨"Allocated %zu bytes for %s at %p",
            [LogArg.zu 8, LogArg.s "integer", LogArg.p (some 4096)]⟩], 8, 0⟩ ∧
      (dump_memory_leaks 64 (run_calls 64 [TracingCall.alloc 8 "integer"]
          (fresh_context, ⟨[some 4096, none]⟩)).1).sink
        = [⟨"Allocated %zu bytes for %s at %p",
              [LogArg.zu 8, LogArg.s "integer", LogArg.p (some 4096)]⟩,
            ⟨"--- MEMORY LEAK REPORT ---", []⟩,
            ⟨"No memory leaks detected! All memory is accounted for :)", []⟩,
            ⟨"Total allocated: %zu bytes", [LogArg.zu 8]⟩,
            ⟨"Total freed:     %zu bytes", [LogArg.zu 0]⟩,
            ⟨"Memory leaked:   %zu bytes", [LogArg.zu 8]⟩,
            ⟨"--------------------------", []⟩] := by
  decide

/-- C32 (amended): from a fresh tracing context, along every sequence of
`tracing_alloc`, `tracing_free` and `tracing_realloc` calls in which each
allocation gets an address not currently in the ledger and obtains its ledger
node, and each release (direct or through `tracing_realloc`) names a pointer
currently in the ledger with the size recorded for it: the ledger is the list
of the live allocations, no address occurs in it twice, `allocated - freed`
in `size_t` arithmetic is the sum of the sizes in the ledger (modulo `2 ^ w`,
the plain sum when it fits), and the report itemises the ledger and gives
that sum as its `Memory leaked` figure. -/
theorem C32_ledger_consistency (w : Nat) (ops : List TracingCall) (heap : Heap)
    (hok : calls_ok w ops (fresh_context, heap) = true)
    (hnd : calls_nodes w ops (fresh_context, heap) = true) :
    (run_calls w ops (fresh_context, heap)).1.head
        = live_blocks w ops (fresh_context, heap) [] ∧
      ((run_calls w ops (fresh_context, heap)).1.head.map (fun e => e.ptr)).Nodup ∧
      ((((run_calls w ops (fresh_context, heap)).1.allocated : Int)
          - ((run_calls w ops (fresh_context, heap)).1.freed : Int)) % (2 : Int) ^ w).toNat
        = ledger_sum (run_calls w ops (fresh_context, heap)).1.head % 2 ^ w ∧
      (ledger_sum (run_calls w ops (fresh_context, heap)).1.head < 2 ^ w →
        ((((run_calls w ops (fresh_context, heap)).1.allocated : Int)
            - ((run_calls w ops (fresh_context, heap)).1.freed : Int)) % (2 : Int) ^ w).toNat
          = ledger_sum (run_calls w ops (fresh_context, heap)).1.head) ∧
      (dump_memory_leaks w (run_calls w ops (fresh_context, heap)).1).sink
        = (run_calls w ops (fresh_context, heap)).1.sink
            ++ [⟨"--- MEMORY LEAK REPORT ---", []⟩]
            ++ (if (run_calls w ops (fresh_context, heap)).1.head = [] then
                  [⟨"No memory leaks detected! All memory is accounted for :)", []⟩]
                else (run_calls w ops (fresh_context, heap)).1.head.map leak_line)
            ++ [⟨"Total allocated: %zu bytes",
                  [LogArg.zu (run_calls w ops (fresh_context, heap)).1.allocated]⟩,
                ⟨"Total freed:     %zu bytes",
                  [LogArg.zu (run_calls w ops (fresh_context, heap)).1.freed]⟩,
                ⟨"Memory leaked:   %zu bytes",
                  [LogArg.zu
                    (ledger_sum (run_calls w ops (fresh_context, heap)).1.head % 2 ^ w)]⟩,
                ⟨"--------------------------", []⟩] := by
  have h0 : ledger_inv w (fresh_context, heap).1 :=
    ⟨List.nodup_nil, by simp [fresh_context, ledger_sum, Nat.ModEq]⟩
  obtain ⟨hinv, hlive⟩ := calls_step w ops (fresh_context, heap) h0 hok hnd
  have hleak := leaked_of_ledger_inv w _ hinv
  refine ⟨hlive, hinv.1, hleak, fun hlt => ?_, ?_⟩
  · rw [hleak, Nat.mod_eq_of_lt hlt]
  · rw [dump_memory_leaks_eq, hleak]

/-- Witness for C32: alloc 8 at 4096, alloc 11 at 5000, free of 5000 with size
11, then `tracing_realloc` of 4096 from 8 to 24 bytes, which gets 6000. The
ledger holds the one live block and the leaked figure is its size. -/
theorem C32_ledger_consistency_witness :
    (run_calls 64
        [TracingCall.alloc 8 "integer", TracingCall.alloc 11 "string",
          TracingCall.free (some 5000) 11 "string",
          TracingCall.realloc (some 4096) 8 24 "integer"]
        (fresh_context,
          ⟨[some 4096, some 9000, some 5000, some 9100, some 6000, some 9200]⟩)).1.head
        = [⟨6000, 24, "integer"⟩] ∧
      ((((run_calls 64
          [TracingCall.alloc 8 "integer", TracingCall.alloc 11 "string",
            TracingCall.free (some 5000) 11 "string",
            TracingCall.realloc (some 4096) 8 24 "integer"]
          (fresh_context,
            ⟨[some 4096, some 9000, some 5000, some 9100, some 6000,
              some 9200]⟩)).1.allocated : Int)
        - ((run_calls 64
          [TracingCall.alloc 8 "integer", TracingCall.alloc 11 "string",
            TracingCall.free (some 5000) 11 "string",
            TracingCall.realloc (some 4096) 8 24 "integer"]
          (fresh_context,
            ⟨[some 4096, some 9000, some 5000, some 9100, some 6000,
              some 9200]⟩)).1.freed : Int)) % (2 : Int) ^ 64).toNat = 24 :=
  have h := C32_ledger_consistency 64
    [TracingCall.alloc 8 "integer", TracingCall.alloc 11 "string",
      TracingCall.free (some 5000) 11 "string",
      TracingCall.realloc (some 4096) 8 24 "integer"]
    ⟨[some 4096, some 9000, some 5000, some 9100, some 6000, some 9200]⟩
    (by decide) (by decide)
  ⟨h.1.trans (by decide), h.2.2.1.trans (by decide)⟩

/-- C33: end-of-file is absorbing. When a `scan_token` call made in a
reachable state has returned `TOKEN_EOF`, its token has a null lexeme, and
every later call on the lexer, whatever the allocator state, returns
`TOKEN_EOF` with a null lexeme and the same line and leaves the lexer (`start`,
`current`, `line`) and the allocator state as they are. -/
theorem C33_eof_absorbing {α : Type} (A : Allocator α) (src : List Char) (l : Lexer)
    (heap : α) (r : Token × Lexer × α) (hl : Reachable A src l)
    (hs : scan_token A l heap = some r) (he : r.1.type = TOKEN_EOF) :
    r.1.lexeme = none ∧ r.2.2 = heap ∧
      ∀ (k : Nat) (heap1 : α),
        nth_scan A k r.2.1 heap1 = some (⟨TOKEN_EOF, r.1.line, none⟩, r.2.1, heap1) := by
  obtain ⟨_, hle, hinv⟩ := reachable_good A src l hl
  obtain ⟨l0, hsk, hend, hr⟩ := scan_token_eof_inv A l heap r hs he
  obtain ⟨l1, e1, _, _, _, e5, _, _⟩ := skip_whitespace_spec l hle hinv
  rw [hsk] at e1
  cases e1
  subst hr
  refine ⟨rfl, rfl, fun k heap1 => ?_⟩
  exact nth_scan_eof_fixed A k { l0 with start := l0.current } heap1 e5 hend rfl

/-- Witness for C33: on the source of one blank the first call returns
end-of-file at index 1; the fourth call after it still does, from the same
state. -/
theorem C33_eof_absorbing_witness :
    nth_scan raw_allocator 3 ⟨" ".toList, 1, 1, 1⟩ ⟨[some 4096]⟩
      = some (⟨TOKEN_EOF, 1, none⟩, ⟨" ".toList, 1, 1, 1⟩, ⟨[some 4096]⟩) :=
  (C33_eof_absorbing raw_allocator " ".toList (init_lexer " ".toList) ⟨[]⟩
    (⟨TOKEN_EOF, 1, none⟩, ⟨" ".toList, 1, 1, 1⟩, ⟨[]⟩) Reachable.init (by decide) rfl).2.2 3
    ⟨[some 4096]⟩

/-- C34: for all non-empty digit strings `d` and `e` and every remainder `r`,
the first `scan_token` on `d ++ "." ++ e ++ "." ++ r` returns `TOKEN_FLOAT` with
the lexeme `d.e` (when its allocation succeeds) and leaves the cursor on the
second dot; the next call returns `TOKEN_DOT` and steps over that dot, and
with `r` empty the call after it returns `TOKEN_EOF`. On `d ++ "."` alone
the first call returns the error token `Invalid number literal`. -/
theorem C34_second_dot_after_float {α : Type} (A : Allocator α) (heap heap1 : α) (p : Nat)
    (d e r : List Char) (hne : d ≠ []) (hd : ∀ c ∈ d, isdigit c = true)
    (hne2 : e ≠ []) (he : ∀ c ∈ e, isdigit c = true)
    (halloc : A.alloc heap (d.length + 1 + e.length + 1) "TokenLexeme" = (some p, heap1)) :
    scan_token A (init_lexer (d ++ '.' :: e ++ '.' :: r)) heap
        = some (⟨TOKEN_FLOAT, 1, some ⟨p, d ++ '.' :: e⟩⟩,
            ⟨d ++ '.' :: e ++ '.' :: r, 0, d.length + 1 + e.length, 1⟩, heap1) ∧
      peek ⟨d ++ '.' :: e ++ '.' :: r, 0, d.length + 1 + e.length, 1⟩ = '.' ∧
      scan_token A ⟨d ++ '.' :: e ++ '.' :: r, 0, d.length + 1 + e.length, 1⟩ heap1
        = some (⟨TOKEN_DOT, 1, none⟩,
            ⟨d ++ '.' :: e ++ '.' :: r, d.length + 1 + e.length,
              d.length + 1 + e.length + 1, 1⟩, heap1) ∧
      (r = [] →
        scan_token A ⟨d ++ '.' :: e ++ '.' :: r, d.length + 1 + e.length,
            d.length + 1 + e.length + 1, 1⟩ heap1
          = some (⟨TOKEN_EOF, 1, none⟩,
              ⟨d ++ '.' :: e ++ '.' :: r, d.length + 1 + e.length + 1,
                d.length + 1 + e.length + 1, 1⟩, heap1)) ∧
      (∀ (q : Nat) (heap2 : α), A.alloc heap 23 "TokenError" = (some q, heap2) →
        scan_token A (init_lexer (d ++ ['.'])) heap
          = some (⟨TOKEN_ERROR, 1, some ⟨q, "Invalid number literal".toList⟩⟩,
              ⟨d ++ ['.'], 0, d.length, 1⟩, heap2)) := by
  have hlen : (d ++ '.' :: e).length = d.length + 1 + e.length := by
    simp only [List.length_append, List.length_cons]; omega
  have hpk : peek ⟨d ++ '.' :: e ++ '.' :: r, 0, d.length + 1 + e.length, 1⟩ = '.' := by
    simp only [peek]
    rw [← hlen, char_at_append_length, char_at_cons_zero]
  have hle : d.length + 1 + e.length ≤ (d ++ '.' :: e ++ '.' :: r).length := by
    rw [List.length_append, hlen]; omega
  refine ⟨?_, hpk, ?_, ?_, ?_⟩
  · exact scan_float A heap heap1 p d e ('.' :: r) hne hd hne2 he
      (by rw [char_at_cons_zero]; decide) halloc
  · exact scan_token_dot A ⟨d ++ '.' :: e ++ '.' :: r, 0, d.length + 1 + e.length, 1⟩ heap1
      hle hpk
  · intro hr
    subst hr
    have hlen2 : (d ++ '.' :: e ++ ['.']).length = d.length + 1 + e.length + 1 := by
      rw [List.length_append, hlen]; rfl
    have := scan_token_eof A
      ⟨d ++ '.' :: e ++ ['.'], d.length + 1 + e.length, d.length + 1 + e.length + 1, 1⟩ heap1
      (by show d.length + 1 + e.length + 1 ≤ (d ++ '.' :: e ++ ['.']).length; omega)
      (by
        show char_at (d ++ '.' :: e ++ ['.']) (d.length + 1 + e.length + 1) = '\x00'
        exact char_at_of_le _ _ (by omega))
    exact this
  · intro q heap2 hq
    exact scan_number_error A heap heap2 q d [] hne hd (by decide) hq

/-- Witness for C34: the source `1.2.` scans as FLOAT `1.2`, DOT, EOF, and the
source `1.` gives the error token. -/
theorem C34_second_dot_after_float_witness :
    scan_token raw_allocator (init_lexer "1.2.".toList) ⟨[some 4096]⟩
        = some (⟨TOKEN_FLOAT, 1, some ⟨4096, "1.2".toList⟩⟩, ⟨"1.2.".toList, 0, 3, 1⟩, ⟨[]⟩) ∧
      scan_token raw_allocator ⟨"1.2.".toList, 0, 3, 1⟩ ⟨[]⟩
        = some (⟨TOKEN_DOT, 1, none⟩, ⟨"1.2.".toList, 3, 4, 1⟩, ⟨[]⟩) ∧
      scan_token raw_allocator ⟨"1.2.".toList, 3, 4, 1⟩ ⟨[]⟩
        = some (⟨TOKEN_EOF, 1, none⟩, ⟨"1.2.".toList, 4, 4, 1⟩, ⟨[]⟩) ∧
      scan_token raw_allocator (init_lexer "1.".toList) ⟨[some 4096]⟩
        = some (⟨TOKEN_ERROR, 1, some ⟨4096, "Invalid number literal".toList⟩⟩,
            ⟨"1.".toList, 0, 1, 1⟩, ⟨[]⟩) :=
  have h := C34_second_dot_after_float raw_allocator ⟨[some 4096]⟩ ⟨[]⟩ 4096 "1".toList
    "2".toList [] (by decide) (by decide) (by decide) (by decide) rfl
  ⟨h.1, h.2.2.1, h.2.2.2.1 rfl, h.2.2.2.2 4096 ⟨[]⟩ rfl⟩

end Dud
